import Mathlib

/-! # MPC core (`src/MPC.cpp`, `src/MPC.h`): cost/constraint evaluator and solver facade

Shallow embedding of `FG_eval::operator()` and `MPC::Solve`.

* Numbers.  The evaluator is written once for every numeric type (the source
  instantiates it at `CppAD::AD<double>`); here it is generic over a field `α`
  (ordered where values are compared with bounds), and the three
  transcendental functions it calls come in a `Trig α` record.  Arithmetic is
  exact field arithmetic.
* Vectors (`CPPAD_TESTVECTOR`, `Eigen::VectorXd`, `std::vector`) are lists.
  Every element access is checked: a read or write outside the vector makes
  the whole run `none`.
* `size_t` values are natural numbers.  Subtraction wraps modulo `2^64` when it
  underflows (`size_sub`); sums never reach `2^64` for any horizon whose
  vectors fit in memory, so additions are plain.
* The horizon length is a parameter `n` of every definition; the configured
  value is `N = 10`.
* The interior-point solver is external: `MPC.Solve` takes it as a function
  from the problem it is handed to the result it reports.
* A freshly allocated vector holds whatever `fill` says until the program
  assigns it, so that nothing proved depends on how the allocator fills it.
-/

namespace MPC

/-! ## Configuration constants (MPC.cpp, lines 8-43) -/

/-- The weight `STEER_TUNER` of the steering-smoothness term. -/
def STEER_TUNER : Nat := 500

/-- The number of state components: x, y, psi, v, cte, epsi. -/
def STATE_VECTOR_SIZE : Nat := 6

/-- The number of actuators: delta, a. -/
def ACTUATOR_VECTOR_SIZE : Nat := 2

/-- The configured horizon length `N`. -/
def N : Nat := 10

/-- Subtraction of `size_t` values: wraps modulo `2^64` on underflow. -/
def size_sub (a b : Nat) : Nat := if b ≤ a then a - b else a + 2 ^ 64 - b

section Constants
variable {α : Type} [Field α]

/-- The timestep `dt`, in seconds. -/
def dt : α := 0.1

/-- The reference speed `ref_v`. -/
def ref_v : α := 30

/-- The reference cross-track error `ref_cte`. -/
def ref_cte : α := 0

/-- The reference heading error `ref_epsi`. -/
def ref_epsi : α := 0

/-- The geometry constant `Lf`. -/
def Lf : α := 2.67

end Constants

/-! ## Layout offsets (MPC.cpp, lines 23-30) -/

/-- Offset `x_start` of the x segment. -/
def x_start : Nat := 0

/-- Offset `y_start` of the y segment. -/
def y_start (n : Nat) : Nat := x_start + n

/-- Offset `psi_start` of the psi segment. -/
def psi_start (n : Nat) : Nat := y_start n + n

/-- Offset `v_start` of the v segment. -/
def v_start (n : Nat) : Nat := psi_start n + n

/-- Offset `cte_start` of the cte segment. -/
def cte_start (n : Nat) : Nat := v_start n + n

/-- Offset `epsi_start` of the epsi segment. -/
def epsi_start (n : Nat) : Nat := cte_start n + n

/-- Offset `delta_start` of the steering segment. -/
def delta_start (n : Nat) : Nat := epsi_start n + n

/-- Offset `a_start` of the acceleration segment: `delta_start + N - 1`. -/
def a_start (n : Nat) : Nat := size_sub (delta_start n + n) 1

/-- The eight segments of the decision vector as (offset, length) pairs: the six state
trajectories, which the loops index with `t < N`, then the steering and the acceleration
trajectories, which they index with `t < N - 1`. -/
def segments (n : Nat) : List (Nat × Nat) :=
  [(x_start, n), (y_start n, n), (psi_start n, n), (v_start n, n), (cte_start n, n),
   (epsi_start n, n), (delta_start n, size_sub n 1), (a_start n, size_sub n 1)]

/-! ## Checked vector access and counted loops -/

section Vectors
variable {α : Type}

/-- Read `v[i]`; `none` when `i` is outside the vector. -/
def rd (v : List α) (i : Nat) : Option α := v[i]?

/-- Write `v[i] = a`; `none` when `i` is outside the vector. -/
def wr (v : List α) (i : Nat) (a : α) : Option (List α) :=
  if i < v.length then some (v.set i a) else none

/-- The statement `dst[i] = src[j]`. -/
def assignFrom (dst : List α) (i : Nat) (src : List α) (j : Nat) : Option (List α) := do
  let a ← rd src j
  wr dst i a

/-- Assign every listed (index, value) pair, in order. -/
def setAll (ws : List (Nat × α)) (fg : List α) : List α :=
  ws.foldl (fun fg p => fg.set p.1 p.2) fg

/-- Run `body t` for `t = lo, lo+1, ...`, `k` times, stopping at the first failure. -/
def loopFrom {σ : Type} (body : Nat → σ → Option σ) : Nat → Nat → σ → Option σ
  | _, 0, s => some s
  | lo, k + 1, s => (body lo s).bind (loopFrom body (lo + 1) k)

/-- The loop `for (t = lo; t < hi; t++) body`. -/
def forLoop {σ : Type} (lo hi : Nat) (s : σ) (body : Nat → σ → Option σ) : Option σ :=
  loopFrom body lo (hi - lo) s

end Vectors

/-! ## The evaluator `FG_eval::operator()` (MPC.cpp, lines 54-149) -/

/-- The functions `CppAD::cos`, `CppAD::sin`, `CppAD::atan` of the numeric type. -/
structure Trig (α : Type) where
  cos : α → α
  sin : α → α
  atan : α → α

section Evaluator
variable {α : Type} [Field α]

/-- The statement `fg[i] += e`. -/
def addTo (fg : List α) (i : Nat) (e : α) : Option (List α) := do
  let cur ← rd fg i
  wr fg i (cur + e)

/-- The body of the first cost loop (lines 70-72): tracking terms of timestep `t`. -/
def costRefBody (n : Nat) (vars : List α) (t : Nat) (fg : List α) : Option (List α) := do
  let fg ← addTo fg 0 (((← rd vars (cte_start n + t)) - ref_cte) ^ 2)
  let fg ← addTo fg 0 (((← rd vars (epsi_start n + t)) - ref_epsi) ^ 2)
  addTo fg 0 (((← rd vars (v_start n + t)) - ref_v) ^ 2)

/-- The body of the second cost loop (lines 77-78): effort terms of control sample `t`. -/
def costActBody (n : Nat) (vars : List α) (t : Nat) (fg : List α) : Option (List α) := do
  let fg ← addTo fg 0 ((← rd vars (delta_start n + t)) ^ 2)
  addTo fg 0 ((← rd vars (a_start n + t)) ^ 2)

/-- The body of the third cost loop (lines 83-84): smoothness terms of the pair `t, t+1`. -/
def costGapBody (n : Nat) (vars : List α) (t : Nat) (fg : List α) : Option (List α) := do
  let fg ← addTo fg 0
    ((STEER_TUNER : α) * ((← rd vars (delta_start n + t + 1)) - (← rd vars (delta_start n + t))) ^ 2)
  addTo fg 0 (((← rd vars (a_start n + t + 1)) - (← rd vars (a_start n + t))) ^ 2)

/-- The six state entries read at one timestep. -/
structure StateAt (α : Type) where
  x : α
  y : α
  psi : α
  v : α
  cte : α
  epsi : α

/-- Lines 107-112: `x1 .. epsi1`, the state entries of `vars` at time `t`. -/
def readNext (n : Nat) (vars : List α) (t : Nat) : Option (StateAt α) := do
  let x1 ← rd vars (x_start + t)
  let y1 ← rd vars (y_start n + t)
  let psi1 ← rd vars (psi_start n + t)
  let v1 ← rd vars (v_start n + t)
  let cte1 ← rd vars (cte_start n + t)
  let epsi1 ← rd vars (epsi_start n + t)
  pure ⟨x1, y1, psi1, v1, cte1, epsi1⟩

/-- Lines 115-120: `x0 .. epsi0`, the state entries of `vars` at time `t - 1`. -/
def readPrev (n : Nat) (vars : List α) (t : Nat) : Option (StateAt α) := do
  let x0 ← rd vars (x_start + t - 1)
  let y0 ← rd vars (y_start n + t - 1)
  let psi0 ← rd vars (psi_start n + t - 1)
  let v0 ← rd vars (v_start n + t - 1)
  let cte0 ← rd vars (cte_start n + t - 1)
  let epsi0 ← rd vars (epsi_start n + t - 1)
  pure ⟨x0, y0, psi0, v0, cte0, epsi0⟩

/-- Lines 123-124: `delta0`, `a0`, the actuation entries of `vars` at time `t - 1`. -/
def readActuation (n : Nat) (vars : List α) (t : Nat) : Option (α × α) := do
  let delta0 ← rd vars (delta_start n + t - 1)
  let a0 ← rd vars (a_start n + t - 1)
  pure (delta0, a0)

/-- Lines 127-128: `f0` and `psides0`, the reference polynomial and the arc tangent of its
derivative at `x0`. -/
def readReference (T : Trig α) (coeffs : List α) (x0 : α) : Option (α × α) := do
  let c0 ← rd coeffs 0
  let c1 ← rd coeffs 1
  let c2 ← rd coeffs 2
  let c3 ← rd coeffs 3
  let f0 : α := c0 + c1 * x0 + c2 * x0 * x0 + c3 * x0 * x0 * x0
  let psides0 : α := T.atan (c1 + 2 * c2 * x0 + 3 * c3 * x0 * x0)
  pure (f0, psides0)

/-- Lines 140-147: the six residuals of timestep `t` go into `fg`. -/
def writeResiduals (T : Trig α) (n : Nat) (t : Nat) (s1 s0 : StateAt α) (delta0 a0 f0 psides0 : α)
    (fg : List α) : Option (List α) := do
  let fg ← wr fg (1 + x_start + t) (s1.x - (s0.x + s0.v * T.cos s0.psi * dt))
  let fg ← wr fg (1 + y_start n + t) (s1.y - (s0.y + s0.v * T.sin s0.psi * dt))
  let fg ← wr fg (1 + psi_start n + t) (s1.psi - (s0.psi + s0.v * delta0 / Lf * dt))
  let fg ← wr fg (1 + v_start n + t) (s1.v - (s0.v + a0 * dt))
  let fg ← wr fg (1 + cte_start n + t) (s1.cte - ((f0 - s0.y) + (s0.v * T.sin s0.epsi * dt)))
  wr fg (1 + epsi_start n + t) (s1.epsi - ((s0.psi - psides0) + s0.v * delta0 / Lf * dt))

/-- The body of the model loop (lines 107-147): the six residuals of timestep `t`. -/
def modelBody (T : Trig α) (n : Nat) (coeffs vars : List α) (t : Nat) (fg : List α) :
    Option (List α) := do
  let s1 ← readNext n vars t
  let s0 ← readPrev n vars t
  let u0 ← readActuation n vars t
  let r0 ← readReference T coeffs s0.x
  writeResiduals T n t s1 s0 u0.1 u0.2 r0.1 r0.2 fg

/-- Lines 95-100: the rows of `fg` that carry the initial state. -/
def initRows (n : Nat) (vars fg : List α) : Option (List α) := do
  let fg ← assignFrom fg (1 + x_start) vars x_start
  let fg ← assignFrom fg (1 + y_start n) vars (y_start n)
  let fg ← assignFrom fg (1 + psi_start n) vars (psi_start n)
  let fg ← assignFrom fg (1 + v_start n) vars (v_start n)
  let fg ← assignFrom fg (1 + cte_start n) vars (cte_start n)
  assignFrom fg (1 + epsi_start n) vars (epsi_start n)

/-- Lines 66-85 of `FG_eval::operator()`: the cost, accumulated in `fg[0]`. -/
def costPart (n : Nat) (vars fg : List α) : Option (List α) := do
  let fg ← wr fg 0 0
  let fg ← forLoop 0 n fg (costRefBody n vars)
  let fg ← forLoop 0 (size_sub n 1) fg (costActBody n vars)
  forLoop 0 (size_sub n 2) fg (costGapBody n vars)

/-- Lines 95-148 of `FG_eval::operator()`: the constraint rows `fg[1 ..]`. -/
def constraintPart (T : Trig α) (n : Nat) (coeffs vars fg : List α) : Option (List α) := do
  let fg ← initRows n vars fg
  forLoop 1 n fg (modelBody T n coeffs vars)

/-- The evaluator `FG_eval::operator()(fg, vars)`: the contents of `fg` after the call. -/
def FG_eval (T : Trig α) (n : Nat) (coeffs fg vars : List α) : Option (List α) := do
  let fg ← costPart n vars fg
  constraintPart T n coeffs vars fg

end Evaluator

/-! ## The facade `MPC::Solve` (MPC.h, lines 9-14; MPC.cpp, lines 159-290) -/

/-- The record `Solution` that `MPC::Solve` returns (MPC.h). -/
structure Solution (α : Type) where
  x_points : List α
  y_points : List α
  delta_actuation : α
  a_actuation : α

/-- The termination status `CppAD::ipopt::solve_result::status_type` of the solver. -/
inductive status_type where
  | not_defined
  | success
  | maxiter_exceeded
  | stop_at_tiny_step
  | stop_at_acceptable_point
  | local_infeasibility
  | user_requested_stop
  | feasible_point_found
  | diverging_iterates
  | restoration_failure
  | error_in_step_computation
  | invalid_number_detected
  | too_few_degrees_of_freedom
  | internal_error
  | unknown
  deriving DecidableEq, Repr

/-- The fields of `CppAD::ipopt::solve_result` that `MPC::Solve` reads. -/
structure solve_result (α : Type) where
  status : status_type
  x : List α
  obj_value : α

/-- The arguments of the call `CppAD::ipopt::solve(options, vars, vars_lowerbound,
vars_upperbound, constraints_lowerbound, constraints_upperbound, fg_eval, solution)`. -/
structure Problem (α : Type) where
  options : String
  vars : List α
  vars_lowerbound : List α
  vars_upperbound : List α
  constraints_lowerbound : List α
  constraints_upperbound : List α
  fg_eval : List α → List α → Option (List α)

/-- What one call of `MPC::Solve` produces: the number it prints after the word Cost, and the
record it returns. -/
structure Outcome (α : Type) where
  printed_cost : α
  soln : Solution α

section Facade
variable {α : Type} [Field α]

/-- The number of variables `n_vars` (line 168). -/
def n_vars (n : Nat) : Nat := STATE_VECTOR_SIZE * n + ACTUATOR_VECTOR_SIZE * size_sub n 1

/-- The number of constraints `n_constraints` (line 171). -/
def n_constraints (n : Nat) : Nat := STATE_VECTOR_SIZE * n

/-- A freshly allocated `Dvector` of size `n`; `fill i` is whatever entry `i` holds before the
program assigns it. -/
def Dvector (fill : Nat → α) (n : Nat) : List α := (List.range n).map fill

/-- Lines 181-186: the initial state goes into the first entry of each state segment. -/
def setInitialState (n : Nat) (state vars : List α) : Option (List α) := do
  let vars ← assignFrom vars x_start state 0
  let vars ← assignFrom vars (y_start n) state 1
  let vars ← assignFrom vars (psi_start n) state 2
  let vars ← assignFrom vars (v_start n) state 3
  let vars ← assignFrom vars (cte_start n) state 4
  assignFrom vars (epsi_start n) state 5

/-- The body of the three loops of lines 193-208: entry `i` of both bound vectors. -/
def boundsBody (lo hi : α) (i : Nat) (b : List α × List α) : Option (List α × List α) := do
  let lower ← wr b.1 i lo
  let upper ← wr b.2 i hi
  pure (lower, upper)

/-- Lines 219-224 and 226-231: the rows of one constraint-bound vector that carry the
initial state, copied from `vars`. -/
def pinInitialState (n : Nat) (vars bound : List α) : Option (List α) := do
  let bound ← assignFrom bound x_start vars x_start
  let bound ← assignFrom bound (y_start n) vars (y_start n)
  let bound ← assignFrom bound (psi_start n) vars (psi_start n)
  let bound ← assignFrom bound (v_start n) vars (v_start n)
  let bound ← assignFrom bound (cte_start n) vars (cte_start n)
  assignFrom bound (epsi_start n) vars (epsi_start n)

/-- Lines 240-252: the option string handed to the solver. -/
def solverOptions : String :=
  "Integer print_level  0\n" ++ "Sparse  true        forward\n"
    ++ "Sparse  true        reverse\n" ++ "Numeric max_cpu_time          0.5\n"

/-- Lines 160-253 of `MPC::Solve`: the problem handed to the solver.  `fill k` gives the
contents of the `k`-th allocated vector before it is assigned. -/
def buildProblem (T : Trig α) (fill : Nat → Nat → α) (n : Nat) (state coeffs : List α) :
    Option (Problem α) := do
  let vars ← forLoop 0 (n_vars n) (Dvector (fill 0) (n_vars n)) (fun i vars => wr vars i 0)
  let vars ← setInitialState n state vars
  let bounds : List α × List α := (Dvector (fill 1) (n_vars n), Dvector (fill 2) (n_vars n))
  let bounds ← forLoop 0 (delta_start n) bounds (boundsBody (-1.0e19) 1.0e19)
  let bounds ← forLoop (delta_start n) (a_start n) bounds (boundsBody (-0.436332) 0.436332)
  let bounds ← forLoop (a_start n) (n_vars n) bounds (boundsBody (-1.0) 1.0)
  let cbounds : List α × List α :=
    (Dvector (fill 3) (n_constraints n), Dvector (fill 4) (n_constraints n))
  let cbounds ← forLoop 0 (n_constraints n) cbounds (boundsBody 0 0)
  let constraints_lowerbound ← pinInitialState n vars cbounds.1
  let constraints_upperbound ← pinInitialState n vars cbounds.2
  pure ⟨solverOptions, vars, bounds.1, bounds.2, constraints_lowerbound,
    constraints_upperbound, FG_eval T n coeffs⟩

/-- The body of the loop of lines 284-287: one point of the predicted trajectory. -/
def pointsBody (n : Nat) (x : List α) (i : Nat) (pts : List α × List α) :
    Option (List α × List α) := do
  let px ← rd x (x_start + i)
  let py ← rd x (y_start n + i)
  pure (pts.1 ++ [px], pts.2 ++ [py])

/-- Lines 262-289 of `MPC::Solve`: what is made of the solver result.  `_ok` is the variable
`ok` of lines 160 and 263, which no later line reads; `cost` is the number printed. -/
def readSolution (n : Nat) (solution : solve_result α) : Option (Outcome α) := do
  let _ok : Bool := true && decide (solution.status = status_type.success)
  let cost := solution.obj_value
  let delta_actuation ← rd solution.x (delta_start n + 1)
  let a_actuation ← rd solution.x (a_start n + 1)
  let pts ← forLoop 0 (size_sub n 1) (([], []) : List α × List α) (pointsBody n solution.x)
  pure ⟨cost, ⟨pts.1, pts.2, delta_actuation, a_actuation⟩⟩

/-- The facade `MPC::Solve(state, coeffs)`, for a given solver. -/
def Solve (T : Trig α) (solver : Problem α → solve_result α) (fill : Nat → Nat → α) (n : Nat)
    (state coeffs : List α) : Option (Outcome α) := do
  let problem ← buildProblem T fill n state coeffs
  readSolution n (solver problem)

end Facade

/-! ## Named entries of a decision vector -/

section Entries
variable {α : Type} [Field α]

/-- The entry `x[t]` of a decision vector (0 outside the vector). -/
def x_at (vars : List α) (t : Nat) : α := vars.getD (x_start + t) 0

/-- The entry `y[t]` of a decision vector. -/
def y_at (n : Nat) (vars : List α) (t : Nat) : α := vars.getD (y_start n + t) 0

/-- The entry `psi[t]` of a decision vector. -/
def psi_at (n : Nat) (vars : List α) (t : Nat) : α := vars.getD (psi_start n + t) 0

/-- The entry `v[t]` of a decision vector. -/
def v_at (n : Nat) (vars : List α) (t : Nat) : α := vars.getD (v_start n + t) 0

/-- The entry `cte[t]` of a decision vector. -/
def cte_at (n : Nat) (vars : List α) (t : Nat) : α := vars.getD (cte_start n + t) 0

/-- The entry `epsi[t]` of a decision vector. -/
def epsi_at (n : Nat) (vars : List α) (t : Nat) : α := vars.getD (epsi_start n + t) 0

/-- The entry `delta[t]` of a decision vector. -/
def delta_at (n : Nat) (vars : List α) (t : Nat) : α := vars.getD (delta_start n + t) 0

/-- The entry `a[t]` of a decision vector. -/
def a_at (n : Nat) (vars : List α) (t : Nat) : α := vars.getD (a_start n + t) 0

end Entries

/-! ## Closed forms used in the proofs -/

section ClosedForms
variable {α : Type} [Field α]

/-- The (index, value) pairs that lines 95-100 assign. -/
def initPairs (n : Nat) (vars : List α) : List (Nat × α) :=
  [(1 + x_start, vars.getD x_start 0), (1 + y_start n, vars.getD (y_start n) 0),
   (1 + psi_start n, vars.getD (psi_start n) 0), (1 + v_start n, vars.getD (v_start n) 0),
   (1 + cte_start n, vars.getD (cte_start n) 0), (1 + epsi_start n, vars.getD (epsi_start n) 0)]

/-- The value `f0` of line 127 at timestep `t`. -/
def f0_at (coeffs vars : List α) (t : Nat) : α :=
  coeffs.getD 0 0 + coeffs.getD 1 0 * x_at vars (t - 1)
    + coeffs.getD 2 0 * x_at vars (t - 1) * x_at vars (t - 1)
    + coeffs.getD 3 0 * x_at vars (t - 1) * x_at vars (t - 1) * x_at vars (t - 1)

/-- The value `psides0` of line 128 at timestep `t`. -/
def psides0_at (T : Trig α) (coeffs vars : List α) (t : Nat) : α :=
  T.atan (coeffs.getD 1 0 + 2 * coeffs.getD 2 0 * x_at vars (t - 1)
    + 3 * coeffs.getD 3 0 * x_at vars (t - 1) * x_at vars (t - 1))

/-- The (index, value) pairs that lines 140-147 assign at timestep `t`. -/
def rowsAt (T : Trig α) (n : Nat) (coeffs vars : List α) (t : Nat) : List (Nat × α) :=
  [(1 + x_start + t, x_at vars t
      - (x_at vars (t - 1) + v_at n vars (t - 1) * T.cos (psi_at n vars (t - 1)) * dt)),
   (1 + y_start n + t, y_at n vars t
      - (y_at n vars (t - 1) + v_at n vars (t - 1) * T.sin (psi_at n vars (t - 1)) * dt)),
   (1 + psi_start n + t, psi_at n vars t
      - (psi_at n vars (t - 1) + v_at n vars (t - 1) * delta_at n vars (t - 1) / Lf * dt)),
   (1 + v_start n + t, v_at n vars t - (v_at n vars (t - 1) + a_at n vars (t - 1) * dt)),
   (1 + cte_start n + t, cte_at n vars t
      - ((f0_at coeffs vars t - y_at n vars (t - 1))
          + (v_at n vars (t - 1) * T.sin (epsi_at n vars (t - 1)) * dt))),
   (1 + epsi_start n + t, epsi_at n vars t
      - ((psi_at n vars (t - 1) - psides0_at T coeffs vars t)
          + v_at n vars (t - 1) * delta_at n vars (t - 1) / Lf * dt))]

/-- The cost that lines 66-85 accumulate in `fg[0]`, with each loop as a sum. -/
def costValue (n : Nat) (vars : List α) : α :=
  0 + ∑ t in Finset.range n, ((cte_at n vars t - ref_cte) ^ 2
        + (epsi_at n vars t - ref_epsi) ^ 2 + (v_at n vars t - ref_v) ^ 2)
    + ∑ t in Finset.range (n - 1), (delta_at n vars t ^ 2 + a_at n vars t ^ 2)
    + ∑ t in Finset.range (n - 2),
        ((STEER_TUNER : α) * (delta_at n vars (t + 1) - delta_at n vars t) ^ 2
          + (a_at n vars (t + 1) - a_at n vars t) ^ 2)

/-- The (index, value) pairs that lines 181-186 assign. -/
def statePairs (n : Nat) (state : List α) : List (Nat × α) :=
  [(x_start, state.getD 0 0), (y_start n, state.getD 1 0), (psi_start n, state.getD 2 0),
   (v_start n, state.getD 3 0), (cte_start n, state.getD 4 0), (epsi_start n, state.getD 5 0)]

/-- The (index, value) pairs that lines 219-224, and again lines 226-231, assign. -/
def pinPairs (n : Nat) (vars : List α) : List (Nat × α) :=
  [(x_start, vars.getD x_start 0), (y_start n, vars.getD (y_start n) 0),
   (psi_start n, vars.getD (psi_start n) 0), (v_start n, vars.getD (v_start n) 0),
   (cte_start n, vars.getD (cte_start n) 0), (epsi_start n, vars.getD (epsi_start n) 0)]

end ClosedForms

/-! ## The kinematic model of the specification (section 4.1) -/

section Model
variable {α : Type} [Field α]

/-- The six state entries of a decision vector at timestep `t`. -/
def state_at (n : Nat) (vars : List α) (t : Nat) : StateAt α :=
  ⟨x_at vars t, y_at n vars t, psi_at n vars t, v_at n vars t, cte_at n vars t,
    epsi_at n vars t⟩

/-- The value `poly(coeffs, x)` of the specification: the polynomial with the given
coefficients, lowest degree first, at `x`. -/
def poly (coeffs : List α) (x : α) : α :=
  ((List.range coeffs.length).map (fun (i : Nat) => coeffs.getD i 0 * x ^ i)).sum

/-- The value `poly_derivative(coeffs, x)` of the specification: the derivative of that
polynomial at `x`. -/
def poly_derivative (coeffs : List α) (x : α) : α :=
  ((List.range coeffs.length).map
    (fun (i : Nat) => (i : α) * coeffs.getD i 0 * x ^ (i - 1))).sum

/-- One step of the kinematic model as section 4.1 of the specification writes it: the state
at `t` from the state `s` and the controls `delta`, `a` at `t - 1`. -/
def model_step (T : Trig α) (coeffs : List α) (s : StateAt α) (delta a : α) : StateAt α where
  x := s.x + s.v * T.cos s.psi * dt
  y := s.y + s.v * T.sin s.psi * dt
  psi := s.psi + s.v / Lf * delta * dt
  v := s.v + a * dt
  cte := (poly coeffs s.x - s.y) + s.v * T.sin s.epsi * dt
  epsi := (s.psi - T.atan (poly_derivative coeffs s.x)) + s.v * delta / Lf * dt

/-- Simulation of the model from the state `s0` under the control sequences `delta`, `a`:
the state at timestep `t`. -/
def simulate (T : Trig α) (coeffs : List α) (s0 : StateAt α) (delta a : Nat → α) :
    Nat → StateAt α
  | 0 => s0
  | t + 1 => model_step T coeffs (simulate T coeffs s0 delta a t) (delta t) (a t)

/-- Entry `j` of the decision vector that holds a simulation: six state segments, then the
two control segments. -/
def rolloutEntry (T : Trig α) (n : Nat) (coeffs : List α) (s0 : StateAt α) (delta a : Nat → α)
    (j : Nat) : α :=
  if j < y_start n then (simulate T coeffs s0 delta a (j - x_start)).x
  else if j < psi_start n then (simulate T coeffs s0 delta a (j - y_start n)).y
  else if j < v_start n then (simulate T coeffs s0 delta a (j - psi_start n)).psi
  else if j < cte_start n then (simulate T coeffs s0 delta a (j - v_start n)).v
  else if j < epsi_start n then (simulate T coeffs s0 delta a (j - cte_start n)).cte
  else if j < delta_start n then (simulate T coeffs s0 delta a (j - epsi_start n)).epsi
  else if j < a_start n then delta (j - delta_start n)
  else a (j - a_start n)

/-- The decision vector made of the simulation from `s0` under the controls `delta`, `a`. -/
def rollout (T : Trig α) (n : Nat) (coeffs : List α) (s0 : StateAt α) (delta a : Nat → α) :
    List α :=
  (List.range (n_vars n)).map (rolloutEntry T n coeffs s0 delta a)

/-- The assignments of lines 95-148 in the order in which they are executed. -/
def fgWrites (T : Trig α) (n : Nat) (coeffs vars : List α) : List (Nat × α) :=
  initPairs n vars ++ (List.range' 1 (n - 1)).flatMap (rowsAt T n coeffs vars)

end Model

/-! ## The optimisation problem: feasible vectors and minimisers -/

section Optimum
variable {α : Type} [LinearOrderedField α]

/-- A decision vector satisfies the variable bounds and the constraint bounds of a problem;
`fg` is the vector on which the evaluator is run. -/
def feasible (p : Problem α) (fg vars : List α) : Prop :=
  vars.length = p.vars.length
  ∧ (∀ j, j < p.vars.length →
      p.vars_lowerbound.getD j 0 ≤ vars.getD j 0 ∧ vars.getD j 0 ≤ p.vars_upperbound.getD j 0)
  ∧ ∃ g, p.fg_eval fg vars = some g ∧ ∀ i, i < p.constraints_lowerbound.length →
      p.constraints_lowerbound.getD i 0 ≤ g.getD (1 + i) 0
      ∧ g.getD (1 + i) 0 ≤ p.constraints_upperbound.getD i 0

/-- The cost of a decision vector: entry 0 of what the evaluator returns (0 when it does not
return). -/
def objective (p : Problem α) (fg vars : List α) : α :=
  match p.fg_eval fg vars with
  | some g => g.getD 0 0
  | none => 0

/-- A feasible decision vector whose cost no feasible decision vector undercuts. -/
def minimises (p : Problem α) (fg vars : List α) : Prop :=
  feasible p fg vars ∧ ∀ w, feasible p fg w → objective p fg vars ≤ objective p fg w

end Optimum

/-! ## Sample inputs -/

/-- Stand-ins for cosine, sine and arc tangent on the rationals. -/
def sampleTrig : Trig ℚ := ⟨fun _ => 1, fun x => x, fun x => x⟩

/-- A decision vector for the configured horizon: entry `i` is `i / 10`. -/
def sampleVars : List ℚ := (List.range 78).map (fun i => (i : ℚ) / 10)

/-- A vector `fg` as the solver allocates it for the configured horizon. -/
def sampleFg : List ℚ := List.replicate 61 7

/-- The coefficients of the line `y = x`. -/
def sampleCoeffs : List ℚ := [0, 1, 0, 0]

/-- A vehicle state (x, y, psi, v, cte, epsi). -/
def sampleState : List ℚ := [1, 2, 3, 4, 5, 6]

/-- A solver that reports success and returns its initial guess. -/
def sampleSolver : Problem ℚ → solve_result ℚ := fun q => ⟨status_type.success, q.vars, 0⟩

/-- The same solver, reporting that it ran out of iterations. -/
def failingSolver : Problem ℚ → solve_result ℚ :=
  fun q => ⟨status_type.maxiter_exceeded, q.vars, 0⟩

/-- A solver that reports success and returns the zero vector. -/
def zeroSolver : Problem ℚ → solve_result ℚ :=
  fun q => ⟨status_type.success, List.replicate q.vars.length 0, 0⟩

/-- Contents of freshly allocated vectors. -/
def sampleFill : Nat → Nat → ℚ := fun _ _ => 77

/-- A decision vector for the configured horizon that is 0 everywhere except `y[0] = 1`. -/
def unitYVars : List ℚ := (List.replicate 78 0).set 10 1

/-- A state vector with one entry too many. -/
def longState : List ℚ := [1, 2, 3, 4, 5, 6, 7]

/-- A coefficient vector with one entry too many. -/
def longCoeffs : List ℚ := [0, 1, 0, 0, 5]

/-- The flat reference path: all coefficients zero. -/
def flatCoeffs : List ℚ := [0, 0, 0, 0]

/-- The decision vector that is 0 everywhere. -/
def zeroVars : List ℚ := List.replicate 78 0

end MPC

/-! # Offsets and checked access -/

namespace MPC

/-! ## Offsets in closed form -/

theorem size_sub_of_le {a b : Nat} (h : b ≤ a) : size_sub a b = a - b := by
  simp [size_sub, h]

theorem y_start_eq (n : Nat) : y_start n = n := by simp [y_start, x_start]

theorem psi_start_eq (n : Nat) : psi_start n = 2 * n := by
  simp [psi_start, y_start_eq]; omega

theorem v_start_eq (n : Nat) : v_start n = 3 * n := by
  simp [v_start, psi_start_eq]; omega

theorem cte_start_eq (n : Nat) : cte_start n = 4 * n := by
  simp [cte_start, v_start_eq]; omega

theorem epsi_start_eq (n : Nat) : epsi_start n = 5 * n := by
  simp [epsi_start, cte_start_eq]; omega

theorem delta_start_eq (n : Nat) : delta_start n = 6 * n := by
  simp [delta_start, epsi_start_eq]; omega

theorem a_start_eq {n : Nat} (h : 1 ≤ n) : a_start n = 7 * n - 1 := by
  rw [a_start, delta_start_eq, size_sub_of_le (by omega)]; omega

theorem n_vars_eq {n : Nat} (h : 1 ≤ n) : n_vars n = 8 * n - 2 := by
  rw [n_vars, size_sub_of_le h]; simp [STATE_VECTOR_SIZE, ACTUATOR_VECTOR_SIZE]; omega

theorem n_constraints_eq (n : Nat) : n_constraints n = 6 * n := by
  simp [n_constraints, STATE_VECTOR_SIZE]

/-! ## Checked access -/

section Access
variable {α : Type}

theorem rd_of_lt [Zero α] {v : List α} {i : Nat} (h : i < v.length) :
    rd v i = some (v.getD i 0) := by
  simp [rd, List.getD, List.getElem?_eq_getElem h]

theorem rd_eq_none {v : List α} {i : Nat} (h : v.length ≤ i) : rd v i = none := by
  simp [rd, h]

theorem wr_of_lt {v : List α} {i : Nat} (a : α) (h : i < v.length) :
    wr v i a = some (v.set i a) := by
  simp [wr, h]

theorem wr_eq_none {v : List α} {i : Nat} (a : α) (h : v.length ≤ i) : wr v i a = none := by
  simp [wr]; omega

theorem assignFrom_of_lt [Zero α] {dst src : List α} {i j : Nat} (hi : i < dst.length)
    (hj : j < src.length) : assignFrom dst i src j = some (dst.set i (src.getD j 0)) := by
  simp [assignFrom, rd_of_lt hj, wr_of_lt _ hi]

/-- Invariant rule for counted loops: an invariant that every iteration re-establishes
holds when the loop ends, and the loop does end. -/
theorem loopFrom_inv {σ : Type} (body : Nat → σ → Option σ) (Inv : Nat → σ → Prop) :
    ∀ (k lo : Nat) (s : σ), Inv lo s →
      (∀ t s, lo ≤ t → t < lo + k → Inv t s → ∃ s', body t s = some s' ∧ Inv (t + 1) s') →
      ∃ s', loopFrom body lo k s = some s' ∧ Inv (lo + k) s' := by
  intro k
  induction k with
  | zero => intro lo s h0 _; exact ⟨s, rfl, by simpa using h0⟩
  | succ k ih =>
    intro lo s h0 hstep
    obtain ⟨s1, hs1, hinv1⟩ := hstep lo s (le_refl _) (by omega) h0
    obtain ⟨s2, hs2, hinv2⟩ := ih (lo + 1) s1 hinv1
      (fun t s ht1 ht2 hI => hstep t s (by omega) (by omega) hI)
    refine ⟨s2, ?_, ?_⟩
    · simp [loopFrom, hs1, hs2]
    · have : lo + (k + 1) = lo + 1 + k := by omega
      rw [this]; exact hinv2

theorem forLoop_inv {σ : Type} (body : Nat → σ → Option σ) (Inv : Nat → σ → Prop)
    (lo hi : Nat) (s : σ) (hle : lo ≤ hi) (h0 : Inv lo s)
    (hstep : ∀ t s, lo ≤ t → t < hi → Inv t s → ∃ s', body t s = some s' ∧ Inv (t + 1) s') :
    ∃ s', forLoop lo hi s body = some s' ∧ Inv hi s' := by
  obtain ⟨s', h1, h2⟩ := loopFrom_inv body Inv (hi - lo) lo s h0
    (fun t s ht1 ht2 hI => hstep t s ht1 (by omega) hI)
  refine ⟨s', h1, ?_⟩
  have : lo + (hi - lo) = hi := by omega
  rwa [this] at h2

end Access

end MPC

/-! # The cost loops -/

namespace MPC

section Cost
variable {α : Type} [Field α]

theorem addTo_zero (fg : List α) (a e : α) (h : 0 < fg.length) :
    addTo (fg.set 0 a) 0 e = some (fg.set 0 (a + e)) := by
  have h1 : rd (fg.set 0 a) 0 = some a := by
    simp [rd, List.getElem?_set, h]
  simp [addTo, h1, wr, h]

/-- A loop whose body adds `term t` to `fg[0]` leaves the sum of the terms there. -/
theorem forLoop_accumulate (body : Nat → List α → Option (List α)) (term : Nat → α)
    (fg : List α) (hi : Nat)
    (hbody : ∀ t a, t < hi → body t (fg.set 0 a) = some (fg.set 0 (a + term t))) (a : α) :
    forLoop 0 hi (fg.set 0 a) body = some (fg.set 0 (a + ∑ t in Finset.range hi, term t)) := by
  obtain ⟨s', h1, h2⟩ := forLoop_inv body
    (fun t s => s = fg.set 0 (a + ∑ i in Finset.range t, term i)) 0 hi (fg.set 0 a)
    (Nat.zero_le _) (by simp)
    (fun t s _ ht hI => by
      subst hI
      refine ⟨_, hbody t _ ht, ?_⟩
      simp only [Finset.sum_range_succ, add_assoc])
  rw [h1, h2]

theorem costRefBody_spec {n : Nat} {vars : List α} (hn : 1 ≤ n) (hv : vars.length = n_vars n)
    (fg : List α) (h0 : 0 < fg.length) (t : Nat) (a : α) (ht : t < n) :
    costRefBody n vars t (fg.set 0 a) = some (fg.set 0 (a +
      ((cte_at n vars t - ref_cte) ^ 2 + (epsi_at n vars t - ref_epsi) ^ 2
        + (v_at n vars t - ref_v) ^ 2))) := by
  rw [n_vars_eq hn] at hv
  have h1 : cte_start n + t < vars.length := by rw [cte_start_eq]; omega
  have h2 : epsi_start n + t < vars.length := by rw [epsi_start_eq]; omega
  have h3 : v_start n + t < vars.length := by rw [v_start_eq]; omega
  simp only [costRefBody, rd_of_lt h1, rd_of_lt h2, rd_of_lt h3, addTo_zero _ _ _ h0,
    Option.bind_eq_bind, Option.some_bind, cte_at, epsi_at, v_at, add_assoc]

theorem costActBody_spec {n : Nat} {vars : List α} (hn : 1 ≤ n) (hv : vars.length = n_vars n)
    (fg : List α) (h0 : 0 < fg.length) (t : Nat) (a : α) (ht : t < n - 1) :
    costActBody n vars t (fg.set 0 a) = some (fg.set 0 (a +
      (delta_at n vars t ^ 2 + a_at n vars t ^ 2))) := by
  rw [n_vars_eq hn] at hv
  have h1 : delta_start n + t < vars.length := by rw [delta_start_eq]; omega
  have h2 : a_start n + t < vars.length := by rw [a_start_eq hn]; omega
  simp only [costActBody, rd_of_lt h1, rd_of_lt h2, addTo_zero _ _ _ h0,
    Option.bind_eq_bind, Option.some_bind, delta_at, a_at, add_assoc]

theorem costGapBody_spec {n : Nat} {vars : List α} (hn : 1 ≤ n) (hv : vars.length = n_vars n)
    (fg : List α) (h0 : 0 < fg.length) (t : Nat) (a : α) (ht : t < n - 2) :
    costGapBody n vars t (fg.set 0 a) = some (fg.set 0 (a +
      ((STEER_TUNER : α) * (delta_at n vars (t + 1) - delta_at n vars t) ^ 2
        + (a_at n vars (t + 1) - a_at n vars t) ^ 2))) := by
  rw [n_vars_eq hn] at hv
  have h1 : delta_start n + t < vars.length := by rw [delta_start_eq]; omega
  have h2 : a_start n + t < vars.length := by rw [a_start_eq hn]; omega
  have h3 : delta_start n + (t + 1) < vars.length := by rw [delta_start_eq]; omega
  have h4 : a_start n + (t + 1) < vars.length := by rw [a_start_eq hn]; omega
  simp only [costGapBody, rd_of_lt h1, rd_of_lt h2, rd_of_lt h3, rd_of_lt h4,
    addTo_zero _ _ _ h0, Option.bind_eq_bind, Option.some_bind, delta_at, a_at, add_assoc]

/-- The cost of a decision vector: tracking, effort and smoothness sums. -/
theorem costPart_spec {n : Nat} {vars : List α} (hn : 2 ≤ n) (hv : vars.length = n_vars n)
    (fg : List α) (h0 : 0 < fg.length) :
    costPart n vars fg = some (fg.set 0 (0
      + ∑ t in Finset.range n, ((cte_at n vars t - ref_cte) ^ 2
          + (epsi_at n vars t - ref_epsi) ^ 2 + (v_at n vars t - ref_v) ^ 2)
      + ∑ t in Finset.range (n - 1), (delta_at n vars t ^ 2 + a_at n vars t ^ 2)
      + ∑ t in Finset.range (n - 2),
          ((STEER_TUNER : α) * (delta_at n vars (t + 1) - delta_at n vars t) ^ 2
            + (a_at n vars (t + 1) - a_at n vars t) ^ 2))) := by
  have hn1 : 1 ≤ n := by omega
  simp only [costPart, wr_of_lt _ h0, Option.bind_eq_bind, Option.some_bind,
    size_sub_of_le hn1, size_sub_of_le hn]
  rw [forLoop_accumulate _ _ fg n (fun t a ht => costRefBody_spec hn1 hv fg h0 t a ht)]
  simp only [Option.some_bind]
  rw [forLoop_accumulate _ _ fg (n - 1) (fun t a ht => costActBody_spec hn1 hv fg h0 t a ht)]
  simp only [Option.some_bind]
  rw [forLoop_accumulate _ _ fg (n - 2) (fun t a ht => costGapBody_spec hn1 hv fg h0 t a ht)]

end Cost

end MPC

/-! # Sequences of assignments -/

namespace MPC

section Writes
variable {α : Type}

theorem length_setAll (ws : List (Nat × α)) (fg : List α) :
    (setAll ws fg).length = fg.length := by
  induction ws generalizing fg with
  | nil => rfl
  | cons p ws ih => simp [setAll, List.foldl_cons] at ih ⊢; rw [ih]; simp

theorem setAll_get_of_not_mem (ws : List (Nat × α)) (fg : List α) (j : Nat)
    (h : ∀ p ∈ ws, p.1 ≠ j) : (setAll ws fg)[j]? = fg[j]? := by
  induction ws generalizing fg with
  | nil => rfl
  | cons p ws ih =>
    have h1 : p.1 ≠ j := h p (List.mem_cons_self _ _)
    have h2 := ih (fg.set p.1 p.2) (fun q hq => h q (List.mem_cons_of_mem _ hq))
    simp only [setAll, List.foldl_cons] at h2 ⊢
    rw [h2, List.getElem?_set_ne h1]

theorem setAll_get_of_mem (ws : List (Nat × α)) (fg : List α)
    (hnd : (ws.map Prod.fst).Nodup) (hlt : ∀ p ∈ ws, p.1 < fg.length) (p : Nat × α)
    (hp : p ∈ ws) : (setAll ws fg)[p.1]? = some p.2 := by
  induction ws generalizing fg with
  | nil => simp at hp
  | cons q ws ih =>
    simp only [List.map_cons, List.nodup_cons] at hnd
    rcases List.mem_cons.1 hp with rfl | hp'
    · have h1 : ∀ r ∈ ws, r.1 ≠ p.1 := by
        intro r hr he
        exact hnd.1 (he ▸ List.mem_map_of_mem Prod.fst hr)
      have h2 := setAll_get_of_not_mem ws (fg.set p.1 p.2) p.1 h1
      simp only [setAll, List.foldl_cons] at h2 ⊢
      rw [h2]
      simp [List.getElem?_set, hlt p (List.mem_cons_self _ _)]
    · have h2 := ih (fg.set q.1 q.2) hnd.2
        (fun r hr => by simpa using hlt r (List.mem_cons_of_mem _ hr)) hp'
      simpa [setAll, List.foldl_cons] using h2

end Writes

end MPC

/-! # The rows of one timestep -/

namespace MPC

section Rows
variable {α : Type} [Field α]

theorem initRows_spec {n : Nat} {vars : List α} (hn : 1 ≤ n) (hv : vars.length = n_vars n)
    (fg : List α) (hfg : 1 + epsi_start n < fg.length) :
    initRows n vars fg = some (setAll (initPairs n vars) fg) := by
  rw [n_vars_eq hn] at hv
  rw [epsi_start_eq] at hfg
  have e1 := y_start_eq n
  have e2 := psi_start_eq n
  have e3 := v_start_eq n
  have e4 := cte_start_eq n
  have e5 := epsi_start_eq n
  have a0 : x_start < vars.length := by simp only [x_start]; omega
  have a1 : y_start n < vars.length := by omega
  have a2 : psi_start n < vars.length := by omega
  have a3 : v_start n < vars.length := by omega
  have a4 : cte_start n < vars.length := by omega
  have a5 : epsi_start n < vars.length := by omega
  have b0 : 1 + x_start < fg.length := by simp only [x_start]; omega
  have b1 : 1 + y_start n < fg.length := by omega
  have b2 : 1 + psi_start n < fg.length := by omega
  have b3 : 1 + v_start n < fg.length := by omega
  have b4 : 1 + cte_start n < fg.length := by omega
  have b5 : 1 + epsi_start n < fg.length := by omega
  simp only [initRows, assignFrom, rd_of_lt a0, rd_of_lt a1, rd_of_lt a2, rd_of_lt a3,
    rd_of_lt a4, rd_of_lt a5, wr, List.length_set, b0, b1, b2, b3, b4, b5, if_true,
    Option.bind_eq_bind, Option.some_bind, setAll, initPairs, List.foldl_cons, List.foldl_nil]

theorem modelBody_spec (T : Trig α) {n : Nat} {coeffs vars : List α} (hn : 1 ≤ n)
    (hv : vars.length = n_vars n) (hc : 4 ≤ coeffs.length) (fg : List α) (t : Nat)
    (ht1 : 1 ≤ t) (ht : t < n) (hfg : 1 + epsi_start n + t < fg.length) :
    modelBody T n coeffs vars t fg = some (setAll (rowsAt T n coeffs vars t) fg) := by
  rw [n_vars_eq hn] at hv
  rw [epsi_start_eq] at hfg
  have e1 := y_start_eq n
  have e2 := psi_start_eq n
  have e3 := v_start_eq n
  have e4 := cte_start_eq n
  have e5 := epsi_start_eq n
  have e6 := delta_start_eq n
  have e7 := a_start_eq hn
  have a0 : x_start + t < vars.length := by simp only [x_start]; omega
  have a1 : y_start n + t < vars.length := by omega
  have a2 : psi_start n + t < vars.length := by omega
  have a3 : v_start n + t < vars.length := by omega
  have a4 : cte_start n + t < vars.length := by omega
  have a5 : epsi_start n + t < vars.length := by omega
  have p0 : x_start + (t - 1) < vars.length := by simp only [x_start]; omega
  have p1 : y_start n + (t - 1) < vars.length := by omega
  have p2 : psi_start n + (t - 1) < vars.length := by omega
  have p3 : v_start n + (t - 1) < vars.length := by omega
  have p4 : cte_start n + t - 1 < vars.length := by omega
  have p5 : epsi_start n + (t - 1) < vars.length := by omega
  have p6 : delta_start n + (t - 1) < vars.length := by omega
  have p7 : a_start n + (t - 1) < vars.length := by omega
  have q0 : x_start + t - 1 = x_start + (t - 1) := by omega
  have q1 : y_start n + t - 1 = y_start n + (t - 1) := by omega
  have q2 : psi_start n + t - 1 = psi_start n + (t - 1) := by omega
  have q3 : v_start n + t - 1 = v_start n + (t - 1) := by omega
  have q5 : epsi_start n + t - 1 = epsi_start n + (t - 1) := by omega
  have q6 : delta_start n + t - 1 = delta_start n + (t - 1) := by omega
  have q7 : a_start n + t - 1 = a_start n + (t - 1) := by omega
  have c0 : 0 < coeffs.length := by omega
  have c1 : 1 < coeffs.length := by omega
  have c2 : 2 < coeffs.length := by omega
  have c3 : 3 < coeffs.length := by omega
  have b0 : 1 + x_start + t < fg.length := by simp only [x_start]; omega
  have b1 : 1 + y_start n + t < fg.length := by omega
  have b2 : 1 + psi_start n + t < fg.length := by omega
  have b3 : 1 + v_start n + t < fg.length := by omega
  have b4 : 1 + cte_start n + t < fg.length := by omega
  have b5 : 1 + epsi_start n + t < fg.length := by omega
  simp only [modelBody, readNext, readPrev, readActuation, readReference, writeResiduals,
    rd_of_lt a0, rd_of_lt a1, rd_of_lt a2, rd_of_lt a3, rd_of_lt a4, rd_of_lt a5,
    rd_of_lt p0, rd_of_lt p1, rd_of_lt p2, rd_of_lt p3, rd_of_lt p4, rd_of_lt p5,
    rd_of_lt p6, rd_of_lt p7, rd_of_lt c0, rd_of_lt c1, rd_of_lt c2, rd_of_lt c3,
    wr, List.length_set, b0, b1, b2, b3, b4, b5, if_true,
    Option.bind_eq_bind, Option.some_bind, Option.pure_def, setAll, rowsAt, List.foldl_cons,
    List.foldl_nil, x_at, y_at, psi_at, v_at, cte_at, epsi_at, delta_at, a_at, f0_at,
    psides0_at, q0, q1, q2, q3, q5, q6, q7]

end Rows

end MPC

/-! # The constraint rows -/

namespace MPC

section Constraint
variable {α : Type} [Field α]

theorem rowsAt_idx (T : Trig α) (n : Nat) (coeffs vars : List α) (t : Nat) (p : Nat × α)
    (hp : p ∈ rowsAt T n coeffs vars t) :
    p.1 = 1 + t ∨ p.1 = 1 + n + t ∨ p.1 = 1 + 2 * n + t ∨ p.1 = 1 + 3 * n + t
      ∨ p.1 = 1 + 4 * n + t ∨ p.1 = 1 + 5 * n + t := by
  simp only [rowsAt, List.mem_cons, List.mem_singleton, List.not_mem_nil, or_false,
    y_start_eq, psi_start_eq, v_start_eq, cte_start_eq, epsi_start_eq, x_start] at hp
  rcases hp with h | h | h | h | h | h <;> subst h <;> simp

theorem initPairs_idx (n : Nat) (vars : List α) (p : Nat × α) (hp : p ∈ initPairs n vars) :
    p.1 = 1 ∨ p.1 = 1 + n ∨ p.1 = 1 + 2 * n ∨ p.1 = 1 + 3 * n
      ∨ p.1 = 1 + 4 * n ∨ p.1 = 1 + 5 * n := by
  simp only [initPairs, List.mem_cons, List.mem_singleton, List.not_mem_nil, or_false,
    y_start_eq, psi_start_eq, v_start_eq, cte_start_eq, epsi_start_eq, x_start] at hp
  rcases hp with h | h | h | h | h | h <;> subst h <;> simp

theorem rowsAt_nodup (T : Trig α) {n : Nat} (hn : 1 ≤ n) (coeffs vars : List α) (t : Nat) :
    ((rowsAt T n coeffs vars t).map Prod.fst).Nodup := by
  simp only [rowsAt, List.map_cons, List.map_nil, List.nodup_cons, List.mem_cons,
    List.mem_singleton, List.not_mem_nil, or_false, not_or, List.nodup_nil, and_true,
    y_start_eq, psi_start_eq, v_start_eq, cte_start_eq, epsi_start_eq, x_start, not_false_eq_true]
  omega

theorem initPairs_nodup {n : Nat} (hn : 1 ≤ n) (vars : List α) :
    ((initPairs n vars).map Prod.fst).Nodup := by
  simp only [initPairs, List.map_cons, List.map_nil, List.nodup_cons, List.mem_cons,
    List.mem_singleton, List.not_mem_nil, or_false, not_or, List.nodup_nil, and_true,
    y_start_eq, psi_start_eq, v_start_eq, cte_start_eq, epsi_start_eq, x_start, not_false_eq_true]
  omega

/-- What the constraint rows hold after lines 95-148: the rows of the initial state, the rows
of every later timestep, and nothing else changed. -/
theorem constraintPart_spec (T : Trig α) {n : Nat} {coeffs vars : List α} (hn : 1 ≤ n)
    (hv : vars.length = n_vars n) (hc : 4 ≤ coeffs.length) (fg : List α)
    (hfg : 6 * n < fg.length) :
    ∃ fg', constraintPart T n coeffs vars fg = some fg' ∧ fg'.length = fg.length
      ∧ (∀ j, j = 0 ∨ 6 * n < j → fg'[j]? = fg[j]?)
      ∧ (∀ p ∈ initPairs n vars, fg'[p.1]? = some p.2)
      ∧ (∀ t, 1 ≤ t → t < n → ∀ p ∈ rowsAt T n coeffs vars t, fg'[p.1]? = some p.2) := by
  have hinit : initRows n vars fg = some (setAll (initPairs n vars) fg) :=
    initRows_spec hn hv fg (by rw [epsi_start_eq]; omega)
  obtain ⟨s', h1, h2, h3, h4, h5⟩ := forLoop_inv (modelBody T n coeffs vars)
    (fun m s => s.length = fg.length
      ∧ (∀ j, j = 0 ∨ 6 * n < j → s[j]? = fg[j]?)
      ∧ (∀ p ∈ initPairs n vars, s[p.1]? = some p.2)
      ∧ (∀ t, 1 ≤ t → t < m → ∀ p ∈ rowsAt T n coeffs vars t, s[p.1]? = some p.2))
    1 n (setAll (initPairs n vars) fg) hn
    ⟨length_setAll _ _,
      fun j hj => setAll_get_of_not_mem _ _ _ (fun p hp => by
        have := initPairs_idx n vars p hp; omega),
      fun p hp => setAll_get_of_mem _ _ (initPairs_nodup hn vars)
        (fun q hq => by have := initPairs_idx n vars q hq; omega) p hp,
      fun t h1 h2 => by omega⟩
    (fun m s hm1 hm ⟨hl, hframe, hin, hrows⟩ => by
      refine ⟨_, modelBody_spec T hn hv hc s m hm1 hm (by rw [epsi_start_eq]; omega), ?_, ?_, ?_, ?_⟩
      · rw [length_setAll, hl]
      · intro j hj
        rw [setAll_get_of_not_mem _ _ _ (fun p hp => by
          have := rowsAt_idx T n coeffs vars m p hp; omega)]
        exact hframe j hj
      · intro p hp
        rw [setAll_get_of_not_mem _ _ _ (fun q hq => by
          have := rowsAt_idx T n coeffs vars m q hq
          have := initPairs_idx n vars p hp
          omega)]
        exact hin p hp
      · intro t ht1 ht p hp
        by_cases htm : t = m
        · subst htm
          exact setAll_get_of_mem _ _ (rowsAt_nodup T hn coeffs vars t)
            (fun q hq => by have := rowsAt_idx T n coeffs vars t q hq; omega) p hp
        · rw [setAll_get_of_not_mem _ _ _ (fun q hq => by
            have := rowsAt_idx T n coeffs vars m q hq
            have := rowsAt_idx T n coeffs vars t p hp
            omega)]
          exact hrows t ht1 (by omega) p hp)
  refine ⟨s', ?_, h2, h3, h4, h5⟩
  simp only [constraintPart, hinit, Option.bind_eq_bind, Option.some_bind, h1]

end Constraint

end MPC

/-! # The evaluator as a whole; loops that fill a vector -/

namespace MPC

section Eval
variable {α : Type} [Field α]

theorem costPart_eq {n : Nat} {vars : List α} (hn : 2 ≤ n) (hv : vars.length = n_vars n)
    (fg : List α) (h0 : 0 < fg.length) :
    costPart n vars fg = some (fg.set 0 (costValue n vars)) :=
  costPart_spec hn hv fg h0

/-- The contents of `fg` after `FG_eval::operator()`: the cost in entry 0, the rows of the
initial state, the rows of every later timestep; entries past `6 n` are untouched. -/
theorem FG_eval_spec (T : Trig α) {n : Nat} {coeffs vars : List α} (hn : 2 ≤ n)
    (hv : vars.length = n_vars n) (hc : 4 ≤ coeffs.length) (fg : List α)
    (hfg : 6 * n < fg.length) :
    ∃ fg', FG_eval T n coeffs fg vars = some fg' ∧ fg'.length = fg.length
      ∧ fg'[0]? = some (costValue n vars)
      ∧ (∀ j, 6 * n < j → fg'[j]? = fg[j]?)
      ∧ (∀ p ∈ initPairs n vars, fg'[p.1]? = some p.2)
      ∧ (∀ t, 1 ≤ t → t < n → ∀ p ∈ rowsAt T n coeffs vars t, fg'[p.1]? = some p.2) := by
  have h0 : 0 < fg.length := by omega
  obtain ⟨fg', h1, h2, h3, h4, h5⟩ := constraintPart_spec T (by omega) hv hc
    (fg.set 0 (costValue n vars)) (by simpa using hfg)
  refine ⟨fg', ?_, by simpa using h2, ?_, ?_, h4, h5⟩
  · simp only [FG_eval, costPart_eq hn hv fg h0, Option.bind_eq_bind, Option.some_bind, h1]
  · rw [h3 0 (Or.inl rfl)]; simp [List.getElem?_set, h0]
  · intro j hj
    rw [h3 j (Or.inr hj), List.getElem?_set_ne (by omega)]

end Eval

section Fill
variable {α : Type}

theorem length_Dvector (fill : Nat → α) (m : Nat) : (Dvector fill m).length = m := by
  simp [Dvector]

/-- A loop that assigns `c` to the entries `lo .. hi-1` of a vector. -/
theorem fillLoop_spec (c : α) (lo hi : Nat) (v0 : List α) (hle : lo ≤ hi)
    (hlen : hi ≤ v0.length) :
    ∃ v, forLoop lo hi v0 (fun i v => wr v i c) = some v ∧ v.length = v0.length
      ∧ (∀ j, lo ≤ j → j < hi → v[j]? = some c)
      ∧ (∀ j, j < lo ∨ hi ≤ j → v[j]? = v0[j]?) := by
  obtain ⟨v, h1, h2, h3, h4⟩ := forLoop_inv (fun i v => wr v i c)
    (fun m v => v.length = v0.length ∧ (∀ j, lo ≤ j → j < m → v[j]? = some c)
      ∧ (∀ j, j < lo ∨ m ≤ j → v[j]? = v0[j]?))
    lo hi v0 hle ⟨rfl, fun j h1 h2 => by omega, fun j _ => rfl⟩
    (fun m v hm1 hm ⟨hl, hin, hout⟩ => by
      refine ⟨_, wr_of_lt c (by omega), by simpa using hl, ?_, ?_⟩
      · intro j hj1 hj2
        by_cases hjm : m = j
        · subst hjm; simp [List.getElem?_set]; omega
        · rw [List.getElem?_set_ne hjm]; exact hin j hj1 (by omega)
      · intro j hj
        rw [List.getElem?_set_ne (by omega)]; exact hout j (by omega))
  exact ⟨v, h1, h2, h3, h4⟩

/-- A loop of lines 193-208: entries `lo .. hi-1` of both bound vectors. -/
theorem boundsLoop_spec (a b : α) (lo hi : Nat) (l0 u0 : List α) (hle : lo ≤ hi)
    (hl : hi ≤ l0.length) (hu : hi ≤ u0.length) :
    ∃ l u, forLoop lo hi (l0, u0) (boundsBody a b) = some (l, u)
      ∧ l.length = l0.length ∧ u.length = u0.length
      ∧ (∀ j, lo ≤ j → j < hi → l[j]? = some a ∧ u[j]? = some b)
      ∧ (∀ j, j < lo ∨ hi ≤ j → l[j]? = l0[j]? ∧ u[j]? = u0[j]?) := by
  obtain ⟨s, h1, h2, h3, h4, h5⟩ := forLoop_inv (boundsBody a b)
    (fun m s => s.1.length = l0.length ∧ s.2.length = u0.length
      ∧ (∀ j, lo ≤ j → j < m → s.1[j]? = some a ∧ s.2[j]? = some b)
      ∧ (∀ j, j < lo ∨ m ≤ j → s.1[j]? = l0[j]? ∧ s.2[j]? = u0[j]?))
    lo hi (l0, u0) hle ⟨rfl, rfl, fun j h1 h2 => by omega, fun j _ => ⟨rfl, rfl⟩⟩
    (fun m s hm1 hm ⟨hl1, hl2, hin, hout⟩ => by
      have e1 : wr s.1 m a = some (s.1.set m a) := wr_of_lt a (by omega)
      have e2 : wr s.2 m b = some (s.2.set m b) := wr_of_lt b (by omega)
      refine ⟨(s.1.set m a, s.2.set m b), ?_, by simpa using hl1, by simpa using hl2, ?_, ?_⟩
      · simp [boundsBody, e1, e2]
      · intro j hj1 hj2
        by_cases hjm : m = j
        · subst hjm
          have g1 : m < s.1.length := by omega
          have g2 : m < s.2.length := by omega
          simp [List.getElem?_set, g1, g2]
        · simp only [List.getElem?_set_ne hjm]; exact hin j hj1 (by omega)
      · intro j hj
        have hjm : m ≠ j := by omega
        simp only [List.getElem?_set_ne hjm]; exact hout j (by omega))
  exact ⟨s.1, s.2, h1, h2, h3, h4, h5⟩

end Fill

end MPC

/-! # The problem handed to the solver -/

namespace MPC

theorem eq_replicate_of_get {α : Type} {c : α} {m : Nat} {v : List α} (hl : v.length = m)
    (h : ∀ j, j < m → v[j]? = some c) : v = List.replicate m c := by
  apply List.ext_getElem?
  intro j
  by_cases hj : j < m
  · rw [h j hj]; simp [List.getElem?_replicate, hj]
  · rw [List.getElem?_eq_none (by omega), List.getElem?_eq_none (by simp; omega)]

section Build
variable {α : Type} [Field α]

theorem setInitialState_spec {n : Nat} (hn : 1 ≤ n) (state vars : List α)
    (hs : 6 ≤ state.length) (hv : vars.length = n_vars n) :
    setInitialState n state vars = some (setAll (statePairs n state) vars) := by
  rw [n_vars_eq hn] at hv
  have e1 := y_start_eq n
  have e2 := psi_start_eq n
  have e3 := v_start_eq n
  have e4 := cte_start_eq n
  have e5 := epsi_start_eq n
  have a0 : 0 < state.length := by omega
  have a1 : 1 < state.length := by omega
  have a2 : 2 < state.length := by omega
  have a3 : 3 < state.length := by omega
  have a4 : 4 < state.length := by omega
  have a5 : 5 < state.length := by omega
  have b0 : x_start < vars.length := by simp only [x_start]; omega
  have b1 : y_start n < vars.length := by omega
  have b2 : psi_start n < vars.length := by omega
  have b3 : v_start n < vars.length := by omega
  have b4 : cte_start n < vars.length := by omega
  have b5 : epsi_start n < vars.length := by omega
  simp only [setInitialState, assignFrom, rd_of_lt a0, rd_of_lt a1, rd_of_lt a2, rd_of_lt a3,
    rd_of_lt a4, rd_of_lt a5, wr, List.length_set, b0, b1, b2, b3, b4, b5, if_true,
    Option.bind_eq_bind, Option.some_bind, setAll, statePairs, List.foldl_cons, List.foldl_nil]

theorem pinInitialState_spec {n : Nat} (hn : 1 ≤ n) (vars bound : List α)
    (hv : vars.length = n_vars n) (hb : bound.length = n_constraints n) :
    pinInitialState n vars bound = some (setAll (pinPairs n vars) bound) := by
  rw [n_vars_eq hn] at hv
  rw [n_constraints_eq] at hb
  have e1 := y_start_eq n
  have e2 := psi_start_eq n
  have e3 := v_start_eq n
  have e4 := cte_start_eq n
  have e5 := epsi_start_eq n
  have a0 : x_start < vars.length := by simp only [x_start]; omega
  have a1 : y_start n < vars.length := by omega
  have a2 : psi_start n < vars.length := by omega
  have a3 : v_start n < vars.length := by omega
  have a4 : cte_start n < vars.length := by omega
  have a5 : epsi_start n < vars.length := by omega
  have b0 : x_start < bound.length := by simp only [x_start]; omega
  have b1 : y_start n < bound.length := by omega
  have b2 : psi_start n < bound.length := by omega
  have b3 : v_start n < bound.length := by omega
  have b4 : cte_start n < bound.length := by omega
  have b5 : epsi_start n < bound.length := by omega
  simp only [pinInitialState, assignFrom, rd_of_lt a0, rd_of_lt a1, rd_of_lt a2, rd_of_lt a3,
    rd_of_lt a4, rd_of_lt a5, wr, List.length_set, b0, b1, b2, b3, b4, b5, if_true,
    Option.bind_eq_bind, Option.some_bind, setAll, pinPairs, List.foldl_cons, List.foldl_nil]

/-- The problem that lines 160-253 of `MPC::Solve` hand to the solver. -/
theorem buildProblem_spec (T : Trig α) (fill : Nat → Nat → α) {n : Nat} (hn : 1 ≤ n)
    (state coeffs : List α) (hs : 6 ≤ state.length) :
    ∃ p, buildProblem T fill n state coeffs = some p
      ∧ p.options = solverOptions ∧ p.fg_eval = FG_eval T n coeffs
      ∧ p.vars = setAll (statePairs n state) (List.replicate (n_vars n) 0)
      ∧ p.vars_lowerbound.length = n_vars n ∧ p.vars_upperbound.length = n_vars n
      ∧ (∀ j, j < delta_start n →
          p.vars_lowerbound[j]? = some (-1.0e19) ∧ p.vars_upperbound[j]? = some 1.0e19)
      ∧ (∀ j, delta_start n ≤ j → j < a_start n →
          p.vars_lowerbound[j]? = some (-0.436332) ∧ p.vars_upperbound[j]? = some 0.436332)
      ∧ (∀ j, a_start n ≤ j → j < n_vars n →
          p.vars_lowerbound[j]? = some (-1.0) ∧ p.vars_upperbound[j]? = some 1.0)
      ∧ p.constraints_lowerbound
          = setAll (pinPairs n p.vars) (List.replicate (n_constraints n) 0)
      ∧ p.constraints_upperbound
          = setAll (pinPairs n p.vars) (List.replicate (n_constraints n) 0) := by
  have hnv := n_vars_eq hn
  have hnc := n_constraints_eq n
  have hd := delta_start_eq n
  have ha := a_start_eq hn
  -- lines 175-178
  obtain ⟨v0, hv0, hv0l, hv0in, -⟩ := fillLoop_spec (0 : α) 0 (n_vars n)
    (Dvector (fill 0) (n_vars n)) (Nat.zero_le _) (by rw [length_Dvector])
  rw [length_Dvector] at hv0l
  have hv0eq : v0 = List.replicate (n_vars n) 0 :=
    eq_replicate_of_get hv0l (fun j hj => hv0in j (Nat.zero_le _) hj)
  subst hv0eq
  -- lines 181-186
  have hset := setInitialState_spec hn state (List.replicate (n_vars n) (0 : α)) hs (by simp)
  -- lines 193-208
  obtain ⟨l1, u1, hb1, hl1, hu1, hin1, -⟩ := boundsLoop_spec (-1.0e19 : α) 1.0e19 0
    (delta_start n) (Dvector (fill 1) (n_vars n)) (Dvector (fill 2) (n_vars n))
    (Nat.zero_le _) (by rw [length_Dvector]; omega) (by rw [length_Dvector]; omega)
  rw [length_Dvector] at hl1 hu1
  obtain ⟨l2, u2, hb2, hl2, hu2, hin2, hout2⟩ := boundsLoop_spec (-0.436332 : α) 0.436332
    (delta_start n) (a_start n) l1 u1 (by omega) (by omega) (by omega)
  obtain ⟨l3, u3, hb3, hl3, hu3, hin3, hout3⟩ := boundsLoop_spec (-1.0 : α) 1.0
    (a_start n) (n_vars n) l2 u2 (by omega) (by omega) (by omega)
  -- lines 212-217
  obtain ⟨cl, cu, hcb, hcl, hcu, hcin, -⟩ := boundsLoop_spec (0 : α) 0 0
    (n_constraints n) (Dvector (fill 3) (n_constraints n)) (Dvector (fill 4) (n_constraints n))
    (Nat.zero_le _) (by rw [length_Dvector]) (by rw [length_Dvector])
  rw [length_Dvector] at hcl hcu
  have hcleq : cl = List.replicate (n_constraints n) 0 :=
    eq_replicate_of_get hcl (fun j hj => (hcin j (Nat.zero_le _) hj).1)
  have hcueq : cu = List.replicate (n_constraints n) 0 :=
    eq_replicate_of_get hcu (fun j hj => (hcin j (Nat.zero_le _) hj).2)
  subst hcleq hcueq
  -- lines 219-231
  have hvl : (setAll (statePairs n state) (List.replicate (n_vars n) (0 : α))).length
      = n_vars n := by rw [length_setAll]; simp
  have hpin := pinInitialState_spec hn (setAll (statePairs n state)
    (List.replicate (n_vars n) (0 : α))) (List.replicate (n_constraints n) (0 : α)) hvl (by simp)
  refine ⟨⟨solverOptions, setAll (statePairs n state) (List.replicate (n_vars n) 0), l3, u3,
    setAll (pinPairs n (setAll (statePairs n state) (List.replicate (n_vars n) 0)))
      (List.replicate (n_constraints n) 0),
    setAll (pinPairs n (setAll (statePairs n state) (List.replicate (n_vars n) 0)))
      (List.replicate (n_constraints n) 0), FG_eval T n coeffs⟩, ?_, rfl, rfl, rfl,
    ?_, ?_, ?_, ?_, hin3, rfl, rfl⟩
  · simp only [buildProblem, hv0, hset, hb1, hb2, hb3, hcb, hpin, Option.bind_eq_bind,
      Option.some_bind, Option.pure_def]
  · show l3.length = n_vars n
    omega
  · show u3.length = n_vars n
    omega
  · intro j hj
    rw [(hout3 j (Or.inl (by omega))).1, (hout3 j (Or.inl (by omega))).2,
      (hout2 j (Or.inl (by omega))).1, (hout2 j (Or.inl (by omega))).2]
    exact hin1 j (Nat.zero_le _) hj
  · intro j hj1 hj2
    rw [(hout3 j (Or.inl (by omega))).1, (hout3 j (Or.inl (by omega))).2]
    exact hin2 j hj1 hj2

end Build

end MPC

/-! # Coverage of the rows; reading the solver result -/

namespace MPC

section Cover
variable {α : Type} [Field α]

theorem rowsAt_fst (T : Trig α) (n : Nat) (coeffs vars : List α) (t : Nat) :
    (rowsAt T n coeffs vars t).map Prod.fst
      = [1 + t, 1 + n + t, 1 + 2 * n + t, 1 + 3 * n + t, 1 + 4 * n + t, 1 + 5 * n + t] := by
  simp [rowsAt, y_start_eq, psi_start_eq, v_start_eq, cte_start_eq, epsi_start_eq, x_start]

theorem initPairs_fst (n : Nat) (vars : List α) :
    (initPairs n vars).map Prod.fst
      = [1, 1 + n, 1 + 2 * n, 1 + 3 * n, 1 + 4 * n, 1 + 5 * n] := by
  simp [initPairs, y_start_eq, psi_start_eq, v_start_eq, cte_start_eq, epsi_start_eq, x_start]

/-- Every row `1 .. 6 n` of `fg` is a row of the initial state or a row of a later timestep. -/
theorem rows_cover (T : Trig α) {n : Nat} (coeffs vars : List α) (j : Nat)
    (hj1 : 1 ≤ j) (hj : j ≤ 6 * n) :
    (∃ p ∈ initPairs n vars, p.1 = j)
      ∨ (∃ t, 1 ≤ t ∧ t < n ∧ ∃ p ∈ rowsAt T n coeffs vars t, p.1 = j) := by
  have key : ∀ l : List (Nat × α), (∃ p ∈ l, p.1 = j) ↔ j ∈ l.map Prod.fst := by
    intro l
    simp only [List.mem_map]
  have hcase : ∃ t, t < n ∧ (j = 1 + t ∨ j = 1 + n + t ∨ j = 1 + 2 * n + t ∨ j = 1 + 3 * n + t
      ∨ j = 1 + 4 * n + t ∨ j = 1 + 5 * n + t) := by
    by_cases h1 : j - 1 < n
    · exact ⟨j - 1, h1, by omega⟩
    by_cases h2 : j - 1 < 2 * n
    · exact ⟨j - 1 - n, by omega, by omega⟩
    by_cases h3 : j - 1 < 3 * n
    · exact ⟨j - 1 - 2 * n, by omega, by omega⟩
    by_cases h4 : j - 1 < 4 * n
    · exact ⟨j - 1 - 3 * n, by omega, by omega⟩
    by_cases h5 : j - 1 < 5 * n
    · exact ⟨j - 1 - 4 * n, by omega, by omega⟩
    · exact ⟨j - 1 - 5 * n, by omega, by omega⟩
  obtain ⟨t, ht, hjt⟩ := hcase
  by_cases ht0 : t = 0
  · left
    rw [key, initPairs_fst]
    subst ht0
    simpa using hjt
  · right
    refine ⟨t, by omega, ht, ?_⟩
    rw [key, rowsAt_fst]
    simpa using hjt

end Cover

section Read
variable {α : Type} [Field α]

theorem pointsLoop_spec (n : Nat) (x : List α) (m : Nat) (hx : x_start + m ≤ x.length)
    (hy : y_start n + m ≤ x.length) :
    forLoop 0 m (([], []) : List α × List α) (pointsBody n x)
      = some ((List.range m).map (fun i => x.getD (x_start + i) 0),
              (List.range m).map (fun i => x.getD (y_start n + i) 0)) := by
  obtain ⟨s, h1, h2⟩ := forLoop_inv (pointsBody n x)
    (fun k s => s = ((List.range k).map (fun i => x.getD (x_start + i) 0),
              (List.range k).map (fun i => x.getD (y_start n + i) 0)))
    0 m ([], []) (Nat.zero_le _) (by simp)
    (fun k s _ hk hI => by
      subst hI
      have a1 : x_start + k < x.length := by omega
      have a2 : y_start n + k < x.length := by omega
      refine ⟨_, ?_, rfl⟩
      simp [pointsBody, rd_of_lt a1, rd_of_lt a2, List.range_succ])
  rw [h1, h2]

/-- What lines 262-289 of `MPC::Solve` make of a solver result. -/
theorem readSolution_spec {n : Nat} (hn : 1 ≤ n) (solution : solve_result α)
    (hx : a_start n + 1 < solution.x.length) :
    readSolution n solution = some
      ⟨solution.obj_value,
        ⟨(List.range (n - 1)).map (fun i => solution.x.getD (x_start + i) 0),
         (List.range (n - 1)).map (fun i => solution.x.getD (y_start n + i) 0),
         solution.x.getD (delta_start n + 1) 0, solution.x.getD (a_start n + 1) 0⟩⟩ := by
  have ha := a_start_eq hn
  have hd := delta_start_eq n
  have a1 : delta_start n + 1 < solution.x.length := by omega
  have hp := pointsLoop_spec n solution.x (n - 1) (by simp only [x_start]; omega)
    (by rw [y_start_eq]; omega)
  simp only [readSolution, rd_of_lt a1, rd_of_lt hx, size_sub_of_le hn, hp,
    Option.bind_eq_bind, Option.some_bind, Option.pure_def]

end Read

end MPC

/-! # Cost and residual rows -/

namespace MPC

section Claims
variable {α : Type} [Field α]

/-- C1: for every decision vector of length 6N + 2(N-1), N = 10, the evaluator returns with
`fg[0]` equal to the sum over t = 0..N-1 of cte[t]^2 + epsi[t]^2 + (v[t] - 30)^2, plus the sum
over t = 0..N-2 of delta[t]^2 + a[t]^2, plus the sum over t = 0..N-3 of
500 (delta[t+1] - delta[t])^2 + (a[t+1] - a[t])^2; the steering-smoothness weight 500 is at
least 100 times the other weights, which are all 1. -/
theorem cost_is_weighted_sum (T : Trig α) (coeffs fg vars : List α)
    (hv : vars.length = 6 * N + 2 * (N - 1)) (hc : coeffs.length = 4)
    (hfg : fg.length = 6 * N + 1) :
    (∃ fg', FG_eval T N coeffs fg vars = some fg' ∧
      fg'[0]? = some
        ((∑ t in Finset.range N,
            (cte_at N vars t ^ 2 + epsi_at N vars t ^ 2 + (v_at N vars t - 30) ^ 2))
          + (∑ t in Finset.range (N - 1), (delta_at N vars t ^ 2 + a_at N vars t ^ 2))
          + (∑ t in Finset.range (N - 2),
              (500 * (delta_at N vars (t + 1) - delta_at N vars t) ^ 2
                + (a_at N vars (t + 1) - a_at N vars t) ^ 2))))
      ∧ STEER_TUNER = 500 ∧ 100 * 1 ≤ STEER_TUNER := by
  have hN : 2 ≤ N := by decide
  have hv' : vars.length = n_vars N := by rw [hv]; rfl
  have hc' : 4 ≤ coeffs.length := by omega
  have hfg' : 6 * N < fg.length := by omega
  obtain ⟨fg', h1, -, h3, -⟩ := FG_eval_spec T hN hv' hc' fg hfg'
  refine ⟨⟨fg', h1, ?_⟩, rfl, by decide⟩
  rw [h3]
  simp [costValue, ref_cte, ref_epsi, ref_v, STEER_TUNER]

/-- C1, on a sample decision vector. -/
theorem cost_is_weighted_sum_witness :
    (sampleVars.length = 6 * N + 2 * (N - 1) ∧ sampleCoeffs.length = 4
      ∧ sampleFg.length = 6 * N + 1)
    ∧ ((∃ fg', FG_eval sampleTrig N sampleCoeffs sampleFg sampleVars = some fg' ∧
      fg'[0]? = some
        ((∑ t in Finset.range N,
            (cte_at N sampleVars t ^ 2 + epsi_at N sampleVars t ^ 2
              + (v_at N sampleVars t - 30) ^ 2))
          + (∑ t in Finset.range (N - 1),
              (delta_at N sampleVars t ^ 2 + a_at N sampleVars t ^ 2))
          + (∑ t in Finset.range (N - 2),
              (500 * (delta_at N sampleVars (t + 1) - delta_at N sampleVars t) ^ 2
                + (a_at N sampleVars (t + 1) - a_at N sampleVars t) ^ 2))))
      ∧ STEER_TUNER = 500 ∧ 100 * 1 ≤ STEER_TUNER) :=
  ⟨⟨by decide, by decide, by decide⟩,
    cost_is_weighted_sum sampleTrig sampleCoeffs sampleFg sampleVars (by decide) (by decide)
      (by decide)⟩

/-- The rows of timestep `t` in the result of the evaluator, one equation per row. -/
theorem FG_eval_rows (T : Trig α) {n : Nat} {coeffs vars : List α} (hn : 2 ≤ n)
    (hv : vars.length = n_vars n) (hc : 4 ≤ coeffs.length) (fg : List α)
    (hfg : 6 * n < fg.length) :
    ∃ fg', FG_eval T n coeffs fg vars = some fg' ∧ fg'.length = fg.length
      ∧ fg'[0]? = some (costValue n vars)
      ∧ (fg'[1 + x_start]? = some (x_at vars 0) ∧ fg'[1 + y_start n]? = some (y_at n vars 0)
        ∧ fg'[1 + psi_start n]? = some (psi_at n vars 0)
        ∧ fg'[1 + v_start n]? = some (v_at n vars 0)
        ∧ fg'[1 + cte_start n]? = some (cte_at n vars 0)
        ∧ fg'[1 + epsi_start n]? = some (epsi_at n vars 0))
      ∧ ∀ t, 1 ≤ t → t < n →
        fg'[1 + x_start + t]? = some (x_at vars t
          - (x_at vars (t - 1) + v_at n vars (t - 1) * T.cos (psi_at n vars (t - 1)) * dt))
        ∧ fg'[1 + y_start n + t]? = some (y_at n vars t
          - (y_at n vars (t - 1) + v_at n vars (t - 1) * T.sin (psi_at n vars (t - 1)) * dt))
        ∧ fg'[1 + psi_start n + t]? = some (psi_at n vars t
          - (psi_at n vars (t - 1) + v_at n vars (t - 1) * delta_at n vars (t - 1) / Lf * dt))
        ∧ fg'[1 + v_start n + t]? = some (v_at n vars t
          - (v_at n vars (t - 1) + a_at n vars (t - 1) * dt))
        ∧ fg'[1 + cte_start n + t]? = some (cte_at n vars t
          - ((f0_at coeffs vars t - y_at n vars (t - 1))
              + (v_at n vars (t - 1) * T.sin (epsi_at n vars (t - 1)) * dt)))
        ∧ fg'[1 + epsi_start n + t]? = some (epsi_at n vars t
          - ((psi_at n vars (t - 1) - psides0_at T coeffs vars t)
              + v_at n vars (t - 1) * delta_at n vars (t - 1) / Lf * dt)) := by
  obtain ⟨fg', h1, h2, h3, -, h5, h6⟩ := FG_eval_spec T hn hv hc fg hfg
  refine ⟨fg', h1, h2, h3, ⟨?_, ?_, ?_, ?_, ?_, ?_⟩, ?_⟩
  · exact h5 (1 + x_start, x_at vars 0) (by simp [initPairs, x_at])
  · exact h5 (1 + y_start n, y_at n vars 0) (by simp [initPairs, y_at])
  · exact h5 (1 + psi_start n, psi_at n vars 0) (by simp [initPairs, psi_at])
  · exact h5 (1 + v_start n, v_at n vars 0) (by simp [initPairs, v_at])
  · exact h5 (1 + cte_start n, cte_at n vars 0) (by simp [initPairs, cte_at])
  · exact h5 (1 + epsi_start n, epsi_at n vars 0) (by simp [initPairs, epsi_at])
  · intro t ht1 ht
    refine ⟨?_, ?_, ?_, ?_, ?_, ?_⟩
    · exact h6 t ht1 ht (_, _) (by simp [rowsAt])
    · exact h6 t ht1 ht (_, _) (by simp [rowsAt])
    · exact h6 t ht1 ht (_, _) (by simp [rowsAt])
    · exact h6 t ht1 ht (_, _) (by simp [rowsAt])
    · exact h6 t ht1 ht (_, _) (by simp [rowsAt])
    · exact h6 t ht1 ht (_, _) (by simp [rowsAt])

/-- C2: for every decision vector, every coefficient vector of length 4 and every t in
1..N-1, the six constraint values of timestep t are the state at t minus the model prediction
from the state and controls at t-1, where f0 is the cubic polynomial of the coefficients at
x[t-1], psides0 the arc tangent of its derivative there, Lf = 2.67 and dt = 0.1. -/
theorem residual_rows_are_model_defects (T : Trig α) (coeffs fg vars : List α) (t : Nat)
    (p : Polynomial α) (hv : vars.length = 6 * N + 2 * (N - 1)) (hc : coeffs.length = 4)
    (hfg : fg.length = 6 * N + 1) (ht1 : 1 ≤ t) (ht : t < N)
    (hp : p = Polynomial.C (coeffs.getD 0 0) + Polynomial.C (coeffs.getD 1 0) * Polynomial.X
      + Polynomial.C (coeffs.getD 2 0) * Polynomial.X ^ 2
      + Polynomial.C (coeffs.getD 3 0) * Polynomial.X ^ 3) :
    ∃ fg', FG_eval T N coeffs fg vars = some fg'
      ∧ fg'[1 + x_start + t]? = some (x_at vars t
          - (x_at vars (t - 1) + v_at N vars (t - 1) * T.cos (psi_at N vars (t - 1)) * 0.1))
      ∧ fg'[1 + y_start N + t]? = some (y_at N vars t
          - (y_at N vars (t - 1) + v_at N vars (t - 1) * T.sin (psi_at N vars (t - 1)) * 0.1))
      ∧ fg'[1 + psi_start N + t]? = some (psi_at N vars t
          - (psi_at N vars (t - 1)
              + v_at N vars (t - 1) / 2.67 * delta_at N vars (t - 1) * 0.1))
      ∧ fg'[1 + v_start N + t]? = some (v_at N vars t
          - (v_at N vars (t - 1) + a_at N vars (t - 1) * 0.1))
      ∧ fg'[1 + cte_start N + t]? = some (cte_at N vars t
          - ((p.eval (x_at vars (t - 1)) - y_at N vars (t - 1))
              + v_at N vars (t - 1) * T.sin (epsi_at N vars (t - 1)) * 0.1))
      ∧ fg'[1 + epsi_start N + t]? = some (epsi_at N vars t
          - ((psi_at N vars (t - 1)
                - T.atan ((Polynomial.derivative p).eval (x_at vars (t - 1))))
              + v_at N vars (t - 1) * delta_at N vars (t - 1) / 2.67 * 0.1)) := by
  have hN : 2 ≤ N := by decide
  have hv' : vars.length = n_vars N := by rw [hv]; rfl
  have hc' : 4 ≤ coeffs.length := by omega
  have hfg' : 6 * N < fg.length := by omega
  obtain ⟨fg', h1, -, -, -, h5⟩ := FG_eval_rows T hN hv' hc' fg hfg'
  obtain ⟨r1, r2, r3, r4, r5, r6⟩ := h5 t ht1 ht
  have e0 : Polynomial.eval (x_at vars (t - 1)) p = f0_at coeffs vars t := by
    subst hp
    simp only [f0_at, Polynomial.eval_add, Polynomial.eval_mul, Polynomial.eval_C,
      Polynomial.eval_X, Polynomial.eval_pow]
    ring
  have e1 : Polynomial.eval (x_at vars (t - 1)) (Polynomial.derivative p)
      = coeffs.getD 1 0 + 2 * coeffs.getD 2 0 * x_at vars (t - 1)
        + 3 * coeffs.getD 3 0 * x_at vars (t - 1) * x_at vars (t - 1) := by
    subst hp
    simp only [Polynomial.derivative_add, Polynomial.derivative_mul, Polynomial.derivative_C,
      Polynomial.derivative_X, Polynomial.derivative_X_pow, Polynomial.eval_add,
      Polynomial.eval_mul, Polynomial.eval_C, Polynomial.eval_X, Polynomial.eval_pow,
      Polynomial.eval_zero, Polynomial.eval_one, Polynomial.eval_natCast]
    ring
  refine ⟨fg', h1, ?_, ?_, ?_, ?_, ?_, ?_⟩
  · rw [r1]; simp only [dt]
  · rw [r2]; simp only [dt]
  · rw [r3]; simp only [dt, Lf]; congr 1; ring
  · rw [r4]; simp only [dt]
  · rw [r5, e0]; simp only [dt]
  · rw [r6, e1]; simp only [dt, Lf, psides0_at]

/-- C2, at timestep 3 of a sample decision vector. -/
theorem residual_rows_are_model_defects_witness :
    (sampleVars.length = 6 * N + 2 * (N - 1) ∧ sampleCoeffs.length = 4
      ∧ sampleFg.length = 6 * N + 1 ∧ 1 ≤ 3 ∧ 3 < N)
    ∧ ∃ fg', FG_eval sampleTrig N sampleCoeffs sampleFg sampleVars = some fg'
      ∧ fg'[1 + x_start + 3]? = some (x_at sampleVars 3
          - (x_at sampleVars (3 - 1)
              + v_at N sampleVars (3 - 1) * sampleTrig.cos (psi_at N sampleVars (3 - 1)) * 0.1))
      ∧ fg'[1 + y_start N + 3]? = some (y_at N sampleVars 3
          - (y_at N sampleVars (3 - 1)
              + v_at N sampleVars (3 - 1) * sampleTrig.sin (psi_at N sampleVars (3 - 1)) * 0.1))
      ∧ fg'[1 + psi_start N + 3]? = some (psi_at N sampleVars 3
          - (psi_at N sampleVars (3 - 1)
              + v_at N sampleVars (3 - 1) / 2.67 * delta_at N sampleVars (3 - 1) * 0.1))
      ∧ fg'[1 + v_start N + 3]? = some (v_at N sampleVars 3
          - (v_at N sampleVars (3 - 1) + a_at N sampleVars (3 - 1) * 0.1))
      ∧ fg'[1 + cte_start N + 3]? = some (cte_at N sampleVars 3
          - (((Polynomial.C (sampleCoeffs.getD 0 0)
                + Polynomial.C (sampleCoeffs.getD 1 0) * Polynomial.X
                + Polynomial.C (sampleCoeffs.getD 2 0) * Polynomial.X ^ 2
                + Polynomial.C (sampleCoeffs.getD 3 0) * Polynomial.X ^ 3 : Polynomial ℚ).eval
                (x_at sampleVars (3 - 1)) - y_at N sampleVars (3 - 1))
              + v_at N sampleVars (3 - 1) * sampleTrig.sin (epsi_at N sampleVars (3 - 1)) * 0.1))
      ∧ fg'[1 + epsi_start N + 3]? = some (epsi_at N sampleVars 3
          - ((psi_at N sampleVars (3 - 1)
                - sampleTrig.atan ((Polynomial.derivative (Polynomial.C (sampleCoeffs.getD 0 0)
                    + Polynomial.C (sampleCoeffs.getD 1 0) * Polynomial.X
                    + Polynomial.C (sampleCoeffs.getD 2 0) * Polynomial.X ^ 2
                    + Polynomial.C (sampleCoeffs.getD 3 0) * Polynomial.X ^ 3
                      : Polynomial ℚ)).eval
                    (x_at sampleVars (3 - 1))))
              + v_at N sampleVars (3 - 1) * delta_at N sampleVars (3 - 1) / 2.67 * 0.1)) :=
  ⟨⟨by decide, by decide, by decide, by decide, by decide⟩,
    residual_rows_are_model_defects sampleTrig sampleCoeffs sampleFg sampleVars 3 _
      (by decide) (by decide) (by decide) (by decide) (by decide) rfl⟩

end Claims

end MPC

/-! # Constraint bounds against constraint values -/

namespace MPC

theorem getD_of_get {α : Type} {l : List α} {i : Nat} {v : α} (h : l[i]? = some v) (d : α) :
    l.getD i d = v := by
  simp [List.getD_eq_getElem?_getD, h]

section Pins
variable {α : Type} [Field α]

theorem statePairs_fst (n : Nat) (state : List α) :
    (statePairs n state).map Prod.fst = [0, n, 2 * n, 3 * n, 4 * n, 5 * n] := by
  simp [statePairs, y_start_eq, psi_start_eq, v_start_eq, cte_start_eq, epsi_start_eq, x_start]

theorem statePairs_idx (n : Nat) (state : List α) (q : Nat × α) (hq : q ∈ statePairs n state) :
    q.1 = 0 ∨ q.1 = n ∨ q.1 = 2 * n ∨ q.1 = 3 * n ∨ q.1 = 4 * n ∨ q.1 = 5 * n := by
  have h : q.1 ∈ (statePairs n state).map Prod.fst := List.mem_map_of_mem Prod.fst hq
  rw [statePairs_fst] at h
  simpa using h

theorem statePairs_nodup {n : Nat} (hn : 1 ≤ n) (state : List α) :
    ((statePairs n state).map Prod.fst).Nodup := by
  rw [statePairs_fst]
  simp only [List.nodup_cons, List.mem_cons, List.mem_singleton, List.not_mem_nil, or_false,
    not_or, List.nodup_nil, and_true, not_false_eq_true]
  omega

/-- The entries that lines 181-186 put at the head of each state segment. -/
theorem setAll_statePairs_get {n m : Nat} (hn : 1 ≤ n) (hm : 5 * n < m) (state : List α)
    (q : Nat × α) (hq : q ∈ statePairs n state) :
    (setAll (statePairs n state) (List.replicate m 0))[q.1]? = some q.2 :=
  setAll_get_of_mem _ _ (statePairs_nodup hn state)
    (fun r hr => by have := statePairs_idx n state r hr; simp; omega) q hq

/-- Every other entry is the zero that the preceding loop put there. -/
theorem setAll_statePairs_get_other {n m : Nat} (state : List α) (j : Nat) (hj : j < m)
    (hne : ∀ q ∈ statePairs n state, q.1 ≠ j) :
    (setAll (statePairs n state) (List.replicate m 0))[j]? = some 0 := by
  rw [setAll_get_of_not_mem _ _ _ hne]
  simp [List.getElem?_replicate, hj]

/-- The constraint bounds copy the initial guess, which holds the supplied state. -/
theorem pinPairs_of_build {n : Nat} (hn : 1 ≤ n) (state : List α) :
    pinPairs n (setAll (statePairs n state) (List.replicate (n_vars n) 0))
      = statePairs n state := by
  have hm : 5 * n < n_vars n := by rw [n_vars_eq hn]; omega
  have h := fun q hq => getD_of_get (setAll_statePairs_get hn hm state q hq) (0 : α)
  have h0 := h (x_start, state.getD 0 0) (by simp [statePairs])
  have h1 := h (y_start n, state.getD 1 0) (by simp [statePairs])
  have h2 := h (psi_start n, state.getD 2 0) (by simp [statePairs])
  have h3 := h (v_start n, state.getD 3 0) (by simp [statePairs])
  have h4 := h (cte_start n, state.getD 4 0) (by simp [statePairs])
  have h5 := h (epsi_start n, state.getD 5 0) (by simp [statePairs])
  simp only at h0 h1 h2 h3 h4 h5
  unfold pinPairs
  rw [h0, h1, h2, h3, h4, h5]
  rfl

end Pins

section Feasible
variable {α : Type} [LinearOrderedField α]

/-- The constraint values lie within the constraint bounds exactly when the rows of the
initial state carry the supplied state and every later row is zero. -/
theorem within_bounds_iff (T : Trig α) (fill : Nat → Nat → α) {n : Nat} (hn : 2 ≤ n)
    (state coeffs fg vars : List α) (hs : 6 ≤ state.length) (hc : 4 ≤ coeffs.length)
    (hv : vars.length = n_vars n) (hfg : 6 * n < fg.length) :
    ∃ p fg', buildProblem T fill n state coeffs = some p
      ∧ FG_eval T n coeffs fg vars = some fg'
      ∧ ((∀ i, i < n_constraints n →
            p.constraints_lowerbound.getD i 0 ≤ fg'.getD (1 + i) 0
            ∧ fg'.getD (1 + i) 0 ≤ p.constraints_upperbound.getD i 0)
        ↔ ((∀ q ∈ statePairs n state, ∀ r ∈ initPairs n vars, r.1 = 1 + q.1 → r.2 = q.2)
          ∧ ∀ t, 1 ≤ t → t < n → ∀ r ∈ rowsAt T n coeffs vars t, r.2 = 0)) := by
  have hn1 : 1 ≤ n := by omega
  obtain ⟨p, hp, -, -, hvars, -, -, -, -, -, hcl, hcu⟩ :=
    buildProblem_spec T fill hn1 state coeffs hs
  rw [hvars, pinPairs_of_build hn1] at hcl hcu
  obtain ⟨fg', hfg', -, -, -, hF1, hF2⟩ := FG_eval_spec T hn hv hc fg hfg
  have hnc := n_constraints_eq n
  have B1 := fun q hq => getD_of_get
    (setAll_statePairs_get hn1 (by omega : 5 * n < n_constraints n) state q hq) (0 : α)
  have B2 := fun j hj hne => getD_of_get
    (@setAll_statePairs_get_other α _ n (n_constraints n) state j hj hne) (0 : α)
  refine ⟨p, fg', hp, hfg', ?_⟩
  rw [hcl, hcu]
  constructor
  · intro H
    constructor
    · intro q hq r hr hrq
      have hi := statePairs_idx n state q hq
      have := H q.1 (by omega)
      rw [B1 q hq, ← hrq, getD_of_get (hF1 r hr)] at this
      exact le_antisymm this.2 this.1
    · intro t ht1 ht r hr
      have hi := rowsAt_idx T n coeffs vars t r hr
      have hne : ∀ q ∈ statePairs n state, q.1 ≠ r.1 - 1 := by
        intro q hq
        have := statePairs_idx n state q hq
        omega
      have := H (r.1 - 1) (by omega)
      rw [B2 (r.1 - 1) (by omega) hne, (by omega : 1 + (r.1 - 1) = r.1),
        getD_of_get (hF2 t ht1 ht r hr)] at this
      exact le_antisymm this.2 this.1
  · rintro ⟨E1, E2⟩ i hi
    have hi6 : 1 + i ≤ 6 * n := by omega
    rcases rows_cover T coeffs vars (1 + i) (by omega) hi6 with
      ⟨r, hr, hri⟩ | ⟨t, ht1, ht, r, hr, hri⟩
    · have hidx := initPairs_idx n vars r hr
      have hmem : i ∈ (statePairs n state).map Prod.fst := by
        rw [statePairs_fst]
        simp only [List.mem_cons, List.mem_singleton, List.not_mem_nil, or_false]
        omega
      obtain ⟨q, hq, hqi⟩ := List.mem_map.1 hmem
      have e := E1 q hq r hr (by omega)
      rw [← hqi, B1 q hq, (by omega : 1 + q.1 = r.1), getD_of_get (hF1 r hr), e]
      exact ⟨le_refl _, le_refl _⟩
    · have hidx := rowsAt_idx T n coeffs vars t r hr
      have hne : ∀ q ∈ statePairs n state, q.1 ≠ i := by
        intro q hq
        have := statePairs_idx n state q hq
        omega
      rw [B2 i hi hne, ← hri, getD_of_get (hF2 t ht1 ht r hr), E2 t ht1 ht r hr]
      exact ⟨le_refl _, le_refl _⟩

end Feasible

end MPC

/-! # Feasibility -/

namespace MPC

section Claims3
variable {α : Type} [LinearOrderedField α]

/-- C3: for every supplied state of six reals, every coefficient vector and every decision
vector, the constraint values that the evaluator computes all lie between the constraint
bounds that `MPC::Solve` builds for that state if and only if the six timestep-0 entries of
the decision vector equal the six supplied state values and every dynamics residual for
t = 1..N-1 is zero. -/
theorem feasible_iff_pinned_and_consistent (T : Trig α) (fill : Nat → Nat → α)
    (state coeffs fg vars : List α) (hs : state.length = 6) (hc : coeffs.length = 4)
    (hv : vars.length = 6 * N + 2 * (N - 1)) (hfg : fg.length = 6 * N + 1) :
    ∃ p fg', buildProblem T fill N state coeffs = some p
      ∧ FG_eval T N coeffs fg vars = some fg'
      ∧ ((∀ i, i < 6 * N →
            p.constraints_lowerbound.getD i 0 ≤ fg'.getD (1 + i) 0
            ∧ fg'.getD (1 + i) 0 ≤ p.constraints_upperbound.getD i 0)
        ↔ ((x_at vars 0 = state.getD 0 0 ∧ y_at N vars 0 = state.getD 1 0
            ∧ psi_at N vars 0 = state.getD 2 0 ∧ v_at N vars 0 = state.getD 3 0
            ∧ cte_at N vars 0 = state.getD 4 0 ∧ epsi_at N vars 0 = state.getD 5 0)
          ∧ ∀ t, 1 ≤ t → t < N →
            x_at vars t
              - (x_at vars (t - 1)
                  + v_at N vars (t - 1) * T.cos (psi_at N vars (t - 1)) * 0.1) = 0
            ∧ y_at N vars t
              - (y_at N vars (t - 1)
                  + v_at N vars (t - 1) * T.sin (psi_at N vars (t - 1)) * 0.1) = 0
            ∧ psi_at N vars t
              - (psi_at N vars (t - 1)
                  + v_at N vars (t - 1) * delta_at N vars (t - 1) / 2.67 * 0.1) = 0
            ∧ v_at N vars t - (v_at N vars (t - 1) + a_at N vars (t - 1) * 0.1) = 0
            ∧ cte_at N vars t
              - ((coeffs.getD 0 0 + coeffs.getD 1 0 * x_at vars (t - 1)
                    + coeffs.getD 2 0 * x_at vars (t - 1) * x_at vars (t - 1)
                    + coeffs.getD 3 0 * x_at vars (t - 1) * x_at vars (t - 1)
                        * x_at vars (t - 1)
                    - y_at N vars (t - 1))
                  + v_at N vars (t - 1) * T.sin (epsi_at N vars (t - 1)) * 0.1) = 0
            ∧ epsi_at N vars t
              - ((psi_at N vars (t - 1)
                    - T.atan (coeffs.getD 1 0 + 2 * coeffs.getD 2 0 * x_at vars (t - 1)
                        + 3 * coeffs.getD 3 0 * x_at vars (t - 1) * x_at vars (t - 1)))
                  + v_at N vars (t - 1) * delta_at N vars (t - 1) / 2.67 * 0.1) = 0)) := by
  have hN : 2 ≤ N := by decide
  have hv' : vars.length = n_vars N := by rw [hv]; rfl
  have hc' : 4 ≤ coeffs.length := by omega
  have hs' : 6 ≤ state.length := by omega
  have hfg' : 6 * N < fg.length := by omega
  obtain ⟨p, fg', h1, h2, h3⟩ := within_bounds_iff T fill hN state coeffs fg vars hs' hc' hv' hfg'
  refine ⟨p, fg', h1, h2, ?_⟩
  rw [n_constraints_eq] at h3
  rw [h3]
  have e1 : (∀ q ∈ statePairs N state, ∀ r ∈ initPairs N vars, r.1 = 1 + q.1 → r.2 = q.2)
      ↔ (x_at vars 0 = state.getD 0 0 ∧ y_at N vars 0 = state.getD 1 0
            ∧ psi_at N vars 0 = state.getD 2 0 ∧ v_at N vars 0 = state.getD 3 0
            ∧ cte_at N vars 0 = state.getD 4 0 ∧ epsi_at N vars 0 = state.getD 5 0) := by
    simp [statePairs, initPairs, y_start_eq, psi_start_eq, v_start_eq, cte_start_eq,
      epsi_start_eq, x_start, N, x_at, y_at, psi_at, v_at, cte_at, epsi_at]
  have e2 : ∀ t, (∀ r ∈ rowsAt T N coeffs vars t, r.2 = 0) ↔
      (x_at vars t
              - (x_at vars (t - 1)
                  + v_at N vars (t - 1) * T.cos (psi_at N vars (t - 1)) * 0.1) = 0
            ∧ y_at N vars t
              - (y_at N vars (t - 1)
                  + v_at N vars (t - 1) * T.sin (psi_at N vars (t - 1)) * 0.1) = 0
            ∧ psi_at N vars t
              - (psi_at N vars (t - 1)
                  + v_at N vars (t - 1) * delta_at N vars (t - 1) / 2.67 * 0.1) = 0
            ∧ v_at N vars t - (v_at N vars (t - 1) + a_at N vars (t - 1) * 0.1) = 0
            ∧ cte_at N vars t
              - ((coeffs.getD 0 0 + coeffs.getD 1 0 * x_at vars (t - 1)
                    + coeffs.getD 2 0 * x_at vars (t - 1) * x_at vars (t - 1)
                    + coeffs.getD 3 0 * x_at vars (t - 1) * x_at vars (t - 1)
                        * x_at vars (t - 1)
                    - y_at N vars (t - 1))
                  + v_at N vars (t - 1) * T.sin (epsi_at N vars (t - 1)) * 0.1) = 0
            ∧ epsi_at N vars t
              - ((psi_at N vars (t - 1)
                    - T.atan (coeffs.getD 1 0 + 2 * coeffs.getD 2 0 * x_at vars (t - 1)
                        + 3 * coeffs.getD 3 0 * x_at vars (t - 1) * x_at vars (t - 1)))
                  + v_at N vars (t - 1) * delta_at N vars (t - 1) / 2.67 * 0.1) = 0) := by
    intro t
    simp only [rowsAt, List.forall_mem_cons, List.not_mem_nil, IsEmpty.forall_iff,
      implies_true, and_true, dt, Lf, f0_at, psides0_at]
  rw [e1]
  constructor
  · rintro ⟨ha, hb⟩
    exact ⟨ha, fun t ht1 ht => (e2 t).1 (hb t ht1 ht)⟩
  · rintro ⟨ha, hb⟩
    exact ⟨ha, fun t ht1 ht => (e2 t).2 (hb t ht1 ht)⟩

end Claims3

end MPC

/-! # The returned command -/

namespace MPC

/-- The result of lines 262-289 does not depend on the status the solver reports. -/
theorem readSolution_status {α : Type} (n : Nat) (s s' : status_type) (x : List α) (c : α) :
    readSolution n ⟨s, x, c⟩ = readSolution n ⟨s', x, c⟩ := rfl

section SolveSpec
variable {α : Type} [Field α]

/-- One call of `MPC::Solve`: the problem it builds and what it makes of the solver result. -/
theorem Solve_spec (T : Trig α) (solver : Problem α → solve_result α) (fill : Nat → Nat → α)
    {n : Nat} (hn : 3 ≤ n) (state coeffs : List α) (hs : 6 ≤ state.length)
    (hx : ∀ q, (solver q).x.length = q.vars.length) :
    ∃ p, buildProblem T fill n state coeffs = some p ∧ p.vars.length = n_vars n
      ∧ Solve T solver fill n state coeffs = some
        ⟨(solver p).obj_value,
          ⟨(List.range (n - 1)).map (fun i => (solver p).x.getD (x_start + i) 0),
           (List.range (n - 1)).map (fun i => (solver p).x.getD (y_start n + i) 0),
           (solver p).x.getD (delta_start n + 1) 0, (solver p).x.getD (a_start n + 1) 0⟩⟩ := by
  have hn1 : 1 ≤ n := by omega
  obtain ⟨p, hp, -, -, hvars, -⟩ := buildProblem_spec T fill hn1 state coeffs hs
  have hl : p.vars.length = n_vars n := by rw [hvars, length_setAll]; simp
  have hxl : a_start n + 1 < (solver p).x.length := by
    rw [hx p, hl, n_vars_eq hn1, a_start_eq hn1]; omega
  refine ⟨p, hp, hl, ?_⟩
  simp only [Solve, hp, Option.bind_eq_bind, Option.some_bind]
  exact readSolution_spec hn1 (solver p) hxl

/-- The outcome of `MPC::Solve` does not depend on the status the solver reports. -/
theorem Solve_status (T : Trig α) (solver : Problem α → solve_result α)
    (st : Problem α → status_type) (fill : Nat → Nat → α) (n : Nat) (state coeffs : List α) :
    Solve T (fun q => ⟨st q, (solver q).x, (solver q).obj_value⟩) fill n state coeffs
      = Solve T solver fill n state coeffs := by
  unfold Solve
  cases buildProblem T fill n state coeffs with
  | none => rfl
  | some p => exact readSolution_status n _ _ _ _

end SolveSpec

section Claims4
variable {α : Type} [Field α]

/-- C4: for every state, every coefficient vector and every result of the solver,
`MPC::Solve` returns as `delta_actuation` the entry `solution.x[delta_start + 1]` and as
`a_actuation` the entry `solution.x[a_start + 1]`; the entries at index 0 of the two control
segments, `solution.x[delta_start]` and `solution.x[a_start]`, have no effect on what it
returns. -/
theorem command_is_second_control_sample (T : Trig α) (solver : Problem α → solve_result α)
    (fill : Nat → Nat → α) (state coeffs : List α) (hs : state.length = 6)
    (hx : ∀ q, (solver q).x.length = q.vars.length) :
    ∃ p out, buildProblem T fill N state coeffs = some p
      ∧ Solve T solver fill N state coeffs = some out
      ∧ out.soln.delta_actuation = (solver p).x.getD (delta_start N + 1) 0
      ∧ out.soln.a_actuation = (solver p).x.getD (a_start N + 1) 0
      ∧ ∀ u w : α,
          Solve T (fun q => ⟨(solver q).status,
            ((solver q).x.set (delta_start N) u).set (a_start N) w, (solver q).obj_value⟩)
            fill N state coeffs = some out := by
  have hN : 3 ≤ N := by decide
  obtain ⟨p, hp, hl, hS⟩ := Solve_spec T solver fill hN state coeffs (by omega) hx
  refine ⟨p, _, hp, hS, rfl, rfl, ?_⟩
  intro u w
  obtain ⟨p', hp', -, hS'⟩ := Solve_spec T (fun q => ⟨(solver q).status,
      ((solver q).x.set (delta_start N) u).set (a_start N) w, (solver q).obj_value⟩)
    fill hN state coeffs (by omega) (fun q => by simp [hx q])
  rw [hp] at hp'
  cases hp'
  rw [hS']
  have hget : ∀ j, j ≠ delta_start N → j ≠ a_start N →
      (((solver p).x.set (delta_start N) u).set (a_start N) w).getD j 0
        = (solver p).x.getD j 0 := by
    intro j h1 h2
    simp only [List.getD_eq_getElem?_getD]
    rw [List.getElem?_set_ne (Ne.symm h2), List.getElem?_set_ne (Ne.symm h1)]
  have hd : delta_start N = 60 := by decide
  have ha : a_start N = 69 := by decide
  have hy : y_start N = 10 := by decide
  have hpts1 : ∀ i ∈ List.range (N - 1),
      (((solver p).x.set (delta_start N) u).set (a_start N) w).getD (x_start + i) 0
        = (solver p).x.getD (x_start + i) 0 := by
    intro i hi
    have : i < 9 := by simpa [N] using hi
    exact hget _ (by simp only [x_start]; omega) (by simp only [x_start]; omega)
  have hpts2 : ∀ i ∈ List.range (N - 1),
      (((solver p).x.set (delta_start N) u).set (a_start N) w).getD (y_start N + i) 0
        = (solver p).x.getD (y_start N + i) 0 := by
    intro i hi
    have : i < 9 := by simpa [N] using hi
    exact hget _ (by omega) (by omega)
  simp only [List.map_congr_left hpts1, List.map_congr_left hpts2,
    hget (delta_start N + 1) (by omega) (by omega), hget (a_start N + 1) (by omega) (by omega)]

/-- C4, for a sample state and a solver that returns its initial guess. -/
theorem command_is_second_control_sample_witness :
    (sampleState.length = 6 ∧ ∀ q, (sampleSolver q).x.length = q.vars.length)
    ∧ ∃ p out, buildProblem sampleTrig sampleFill N sampleState sampleCoeffs = some p
      ∧ Solve sampleTrig sampleSolver sampleFill N sampleState sampleCoeffs = some out
      ∧ out.soln.delta_actuation = (sampleSolver p).x.getD (delta_start N + 1) 0
      ∧ out.soln.a_actuation = (sampleSolver p).x.getD (a_start N + 1) 0
      ∧ ∀ u w : ℚ,
          Solve sampleTrig (fun q => ⟨(sampleSolver q).status,
            ((sampleSolver q).x.set (delta_start N) u).set (a_start N) w,
            (sampleSolver q).obj_value⟩)
            sampleFill N sampleState sampleCoeffs = some out :=
  ⟨⟨by decide, fun _ => rfl⟩,
    command_is_second_control_sample sampleTrig sampleSolver sampleFill sampleState
      sampleCoeffs (by decide) (fun _ => rfl)⟩

end Claims4

section Claims5
variable {α : Type} [LinearOrderedField α]

/-- C5: for every state and coefficient vector, whenever the vector returned by the solver
respects the variable bounds that `MPC::Solve` passed to it, the steering command that
`MPC::Solve` returns lies in [-0.436332, 0.436332] and the acceleration command in [-1, 1]. -/
theorem command_within_actuator_bounds (T : Trig α) (solver : Problem α → solve_result α)
    (fill : Nat → Nat → α) (state coeffs : List α) (hs : state.length = 6)
    (hx : ∀ q, (solver q).x.length = q.vars.length)
    (hb : ∀ p, buildProblem T fill N state coeffs = some p → ∀ j, j < p.vars.length →
      p.vars_lowerbound.getD j 0 ≤ (solver p).x.getD j 0
      ∧ (solver p).x.getD j 0 ≤ p.vars_upperbound.getD j 0) :
    ∃ out, Solve T solver fill N state coeffs = some out
      ∧ -0.436332 ≤ out.soln.delta_actuation ∧ out.soln.delta_actuation ≤ 0.436332
      ∧ -1 ≤ out.soln.a_actuation ∧ out.soln.a_actuation ≤ 1 := by
  have hN : 3 ≤ N := by decide
  obtain ⟨p, hp, hl, hS⟩ := Solve_spec T solver fill hN state coeffs (by omega) hx
  obtain ⟨p', hp', -, -, -, -, -, -, hsteer, hacc, -⟩ :=
    buildProblem_spec T fill (by decide : 1 ≤ N) state coeffs (by omega)
  rw [hp] at hp'
  cases hp'
  have hd : delta_start N = 60 := by decide
  have ha : a_start N = 69 := by decide
  have hnv : n_vars N = 78 := by decide
  have b1 := hb p hp (delta_start N + 1) (by omega)
  have b2 := hb p hp (a_start N + 1) (by omega)
  have s1 := hsteer (delta_start N + 1) (by omega) (by omega)
  have s2 := hacc (a_start N + 1) (by omega) (by omega)
  rw [getD_of_get s1.1, getD_of_get s1.2] at b1
  rw [getD_of_get s2.1, getD_of_get s2.2] at b2
  have e1 : (-1.0 : α) = -1 := by norm_num
  have e2 : (1.0 : α) = 1 := by norm_num
  rw [e1, e2] at b2
  exact ⟨_, hS, b1.1, b1.2, b2.1, b2.2⟩

end Claims5

end MPC

/-! # Sample runs -/

namespace MPC

/-- The zero vector respects the variable bounds of every problem `MPC::Solve` builds for the
configured horizon. -/
theorem zeroSolver_within (T : Trig ℚ) (fill : Nat → Nat → ℚ) (state coeffs : List ℚ)
    (hs : state.length = 6) :
    ∀ p, buildProblem T fill N state coeffs = some p → ∀ j, j < p.vars.length →
      p.vars_lowerbound.getD j 0 ≤ (zeroSolver p).x.getD j 0
      ∧ (zeroSolver p).x.getD j 0 ≤ p.vars_upperbound.getD j 0 := by
  intro p hp j hj
  obtain ⟨p', hp', -, -, hvars, -, -, hst, hsteer, hacc, -⟩ :=
    buildProblem_spec T fill (by decide : 1 ≤ N) state coeffs (by omega)
  rw [hp] at hp'
  cases hp'
  have hl : p.vars.length = n_vars N := by rw [hvars, length_setAll]; simp
  have hd : delta_start N = 60 := by decide
  have ha : a_start N = 69 := by decide
  have hnv : n_vars N = 78 := by decide
  have hz : (zeroSolver p).x.getD j 0 = 0 := by
    simp [zeroSolver, List.getD_eq_getElem?_getD, List.getElem?_replicate, hj]
  rw [hz]
  by_cases h1 : j < delta_start N
  · rw [getD_of_get (hst j h1).1, getD_of_get (hst j h1).2]
    constructor <;> norm_num
  by_cases h2 : j < a_start N
  · rw [getD_of_get (hsteer j (by omega) h2).1, getD_of_get (hsteer j (by omega) h2).2]
    constructor <;> norm_num
  · rw [getD_of_get (hacc j (by omega) (by omega)).1,
      getD_of_get (hacc j (by omega) (by omega)).2]
    constructor <;> norm_num

/-- C3, on a sample state and a sample decision vector. -/
theorem feasible_iff_pinned_and_consistent_witness :
    (sampleState.length = 6 ∧ sampleCoeffs.length = 4
      ∧ sampleVars.length = 6 * N + 2 * (N - 1) ∧ sampleFg.length = 6 * N + 1)
    ∧ ∃ p fg', buildProblem sampleTrig sampleFill N sampleState sampleCoeffs = some p
      ∧ FG_eval sampleTrig N sampleCoeffs sampleFg sampleVars = some fg'
      ∧ ((∀ i, i < 6 * N →
            p.constraints_lowerbound.getD i 0 ≤ fg'.getD (1 + i) 0
            ∧ fg'.getD (1 + i) 0 ≤ p.constraints_upperbound.getD i 0)
        ↔ ((x_at sampleVars 0 = sampleState.getD 0 0
            ∧ y_at N sampleVars 0 = sampleState.getD 1 0
            ∧ psi_at N sampleVars 0 = sampleState.getD 2 0
            ∧ v_at N sampleVars 0 = sampleState.getD 3 0
            ∧ cte_at N sampleVars 0 = sampleState.getD 4 0
            ∧ epsi_at N sampleVars 0 = sampleState.getD 5 0)
          ∧ ∀ t, 1 ≤ t → t < N →
            x_at sampleVars t
              - (x_at sampleVars (t - 1)
                  + v_at N sampleVars (t - 1) * sampleTrig.cos (psi_at N sampleVars (t - 1))
                    * 0.1) = 0
            ∧ y_at N sampleVars t
              - (y_at N sampleVars (t - 1)
                  + v_at N sampleVars (t - 1) * sampleTrig.sin (psi_at N sampleVars (t - 1))
                    * 0.1) = 0
            ∧ psi_at N sampleVars t
              - (psi_at N sampleVars (t - 1)
                  + v_at N sampleVars (t - 1) * delta_at N sampleVars (t - 1) / 2.67 * 0.1) = 0
            ∧ v_at N sampleVars t
              - (v_at N sampleVars (t - 1) + a_at N sampleVars (t - 1) * 0.1) = 0
            ∧ cte_at N sampleVars t
              - ((sampleCoeffs.getD 0 0 + sampleCoeffs.getD 1 0 * x_at sampleVars (t - 1)
                    + sampleCoeffs.getD 2 0 * x_at sampleVars (t - 1) * x_at sampleVars (t - 1)
                    + sampleCoeffs.getD 3 0 * x_at sampleVars (t - 1) * x_at sampleVars (t - 1)
                        * x_at sampleVars (t - 1)
                    - y_at N sampleVars (t - 1))
                  + v_at N sampleVars (t - 1) * sampleTrig.sin (epsi_at N sampleVars (t - 1))
                    * 0.1) = 0
            ∧ epsi_at N sampleVars t
              - ((psi_at N sampleVars (t - 1)
                    - sampleTrig.atan (sampleCoeffs.getD 1 0
                        + 2 * sampleCoeffs.getD 2 0 * x_at sampleVars (t - 1)
                        + 3 * sampleCoeffs.getD 3 0 * x_at sampleVars (t - 1)
                            * x_at sampleVars (t - 1)))
                  + v_at N sampleVars (t - 1) * delta_at N sampleVars (t - 1) / 2.67 * 0.1)
                = 0)) :=
  ⟨⟨by decide, by decide, by decide, by decide⟩,
    feasible_iff_pinned_and_consistent sampleTrig sampleFill sampleState sampleCoeffs sampleFg
      sampleVars (by decide) (by decide) (by decide) (by decide)⟩

/-- C5, for a sample state and the solver that returns the zero vector. -/
theorem command_within_actuator_bounds_witness :
    (sampleState.length = 6 ∧ (∀ q, (zeroSolver q).x.length = q.vars.length)
      ∧ ∀ p, buildProblem sampleTrig sampleFill N sampleState sampleCoeffs = some p →
          ∀ j, j < p.vars.length →
            p.vars_lowerbound.getD j 0 ≤ (zeroSolver p).x.getD j 0
            ∧ (zeroSolver p).x.getD j 0 ≤ p.vars_upperbound.getD j 0)
    ∧ ∃ out, Solve sampleTrig zeroSolver sampleFill N sampleState sampleCoeffs = some out
      ∧ -0.436332 ≤ out.soln.delta_actuation ∧ out.soln.delta_actuation ≤ 0.436332
      ∧ -1 ≤ out.soln.a_actuation ∧ out.soln.a_actuation ≤ 1 :=
  ⟨⟨by decide, fun q => by simp [zeroSolver],
      zeroSolver_within sampleTrig sampleFill sampleState sampleCoeffs (by decide)⟩,
    command_within_actuator_bounds sampleTrig zeroSolver sampleFill sampleState sampleCoeffs
      (by decide) (fun q => by simp [zeroSolver])
      (zeroSolver_within sampleTrig sampleFill sampleState sampleCoeffs (by decide))⟩

/-- C6: at a sample state, a solver that stops with `maxiter_exceeded` and a solver that
succeeds with the same vector and cost make `MPC::Solve` print and return exactly the same;
the status reaches neither the returned record nor the output. -/
theorem solver_failure_not_surfaced :
    (∀ q, (failingSolver q).status ≠ status_type.success)
    ∧ (∀ q, (sampleSolver q).status = status_type.success)
    ∧ (∀ q, (failingSolver q).x = (sampleSolver q).x)
    ∧ ∃ out, Solve sampleTrig failingSolver sampleFill N sampleState sampleCoeffs = some out
      ∧ Solve sampleTrig sampleSolver sampleFill N sampleState sampleCoeffs = some out := by
  refine ⟨fun q => by simp [failingSolver], fun q => rfl, fun q => rfl, ?_⟩
  obtain ⟨p, -, -, hS⟩ := Solve_spec sampleTrig sampleSolver sampleFill (by decide : 3 ≤ N)
    sampleState sampleCoeffs (by decide) (fun _ => rfl)
  refine ⟨_, ?_, hS⟩
  rw [← hS]
  exact Solve_status sampleTrig sampleSolver (fun _ => status_type.maxiter_exceeded)
    sampleFill N sampleState sampleCoeffs

end MPC

/-! # Lengths and layout -/

namespace MPC

section Claims7
variable {α : Type} [Field α]

/-- C7: for every horizon length N ≥ 1, the decision vector and the two variable-bound
vectors that `MPC::Solve` allocates have length 6N + 2(N-1), and the two constraint-bound
vectors have length 6N; 6N is also the number of rows the evaluator writes below the cost:
on an `fg` of 6N + 1 entries it assigns every entry 1..6N (what they hold afterwards does not
depend on what `fg` held before) and leaves entry 0 to the cost. -/
theorem vector_lengths (T : Trig α) (fill : Nat → Nat → α) (n : Nat)
    (state coeffs vars fg fg2 : List α) (hn : 1 ≤ n) (hs : state.length = 6)
    (hc : coeffs.length = 4) (hv : vars.length = 6 * n + 2 * (n - 1))
    (hfg : fg.length = 6 * n + 1) (hfg2 : fg2.length = 6 * n + 1) :
    (n_vars n = 6 * n + 2 * (n - 1) ∧ n_constraints n = 6 * n)
    ∧ (∃ p, buildProblem T fill n state coeffs = some p
        ∧ p.vars.length = 6 * n + 2 * (n - 1)
        ∧ p.vars_lowerbound.length = 6 * n + 2 * (n - 1)
        ∧ p.vars_upperbound.length = 6 * n + 2 * (n - 1)
        ∧ p.constraints_lowerbound.length = 6 * n
        ∧ p.constraints_upperbound.length = 6 * n)
    ∧ (∃ r r2, constraintPart T n coeffs vars fg = some r
        ∧ constraintPart T n coeffs vars fg2 = some r2
        ∧ r.length = 6 * n + 1 ∧ r[0]? = fg[0]?
        ∧ ∀ j, 1 ≤ j → j ≤ 6 * n → r[j]? = r2[j]?)
    ∧ (2 ≤ n → ∃ fg', FG_eval T n coeffs fg vars = some fg' ∧ fg'.length = 6 * n + 1) := by
  have hnv : n_vars n = 6 * n + 2 * (n - 1) := by rw [n_vars_eq hn]; omega
  have hnc := n_constraints_eq n
  have hv' : vars.length = n_vars n := by omega
  have hc' : 4 ≤ coeffs.length := by omega
  have hfg' : 6 * n < fg.length := by omega
  have hfg2' : 6 * n < fg2.length := by omega
  refine ⟨⟨hnv, hnc⟩, ?_, ?_, ?_⟩
  · obtain ⟨p, hp, -, -, hvars, hl, hu, -, -, -, hcl, hcu⟩ :=
      buildProblem_spec T fill hn state coeffs (by omega)
    refine ⟨p, hp, ?_, by omega, by omega, ?_, ?_⟩
    · rw [hvars, length_setAll]; simp [hnv]
    · rw [hcl, length_setAll]; simp [hnc]
    · rw [hcu, length_setAll]; simp [hnc]
  · obtain ⟨r, hr, hrl, hr0, hri, hrr⟩ := constraintPart_spec T hn hv' hc' fg hfg'
    obtain ⟨r2, hr2, -, -, hri2, hrr2⟩ := constraintPart_spec T hn hv' hc' fg2 hfg2'
    refine ⟨r, r2, hr, hr2, by omega, hr0 0 (Or.inl rfl), ?_⟩
    intro j hj1 hj
    rcases rows_cover T coeffs vars j hj1 hj with ⟨q, hq, hqj⟩ | ⟨t, ht1, ht, q, hq, hqj⟩
    · rw [← hqj, hri q hq, hri2 q hq]
    · rw [← hqj, hrr t ht1 ht q hq, hrr2 t ht1 ht q hq]
  · intro hn2
    obtain ⟨fg', h1, h2, -⟩ := FG_eval_spec T hn2 hv' hc' fg hfg'
    exact ⟨fg', h1, by omega⟩

end Claims7

/-- C7, at horizon length 1. -/
theorem vector_lengths_witness :
    ((1 : Nat) ≤ 1 ∧ sampleState.length = 6 ∧ sampleCoeffs.length = 4
      ∧ (List.replicate 6 (1 : ℚ)).length = 6 * 1 + 2 * (1 - 1)
      ∧ (List.replicate 7 (3 : ℚ)).length = 6 * 1 + 1
      ∧ (List.replicate 7 (5 : ℚ)).length = 6 * 1 + 1)
    ∧ ((n_vars 1 = 6 * 1 + 2 * (1 - 1) ∧ n_constraints 1 = 6 * 1)
    ∧ (∃ p, buildProblem sampleTrig sampleFill 1 sampleState sampleCoeffs = some p
        ∧ p.vars.length = 6 * 1 + 2 * (1 - 1)
        ∧ p.vars_lowerbound.length = 6 * 1 + 2 * (1 - 1)
        ∧ p.vars_upperbound.length = 6 * 1 + 2 * (1 - 1)
        ∧ p.constraints_lowerbound.length = 6 * 1
        ∧ p.constraints_upperbound.length = 6 * 1)
    ∧ (∃ r r2, constraintPart sampleTrig 1 sampleCoeffs (List.replicate 6 (1 : ℚ))
            (List.replicate 7 (3 : ℚ)) = some r
        ∧ constraintPart sampleTrig 1 sampleCoeffs (List.replicate 6 (1 : ℚ))
            (List.replicate 7 (5 : ℚ)) = some r2
        ∧ r.length = 6 * 1 + 1 ∧ r[0]? = (List.replicate 7 (3 : ℚ))[0]?
        ∧ ∀ j, 1 ≤ j → j ≤ 6 * 1 → r[j]? = r2[j]?)
    ∧ (2 ≤ 1 → ∃ fg', FG_eval sampleTrig 1 sampleCoeffs (List.replicate 7 (3 : ℚ))
          (List.replicate 6 (1 : ℚ)) = some fg' ∧ fg'.length = 6 * 1 + 1)) :=
  ⟨⟨by decide, by decide, by decide, by decide, by decide, by decide⟩,
    vector_lengths sampleTrig sampleFill 1 sampleState sampleCoeffs (List.replicate 6 1)
      (List.replicate 7 3) (List.replicate 7 5) (by decide) (by decide) (by decide)
      (by decide) (by decide) (by decide)⟩

/-- C8: for every N ≥ 1 the offsets are 0, N, 2N, 3N, 4N, 5N, 6N, 7N-1, the six state
segments have N entries and the two control segments N-1, the eight segments are pairwise
disjoint, and an index lies in one of them exactly when it is below 6N + 2(N-1). -/
theorem layout_partition (n : Nat) (hn : 1 ≤ n) :
    (x_start = 0 ∧ y_start n = n ∧ psi_start n = 2 * n ∧ v_start n = 3 * n
      ∧ cte_start n = 4 * n ∧ epsi_start n = 5 * n ∧ delta_start n = 6 * n
      ∧ a_start n = 7 * n - 1)
    ∧ (segments n).map Prod.snd = [n, n, n, n, n, n, n - 1, n - 1]
    ∧ (segments n).Pairwise
        (fun s s' => ∀ i, ¬ ((s.1 ≤ i ∧ i < s.1 + s.2) ∧ (s'.1 ≤ i ∧ i < s'.1 + s'.2)))
    ∧ ∀ i, i < 6 * n + 2 * (n - 1) ↔ ∃ s ∈ segments n, s.1 ≤ i ∧ i < s.1 + s.2 := by
  have e1 := y_start_eq n
  have e2 := psi_start_eq n
  have e3 := v_start_eq n
  have e4 := cte_start_eq n
  have e5 := epsi_start_eq n
  have e6 := delta_start_eq n
  have e7 := a_start_eq hn
  have e8 := size_sub_of_le hn
  have hseg : segments n = [(0, n), (n, n), (2 * n, n), (3 * n, n), (4 * n, n), (5 * n, n),
      (6 * n, n - 1), (7 * n - 1, n - 1)] := by
    simp only [segments, e1, e2, e3, e4, e5, e6, e7, e8, x_start]
  refine ⟨⟨rfl, e1, e2, e3, e4, e5, e6, e7⟩, ?_, ?_, ?_⟩
  · rw [hseg]; rfl
  · rw [hseg]
    simp only [List.pairwise_cons, List.mem_cons, List.mem_singleton, List.not_mem_nil,
      forall_eq_or_imp, forall_eq, IsEmpty.forall_iff, implies_true, List.Pairwise.nil,
      and_true]
    refine ⟨⟨?_, ?_, ?_, ?_, ?_, ?_, ?_⟩, ⟨?_, ?_, ?_, ?_, ?_, ?_⟩, ⟨?_, ?_, ?_, ?_, ?_⟩,
      ⟨?_, ?_, ?_, ?_⟩, ⟨?_, ?_, ?_⟩, ⟨?_, ?_⟩, ?_⟩ <;> intro i <;> omega
  · intro i
    rw [hseg]
    simp only [List.mem_cons, List.mem_singleton, List.not_mem_nil, or_false, exists_eq_or_imp,
      exists_eq_left]
    omega

/-- C8, at the configured horizon. -/
theorem layout_partition_witness :
    (1 ≤ N)
    ∧ ((x_start = 0 ∧ y_start N = N ∧ psi_start N = 2 * N ∧ v_start N = 3 * N
      ∧ cte_start N = 4 * N ∧ epsi_start N = 5 * N ∧ delta_start N = 6 * N
      ∧ a_start N = 7 * N - 1)
    ∧ (segments N).map Prod.snd = [N, N, N, N, N, N, N - 1, N - 1]
    ∧ (segments N).Pairwise
        (fun s s' => ∀ i, ¬ ((s.1 ≤ i ∧ i < s.1 + s.2) ∧ (s'.1 ≤ i ∧ i < s'.1 + s'.2)))
    ∧ ∀ i, i < 6 * N + 2 * (N - 1) ↔ ∃ s ∈ segments N, s.1 ≤ i ∧ i < s.1 + s.2) :=
  ⟨by decide, layout_partition N (by decide)⟩

end MPC

/-! # Variable bounds and initial guess -/

namespace MPC

section Claims9
variable {α : Type} [LinearOrderedField α]

/-- C9: for every state, the variable bounds that `MPC::Solve` builds give every index of
the decision vector one pair of bounds: [-1.0e19, 1.0e19] on the six state segments,
[-0.436332, 0.436332] on the steering segment and [-1, 1] on the acceleration segment,
whatever the freshly allocated vectors held; the lower bound is at most the upper bound at
every index. -/
theorem variable_bounds_by_segment (T : Trig α) (fill : Nat → Nat → α)
    (state coeffs : List α) (hs : state.length = 6) :
    ∃ p, buildProblem T fill N state coeffs = some p
      ∧ p.vars_lowerbound.length = 6 * N + 2 * (N - 1)
      ∧ p.vars_upperbound.length = 6 * N + 2 * (N - 1)
      ∧ (∀ start ∈ [x_start, y_start N, psi_start N, v_start N, cte_start N, epsi_start N],
          ∀ j, start ≤ j → j < start + N →
            p.vars_lowerbound[j]? = some (-1.0e19) ∧ p.vars_upperbound[j]? = some 1.0e19)
      ∧ (∀ j, delta_start N ≤ j → j < delta_start N + (N - 1) →
            p.vars_lowerbound[j]? = some (-0.436332) ∧ p.vars_upperbound[j]? = some 0.436332)
      ∧ (∀ j, a_start N ≤ j → j < a_start N + (N - 1) →
            p.vars_lowerbound[j]? = some (-1) ∧ p.vars_upperbound[j]? = some 1)
      ∧ ∀ j, j < 6 * N + 2 * (N - 1) →
          p.vars_lowerbound.getD j 0 ≤ p.vars_upperbound.getD j 0 := by
  obtain ⟨p, hp, -, -, -, hl, hu, hst, hsteer, hacc, -⟩ :=
    buildProblem_spec T fill (by decide : 1 ≤ N) state coeffs (by omega)
  have hN : N = 10 := rfl
  have e1 : y_start N = 10 := by decide
  have e2 : psi_start N = 20 := by decide
  have e3 : v_start N = 30 := by decide
  have e4 : cte_start N = 40 := by decide
  have e5 : epsi_start N = 50 := by decide
  have hd : delta_start N = 60 := by decide
  have ha : a_start N = 69 := by decide
  have hnv : n_vars N = 78 := by decide
  have m1 : (-1.0 : α) = -1 := by norm_num
  have m2 : (1.0 : α) = 1 := by norm_num
  rw [m1, m2] at hacc
  refine ⟨p, hp, by omega, by omega, ?_, ?_, ?_, ?_⟩
  · intro start hstart j h1 h2
    simp only [List.mem_cons, List.mem_singleton, List.not_mem_nil, or_false, x_start] at hstart
    exact hst j (by omega)
  · intro j h1 h2
    exact hsteer j h1 (by omega)
  · intro j h1 h2
    exact hacc j h1 (by omega)
  · intro j hj
    by_cases h1 : j < delta_start N
    · rw [getD_of_get (hst j h1).1, getD_of_get (hst j h1).2]
      norm_num
    by_cases h2 : j < a_start N
    · rw [getD_of_get (hsteer j (by omega) h2).1, getD_of_get (hsteer j (by omega) h2).2]
      norm_num
    · rw [getD_of_get (hacc j (by omega) (by omega)).1,
        getD_of_get (hacc j (by omega) (by omega)).2]
      norm_num

end Claims9

/-- C9, at a sample state. -/
theorem variable_bounds_by_segment_witness :
    (sampleState.length = 6)
    ∧ ∃ p, buildProblem sampleTrig sampleFill N sampleState sampleCoeffs = some p
      ∧ p.vars_lowerbound.length = 6 * N + 2 * (N - 1)
      ∧ p.vars_upperbound.length = 6 * N + 2 * (N - 1)
      ∧ (∀ start ∈ [x_start, y_start N, psi_start N, v_start N, cte_start N, epsi_start N],
          ∀ j, start ≤ j → j < start + N →
            p.vars_lowerbound[j]? = some (-1.0e19) ∧ p.vars_upperbound[j]? = some 1.0e19)
      ∧ (∀ j, delta_start N ≤ j → j < delta_start N + (N - 1) →
            p.vars_lowerbound[j]? = some (-0.436332) ∧ p.vars_upperbound[j]? = some 0.436332)
      ∧ (∀ j, a_start N ≤ j → j < a_start N + (N - 1) →
            p.vars_lowerbound[j]? = some (-1) ∧ p.vars_upperbound[j]? = some 1)
      ∧ ∀ j, j < 6 * N + 2 * (N - 1) →
          p.vars_lowerbound.getD j 0 ≤ p.vars_upperbound.getD j 0 :=
  ⟨by decide,
    variable_bounds_by_segment sampleTrig sampleFill sampleState sampleCoeffs (by decide)⟩

section Claims10
variable {α : Type} [Field α]

/-- C10: for every supplied state (x, y, psi, v, cte, epsi), the initial guess that
`MPC::Solve` hands to the solver holds the six state values, in that order, at the indices
`x_start`, `y_start`, `psi_start`, `v_start`, `cte_start`, `epsi_start`, and 0 at every other
index, the control entries included. -/
theorem initial_guess_is_state_then_zero (T : Trig α) (fill : Nat → Nat → α)
    (state coeffs : List α) (hs : state.length = 6) :
    ∃ p, buildProblem T fill N state coeffs = some p
      ∧ p.vars.length = 6 * N + 2 * (N - 1)
      ∧ (p.vars[x_start]? = some (state.getD 0 0) ∧ p.vars[y_start N]? = some (state.getD 1 0)
        ∧ p.vars[psi_start N]? = some (state.getD 2 0)
        ∧ p.vars[v_start N]? = some (state.getD 3 0)
        ∧ p.vars[cte_start N]? = some (state.getD 4 0)
        ∧ p.vars[epsi_start N]? = some (state.getD 5 0))
      ∧ (∀ j, j < 6 * N + 2 * (N - 1) → j ≠ x_start → j ≠ y_start N → j ≠ psi_start N →
          j ≠ v_start N → j ≠ cte_start N → j ≠ epsi_start N → p.vars[j]? = some 0)
      ∧ ∀ j, delta_start N ≤ j → j < 6 * N + 2 * (N - 1) → p.vars[j]? = some 0 := by
  have hN1 : 1 ≤ N := by decide
  obtain ⟨p, hp, -, -, hvars, -⟩ := buildProblem_spec T fill hN1 state coeffs (by omega)
  have hnv : n_vars N = 78 := by decide
  have hN : N = 10 := rfl
  have e1 : y_start N = 10 := by decide
  have e2 : psi_start N = 20 := by decide
  have e3 : v_start N = 30 := by decide
  have e4 : cte_start N = 40 := by decide
  have e5 : epsi_start N = 50 := by decide
  have hd : delta_start N = 60 := by decide
  have hget := setAll_statePairs_get hN1 (by omega : 5 * N < n_vars N) state
  have hother : ∀ j, j < 6 * N + 2 * (N - 1) → j ≠ x_start → j ≠ y_start N →
      j ≠ psi_start N → j ≠ v_start N → j ≠ cte_start N → j ≠ epsi_start N →
      p.vars[j]? = some 0 := by
    intro j hj h0 h1 h2 h3 h4 h5
    rw [hvars]
    refine setAll_statePairs_get_other state j (by omega) ?_
    intro q hq
    have := statePairs_idx N state q hq
    simp only [x_start] at h0
    omega
  refine ⟨p, hp, ?_, ⟨?_, ?_, ?_, ?_, ?_, ?_⟩, hother, ?_⟩
  · rw [hvars, length_setAll, List.length_replicate, hnv]; rfl
  · rw [hvars]; exact hget (x_start, state.getD 0 0) (by simp [statePairs])
  · rw [hvars]; exact hget (y_start N, state.getD 1 0) (by simp [statePairs])
  · rw [hvars]; exact hget (psi_start N, state.getD 2 0) (by simp [statePairs])
  · rw [hvars]; exact hget (v_start N, state.getD 3 0) (by simp [statePairs])
  · rw [hvars]; exact hget (cte_start N, state.getD 4 0) (by simp [statePairs])
  · rw [hvars]; exact hget (epsi_start N, state.getD 5 0) (by simp [statePairs])
  · intro j h1 h2
    exact hother j h2 (by simp only [x_start]; omega) (by omega) (by omega) (by omega)
      (by omega) (by omega)

end Claims10

/-- C10, at a sample state. -/
theorem initial_guess_is_state_then_zero_witness :
    (sampleState.length = 6)
    ∧ ∃ p, buildProblem sampleTrig sampleFill N sampleState sampleCoeffs = some p
      ∧ p.vars.length = 6 * N + 2 * (N - 1)
      ∧ (p.vars[x_start]? = some (sampleState.getD 0 0)
        ∧ p.vars[y_start N]? = some (sampleState.getD 1 0)
        ∧ p.vars[psi_start N]? = some (sampleState.getD 2 0)
        ∧ p.vars[v_start N]? = some (sampleState.getD 3 0)
        ∧ p.vars[cte_start N]? = some (sampleState.getD 4 0)
        ∧ p.vars[epsi_start N]? = some (sampleState.getD 5 0))
      ∧ (∀ j, j < 6 * N + 2 * (N - 1) → j ≠ x_start → j ≠ y_start N → j ≠ psi_start N →
          j ≠ v_start N → j ≠ cte_start N → j ≠ epsi_start N → p.vars[j]? = some 0)
      ∧ ∀ j, delta_start N ≤ j → j < 6 * N + 2 * (N - 1) → p.vars[j]? = some 0 :=
  ⟨by decide,
    initial_guess_is_state_then_zero sampleTrig sampleFill sampleState sampleCoeffs
      (by decide)⟩

end MPC

/-! # Layout of the constraint rows and of their bounds -/

namespace MPC

section Claims11
variable {α : Type} [Field α]

/-- Both constraint-bound vectors in closed form: zeros, then the state at the head of each
state segment. -/
theorem constraint_bounds_closed_form (T : Trig α) (fill : Nat → Nat → α) {n : Nat}
    (hn : 1 ≤ n) (state coeffs : List α) (hs : 6 ≤ state.length) :
    ∃ p, buildProblem T fill n state coeffs = some p
      ∧ p.constraints_lowerbound
          = setAll (statePairs n state) (List.replicate (n_constraints n) 0)
      ∧ p.constraints_upperbound
          = setAll (statePairs n state) (List.replicate (n_constraints n) 0) := by
  obtain ⟨p, hp, -, -, hvars, -, -, -, -, -, hcl, hcu⟩ :=
    buildProblem_spec T fill hn state coeffs hs
  rw [hvars, pinPairs_of_build hn] at hcl hcu
  exact ⟨p, hp, hcl, hcu⟩

/-- C11 as amended: for every supplied state, the constraint lower and upper bound vectors
that `MPC::Solve` builds are equal, have 6N entries, hold the six supplied state values at
the indices `x_start`, `y_start`, `psi_start`, `v_start`, `cte_start`, `epsi_start`
(0, N, 2N, 3N, 4N, 5N), and are zero at every other index. -/
theorem constraint_bounds_pin_segment_heads (T : Trig α) (fill : Nat → Nat → α)
    (state coeffs : List α) (hs : state.length = 6) :
    ∃ p, buildProblem T fill N state coeffs = some p
      ∧ p.constraints_lowerbound.length = 6 * N
      ∧ p.constraints_upperbound = p.constraints_lowerbound
      ∧ (p.constraints_lowerbound[x_start]? = some (state.getD 0 0)
        ∧ p.constraints_lowerbound[y_start N]? = some (state.getD 1 0)
        ∧ p.constraints_lowerbound[psi_start N]? = some (state.getD 2 0)
        ∧ p.constraints_lowerbound[v_start N]? = some (state.getD 3 0)
        ∧ p.constraints_lowerbound[cte_start N]? = some (state.getD 4 0)
        ∧ p.constraints_lowerbound[epsi_start N]? = some (state.getD 5 0))
      ∧ ∀ i, i < 6 * N → i ≠ x_start → i ≠ y_start N → i ≠ psi_start N → i ≠ v_start N →
          i ≠ cte_start N → i ≠ epsi_start N → p.constraints_lowerbound[i]? = some 0 := by
  have hN1 : 1 ≤ N := by decide
  obtain ⟨p, hp, hcl, hcu⟩ := constraint_bounds_closed_form T fill hN1 state coeffs (by omega)
  have hnc : n_constraints N = 60 := by decide
  have hN : N = 10 := rfl
  have e1 : y_start N = 10 := by decide
  have e2 : psi_start N = 20 := by decide
  have e3 : v_start N = 30 := by decide
  have e4 : cte_start N = 40 := by decide
  have e5 : epsi_start N = 50 := by decide
  have hget := setAll_statePairs_get hN1 (by omega : 5 * N < n_constraints N) state
  refine ⟨p, hp, ?_, by rw [hcl, hcu], ⟨?_, ?_, ?_, ?_, ?_, ?_⟩, ?_⟩
  · rw [hcl, length_setAll, List.length_replicate, hnc]; rfl
  · rw [hcl]; exact hget (x_start, state.getD 0 0) (by simp [statePairs])
  · rw [hcl]; exact hget (y_start N, state.getD 1 0) (by simp [statePairs])
  · rw [hcl]; exact hget (psi_start N, state.getD 2 0) (by simp [statePairs])
  · rw [hcl]; exact hget (v_start N, state.getD 3 0) (by simp [statePairs])
  · rw [hcl]; exact hget (cte_start N, state.getD 4 0) (by simp [statePairs])
  · rw [hcl]; exact hget (epsi_start N, state.getD 5 0) (by simp [statePairs])
  · intro i hi h0 h1 h2 h3 h4 h5
    rw [hcl]
    refine setAll_statePairs_get_other state i (by omega) ?_
    intro q hq
    have := statePairs_idx N state q hq
    simp only [x_start] at h0
    omega

end Claims11

/-- C11 as amended, at a sample state. -/
theorem constraint_bounds_pin_segment_heads_witness :
    (sampleState.length = 6)
    ∧ ∃ p, buildProblem sampleTrig sampleFill N sampleState sampleCoeffs = some p
      ∧ p.constraints_lowerbound.length = 6 * N
      ∧ p.constraints_upperbound = p.constraints_lowerbound
      ∧ (p.constraints_lowerbound[x_start]? = some (sampleState.getD 0 0)
        ∧ p.constraints_lowerbound[y_start N]? = some (sampleState.getD 1 0)
        ∧ p.constraints_lowerbound[psi_start N]? = some (sampleState.getD 2 0)
        ∧ p.constraints_lowerbound[v_start N]? = some (sampleState.getD 3 0)
        ∧ p.constraints_lowerbound[cte_start N]? = some (sampleState.getD 4 0)
        ∧ p.constraints_lowerbound[epsi_start N]? = some (sampleState.getD 5 0))
      ∧ ∀ i, i < 6 * N → i ≠ x_start → i ≠ y_start N → i ≠ psi_start N → i ≠ v_start N →
          i ≠ cte_start N → i ≠ epsi_start N → p.constraints_lowerbound[i]? = some 0 :=
  ⟨by decide,
    constraint_bounds_pin_segment_heads sampleTrig sampleFill sampleState sampleCoeffs
      (by decide)⟩

/-- C11 as stated fails: for the state (1, 2, 3, 4, 5, 6) the bound vectors that
`MPC::Solve` builds do not hold the state in their first six entries with zeros after them;
entry 1 is 0, not the supplied y = 2. -/
theorem constraint_bounds_first_six_counterexample :
    ∃ p, buildProblem sampleTrig sampleFill N sampleState sampleCoeffs = some p
      ∧ p.constraints_lowerbound[1]? = some 0 ∧ sampleState.getD 1 0 = 2
      ∧ ¬ ((∀ i, i < 6 →
              p.constraints_lowerbound[i]? = some (sampleState.getD i 0)
              ∧ p.constraints_upperbound[i]? = some (sampleState.getD i 0))
          ∧ ∀ i, 6 ≤ i → i < 6 * N →
              p.constraints_lowerbound[i]? = some 0 ∧ p.constraints_upperbound[i]? = some 0) := by
  obtain ⟨p, hp, hcl, -⟩ := constraint_bounds_closed_form sampleTrig sampleFill
    (by decide : 1 ≤ N) sampleState sampleCoeffs (by decide)
  have h1 : p.constraints_lowerbound[1]? = some 0 := by
    rw [hcl]
    refine setAll_statePairs_get_other sampleState 1 (by decide) ?_
    intro q hq
    have := statePairs_idx N sampleState q hq
    have hN : N = 10 := rfl
    omega
  have h2 : sampleState.getD 1 0 = 2 := by simp [sampleState]
  refine ⟨p, hp, h1, h2, ?_⟩
  rintro ⟨hc, -⟩
  have h3 := (hc 1 (by decide)).1
  rw [h1, h2] at h3
  have h4 : (0 : ℚ) = 2 := Option.some.inj h3
  norm_num at h4

section Claims12
variable {α : Type} [Field α]

/-- The constraint vector, `fg` without its cost entry, for every horizon n ≥ 2: the entry
at the head of each state segment is the initial-state entry, the entry `t` places further
the residual of timestep `t`. -/
theorem constraint_vector_rows (T : Trig α) {n : Nat} {coeffs vars : List α} (hn : 2 ≤ n)
    (hv : vars.length = n_vars n) (hc : 4 ≤ coeffs.length) (fg : List α)
    (hfg : fg.length = 6 * n + 1) :
    ∃ fg', FG_eval T n coeffs fg vars = some fg' ∧ fg'.tail.length = 6 * n
      ∧ (fg'.tail[x_start]? = some (x_at vars 0)
        ∧ fg'.tail[y_start n]? = some (y_at n vars 0)
        ∧ fg'.tail[psi_start n]? = some (psi_at n vars 0)
        ∧ fg'.tail[v_start n]? = some (v_at n vars 0)
        ∧ fg'.tail[cte_start n]? = some (cte_at n vars 0)
        ∧ fg'.tail[epsi_start n]? = some (epsi_at n vars 0))
      ∧ ∀ t, 1 ≤ t → t < n →
        fg'.tail[x_start + t]? = some (x_at vars t
          - (x_at vars (t - 1) + v_at n vars (t - 1) * T.cos (psi_at n vars (t - 1)) * dt))
        ∧ fg'.tail[y_start n + t]? = some (y_at n vars t
          - (y_at n vars (t - 1) + v_at n vars (t - 1) * T.sin (psi_at n vars (t - 1)) * dt))
        ∧ fg'.tail[psi_start n + t]? = some (psi_at n vars t
          - (psi_at n vars (t - 1) + v_at n vars (t - 1) * delta_at n vars (t - 1) / Lf * dt))
        ∧ fg'.tail[v_start n + t]? = some (v_at n vars t
          - (v_at n vars (t - 1) + a_at n vars (t - 1) * dt))
        ∧ fg'.tail[cte_start n + t]? = some (cte_at n vars t
          - ((f0_at coeffs vars t - y_at n vars (t - 1))
              + (v_at n vars (t - 1) * T.sin (epsi_at n vars (t - 1)) * dt)))
        ∧ fg'.tail[epsi_start n + t]? = some (epsi_at n vars t
          - ((psi_at n vars (t - 1) - psides0_at T coeffs vars t)
              + v_at n vars (t - 1) * delta_at n vars (t - 1) / Lf * dt)) := by
  obtain ⟨fg', h1, h2, -, hi, hr⟩ := FG_eval_rows T hn hv hc fg (by omega)
  have hs : ∀ i, fg'.tail[i]? = fg'[1 + i]? := by
    intro i
    rw [List.getElem?_tail, Nat.add_comm]
  refine ⟨fg', h1, by rw [List.length_tail, h2, hfg]; rfl, ?_, ?_⟩
  · simp only [hs]
    exact hi
  · intro t ht1 ht
    simp only [hs, ← Nat.add_assoc]
    exact hr t ht1 ht

/-- C12 as amended: in the constraint vector that the evaluator produces (`fg` without its
cost entry), the entries at the indices `x_start`, `y_start`, `psi_start`, `v_start`,
`cte_start`, `epsi_start` (0, N, 2N, 3N, 4N, 5N) are the six initial-state entries of the
decision vector, and for every t in 1..N-1 the entries `x_start + t`, `y_start + t`,
`psi_start + t`, `v_start + t`, `cte_start + t`, `epsi_start + t` are the six residuals
(x, y, psi, v, cte, epsi) of timestep t. -/
theorem constraint_rows_are_segment_major (T : Trig α) (coeffs fg vars : List α)
    (hv : vars.length = 6 * N + 2 * (N - 1)) (hc : coeffs.length = 4)
    (hfg : fg.length = 6 * N + 1) :
    ∃ fg', FG_eval T N coeffs fg vars = some fg' ∧ fg'.tail.length = 6 * N
      ∧ (fg'.tail[x_start]? = some (x_at vars 0)
        ∧ fg'.tail[y_start N]? = some (y_at N vars 0)
        ∧ fg'.tail[psi_start N]? = some (psi_at N vars 0)
        ∧ fg'.tail[v_start N]? = some (v_at N vars 0)
        ∧ fg'.tail[cte_start N]? = some (cte_at N vars 0)
        ∧ fg'.tail[epsi_start N]? = some (epsi_at N vars 0))
      ∧ ∀ t, 1 ≤ t → t < N →
        fg'.tail[x_start + t]? = some (x_at vars t
          - (x_at vars (t - 1) + v_at N vars (t - 1) * T.cos (psi_at N vars (t - 1)) * dt))
        ∧ fg'.tail[y_start N + t]? = some (y_at N vars t
          - (y_at N vars (t - 1) + v_at N vars (t - 1) * T.sin (psi_at N vars (t - 1)) * dt))
        ∧ fg'.tail[psi_start N + t]? = some (psi_at N vars t
          - (psi_at N vars (t - 1) + v_at N vars (t - 1) * delta_at N vars (t - 1) / Lf * dt))
        ∧ fg'.tail[v_start N + t]? = some (v_at N vars t
          - (v_at N vars (t - 1) + a_at N vars (t - 1) * dt))
        ∧ fg'.tail[cte_start N + t]? = some (cte_at N vars t
          - ((f0_at coeffs vars t - y_at N vars (t - 1))
              + (v_at N vars (t - 1) * T.sin (epsi_at N vars (t - 1)) * dt)))
        ∧ fg'.tail[epsi_start N + t]? = some (epsi_at N vars t
          - ((psi_at N vars (t - 1) - psides0_at T coeffs vars t)
              + v_at N vars (t - 1) * delta_at N vars (t - 1) / Lf * dt)) :=
  constraint_vector_rows T (by decide : 2 ≤ N) (by rw [hv]; rfl) (by omega) fg hfg

end Claims12

/-- C12 as amended, on a sample decision vector. -/
theorem constraint_rows_are_segment_major_witness :
    (sampleVars.length = 6 * N + 2 * (N - 1) ∧ sampleCoeffs.length = 4
      ∧ sampleFg.length = 6 * N + 1)
    ∧ ∃ fg', FG_eval sampleTrig N sampleCoeffs sampleFg sampleVars = some fg'
      ∧ fg'.tail.length = 6 * N
      ∧ (fg'.tail[x_start]? = some (x_at sampleVars 0)
        ∧ fg'.tail[y_start N]? = some (y_at N sampleVars 0)
        ∧ fg'.tail[psi_start N]? = some (psi_at N sampleVars 0)
        ∧ fg'.tail[v_start N]? = some (v_at N sampleVars 0)
        ∧ fg'.tail[cte_start N]? = some (cte_at N sampleVars 0)
        ∧ fg'.tail[epsi_start N]? = some (epsi_at N sampleVars 0))
      ∧ ∀ t, 1 ≤ t → t < N →
        fg'.tail[x_start + t]? = some (x_at sampleVars t
          - (x_at sampleVars (t - 1)
              + v_at N sampleVars (t - 1) * sampleTrig.cos (psi_at N sampleVars (t - 1)) * dt))
        ∧ fg'.tail[y_start N + t]? = some (y_at N sampleVars t
          - (y_at N sampleVars (t - 1)
              + v_at N sampleVars (t - 1) * sampleTrig.sin (psi_at N sampleVars (t - 1)) * dt))
        ∧ fg'.tail[psi_start N + t]? = some (psi_at N sampleVars t
          - (psi_at N sampleVars (t - 1)
              + v_at N sampleVars (t - 1) * delta_at N sampleVars (t - 1) / Lf * dt))
        ∧ fg'.tail[v_start N + t]? = some (v_at N sampleVars t
          - (v_at N sampleVars (t - 1) + a_at N sampleVars (t - 1) * dt))
        ∧ fg'.tail[cte_start N + t]? = some (cte_at N sampleVars t
          - ((f0_at sampleCoeffs sampleVars t - y_at N sampleVars (t - 1))
              + (v_at N sampleVars (t - 1) * sampleTrig.sin (epsi_at N sampleVars (t - 1))
                  * dt)))
        ∧ fg'.tail[epsi_start N + t]? = some (epsi_at N sampleVars t
          - ((psi_at N sampleVars (t - 1) - psides0_at sampleTrig sampleCoeffs sampleVars t)
              + v_at N sampleVars (t - 1) * delta_at N sampleVars (t - 1) / Lf * dt)) :=
  ⟨⟨by decide, by decide, by decide⟩,
    constraint_rows_are_segment_major sampleTrig sampleCoeffs sampleFg sampleVars (by decide)
      (by decide) (by decide)⟩

/-- Entry `j` of the decision vector that is 0 everywhere except `y[0] = 1`. -/
theorem unitYVars_getD (j : Nat) : unitYVars.getD j 0 = if j = 10 then 1 else 0 := by
  simp only [unitYVars, List.getD_eq_getElem?_getD, List.getElem?_set,
    List.getElem?_replicate, List.length_replicate]
  by_cases h : 10 = j
  · subst h; simp
  · have h' : ¬ j = 10 := fun e => h e.symm
    simp only [h, h', if_false]
    by_cases hj : j < 78 <;> simp [hj]

/-- C12 as stated fails: for the decision vector that is 0 except `y[0] = 1`, entry 1 of the
constraint vector is the x residual of timestep 1, which is 0, and not `y[0]`; so entries
0..5 are not the six initial-state entries. -/
theorem constraint_rows_timestep_major_counterexample :
    ∃ fg', FG_eval sampleTrig N sampleCoeffs sampleFg unitYVars = some fg'
      ∧ fg'.tail[1]? = some 0 ∧ y_at N unitYVars 0 = 1
      ∧ ¬ (fg'.tail[0]? = some (x_at unitYVars 0) ∧ fg'.tail[1]? = some (y_at N unitYVars 0)
          ∧ fg'.tail[2]? = some (psi_at N unitYVars 0)
          ∧ fg'.tail[3]? = some (v_at N unitYVars 0)
          ∧ fg'.tail[4]? = some (cte_at N unitYVars 0)
          ∧ fg'.tail[5]? = some (epsi_at N unitYVars 0)) := by
  obtain ⟨fg', h1, -, -, hr⟩ := constraint_vector_rows sampleTrig (by decide : 2 ≤ N)
    (by decide : unitYVars.length = n_vars N) (by decide : 4 ≤ sampleCoeffs.length) sampleFg
    (by decide)
  have hx := (hr 1 (by decide) (by decide)).1
  have hN : N = 10 := rfl
  have hy : y_at N unitYVars 0 = 1 := by
    simp only [y_at, y_start_eq, hN, unitYVars_getD]
    simp
  have h0 : fg'.tail[1]? = some 0 := by
    have e : x_start + 1 = 1 := by decide
    rw [e] at hx
    rw [hx]
    simp only [x_at, v_at, x_start, v_start_eq, hN, unitYVars_getD]
    simp
  refine ⟨fg', h1, h0, hy, ?_⟩
  rintro ⟨-, h, -⟩
  rw [h0, hy] at h
  have h4 : (0 : ℚ) = 1 := Option.some.inj h
  norm_num at h4

end MPC

/-! # The predicted trajectory; unchecked inputs -/

namespace MPC

/-- C13: at a sample state, with a solver that returns a vector of 78 entries, the
trajectory that `MPC::Solve` returns has N - 1 = 9 points, not N = 10: the loop of lines
284-287 stops at `i < N - 1`, so the entries `solution.x[x_start + 9]` and
`solution.x[y_start + 9]` of the last timestep are not returned. -/
theorem predicted_trajectory_is_one_point_short :
    ∃ out, Solve sampleTrig sampleSolver sampleFill N sampleState sampleCoeffs = some out
      ∧ N = 10 ∧ out.soln.x_points.length = 9 ∧ out.soln.y_points.length = 9
      ∧ out.soln.x_points[N - 1]? = none ∧ out.soln.y_points[N - 1]? = none := by
  obtain ⟨p, -, -, hS⟩ := Solve_spec sampleTrig sampleSolver sampleFill (by decide : 3 ≤ N)
    sampleState sampleCoeffs (by decide) (fun _ => rfl)
  refine ⟨_, hS, rfl, ?_, ?_, ?_, ?_⟩
  · simp [N]
  · simp [N]
  · simp [N]
  · simp [N]

/-- Lines 181-186 read only the first six entries of the state vector. -/
theorem setInitialState_take {α : Type} (n : Nat) (state vars : List α) :
    setInitialState n (state.take 6) vars = setInitialState n state vars := by
  have h : ∀ k, k < 6 → rd (state.take 6) k = rd state k := by
    intro k hk
    simp only [rd, List.getElem?_take, hk, if_true]
  simp only [setInitialState, assignFrom, h 0 (by decide), h 1 (by decide), h 2 (by decide),
    h 3 (by decide), h 4 (by decide), h 5 (by decide)]

section Claims14
variable {α : Type} [Field α]

/-- The problem built for a state vector is the problem built for its first six entries. -/
theorem buildProblem_take (T : Trig α) (fill : Nat → Nat → α) (n : Nat)
    (state coeffs : List α) :
    buildProblem T fill n (state.take 6) coeffs = buildProblem T fill n state coeffs := by
  simp only [buildProblem, setInitialState_take]

/-- Lines 127-128 read only the first four entries of the coefficient vector. -/
theorem readReference_take (T : Trig α) (coeffs : List α) (x0 : α) :
    readReference T (coeffs.take 4) x0 = readReference T coeffs x0 := by
  have h : ∀ k, k < 4 → rd (coeffs.take 4) k = rd coeffs k := by
    intro k hk
    simp only [rd, List.getElem?_take, hk, if_true]
  simp only [readReference, h 0 (by decide), h 1 (by decide), h 2 (by decide),
    h 3 (by decide)]

theorem modelBody_take (T : Trig α) (n : Nat) (coeffs vars : List α) :
    modelBody T n (coeffs.take 4) vars = modelBody T n coeffs vars := by
  funext t fg
  simp only [modelBody, readReference_take]

/-- The evaluator for a coefficient vector is the evaluator for its first four entries. -/
theorem FG_eval_take (T : Trig α) (n : Nat) (coeffs fg vars : List α) :
    FG_eval T n (coeffs.take 4) fg vars = FG_eval T n coeffs fg vars := by
  simp only [FG_eval, constraintPart, modelBody_take]

/-- C14 as amended: `MPC::Solve` does not check the lengths of its inputs and has no
outcome for invalid input.  For every state vector with at least six entries and every
coefficient vector with at least four entries, whatever their lengths, it builds the same
problem as for the first six state entries, with the evaluator of the given coefficient
vector, which reads only its first four entries and stays within range on every decision
vector of the problem; it invokes the solver on that problem and returns what it reads from
the result of the solver. -/
theorem solve_does_not_validate (T : Trig α) (solver : Problem α → solve_result α)
    (fill : Nat → Nat → α) (state coeffs : List α) (hs : 6 ≤ state.length)
    (hc : 4 ≤ coeffs.length) (hx : ∀ q, (solver q).x.length = q.vars.length) :
    ∃ p out, buildProblem T fill N state coeffs = some p
      ∧ buildProblem T fill N (state.take 6) coeffs = some p
      ∧ p.fg_eval = FG_eval T N coeffs
      ∧ (∀ fg vars, p.fg_eval fg vars = FG_eval T N (coeffs.take 4) fg vars)
      ∧ (∀ fg vars, vars.length = p.vars.length → fg.length = 6 * N + 1 →
          (p.fg_eval fg vars).isSome)
      ∧ Solve T solver fill N state coeffs = some out
      ∧ readSolution N (solver p) = some out
      ∧ out.printed_cost = (solver p).obj_value
      ∧ out.soln.delta_actuation = (solver p).x.getD (delta_start N + 1) 0
      ∧ out.soln.a_actuation = (solver p).x.getD (a_start N + 1) 0 := by
  obtain ⟨p, hp, hl, hS⟩ := Solve_spec T solver fill (by decide : 3 ≤ N) state coeffs hs hx
  obtain ⟨p', hp', -, hfe, -⟩ := buildProblem_spec T fill (by decide : 1 ≤ N) state coeffs hs
  rw [hp] at hp'
  cases hp'
  refine ⟨p, _, hp, by rw [buildProblem_take, hp], hfe, ?_, ?_, hS, ?_, rfl, rfl, rfl⟩
  · intro fg vars
    rw [hfe, FG_eval_take]
  · intro fg vars hv hfg
    obtain ⟨fg', h1, -⟩ := FG_eval_spec T (by decide : 2 ≤ N) (hv.trans hl) hc fg
      (by omega)
    rw [hfe, h1]
    rfl
  · rw [← hS]
    simp only [Solve, hp, Option.bind_eq_bind, Option.some_bind]

end Claims14

/-- C14 as amended, for a state vector of seven entries and a coefficient vector of five. -/
theorem solve_does_not_validate_witness :
    (6 ≤ longState.length ∧ 4 ≤ longCoeffs.length
      ∧ ∀ q, (sampleSolver q).x.length = q.vars.length)
    ∧ ∃ p out, buildProblem sampleTrig sampleFill N longState longCoeffs = some p
      ∧ buildProblem sampleTrig sampleFill N (longState.take 6) longCoeffs = some p
      ∧ p.fg_eval = FG_eval sampleTrig N longCoeffs
      ∧ (∀ fg vars, p.fg_eval fg vars = FG_eval sampleTrig N (longCoeffs.take 4) fg vars)
      ∧ (∀ fg vars, vars.length = p.vars.length → fg.length = 6 * N + 1 →
          (p.fg_eval fg vars).isSome)
      ∧ Solve sampleTrig sampleSolver sampleFill N longState longCoeffs = some out
      ∧ readSolution N (sampleSolver p) = some out
      ∧ out.printed_cost = (sampleSolver p).obj_value
      ∧ out.soln.delta_actuation = (sampleSolver p).x.getD (delta_start N + 1) 0
      ∧ out.soln.a_actuation = (sampleSolver p).x.getD (a_start N + 1) 0 :=
  ⟨⟨by decide, by decide, fun _ => rfl⟩,
    solve_does_not_validate sampleTrig sampleSolver sampleFill longState longCoeffs
      (by decide) (by decide) (fun _ => rfl)⟩

/-- C14 as stated fails: for a state vector of seven entries and a coefficient vector of
five entries, `MPC::Solve` rejects nothing.  The problem is built, its evaluator stays within
range on the initial guess, and `MPC::Solve` returns a record that differs with the solver,
so the solver was invoked. -/
theorem invalid_input_not_rejected_counterexample :
    longState.length ≠ 6 ∧ longCoeffs.length ≠ 4
    ∧ ∃ p out out', buildProblem sampleTrig sampleFill N longState longCoeffs = some p
      ∧ (p.fg_eval sampleFg p.vars).isSome
      ∧ Solve sampleTrig sampleSolver sampleFill N longState longCoeffs = some out
      ∧ Solve sampleTrig zeroSolver sampleFill N longState longCoeffs = some out'
      ∧ out.soln.x_points[0]? = some 1 ∧ out'.soln.x_points[0]? = some 0 ∧ out ≠ out' := by
  obtain ⟨p, hp, hl, hS⟩ := Solve_spec sampleTrig sampleSolver sampleFill (by decide : 3 ≤ N)
    longState longCoeffs (by decide) (fun _ => rfl)
  obtain ⟨p', hp', -, hS'⟩ := Solve_spec sampleTrig zeroSolver sampleFill (by decide : 3 ≤ N)
    longState longCoeffs (by decide) (fun q => by simp [zeroSolver])
  rw [hp] at hp'
  cases hp'
  obtain ⟨p2, hp2, -, hfe, hvars, -⟩ := buildProblem_spec sampleTrig sampleFill
    (by decide : 1 ≤ N) longState longCoeffs (by decide)
  rw [hp] at hp2
  cases hp2
  have hrun : (p.fg_eval sampleFg p.vars).isSome := by
    obtain ⟨fg', h1, -⟩ := FG_eval_spec sampleTrig (by decide : 2 ≤ N) hl
      (by decide : 4 ≤ longCoeffs.length) sampleFg (by decide)
    rw [hfe, h1]
    rfl
  have hx0 : p.vars[0]? = some 1 := by
    rw [hvars]
    exact setAll_statePairs_get (by decide : 1 ≤ N) (by decide : 5 * N < n_vars N) longState
      (x_start, longState.getD 0 0) (by simp [statePairs])
  have hlen : 0 < p.vars.length := by rw [hl]; decide
  have e1 : ∀ out : Outcome ℚ, out = ⟨(sampleSolver p).obj_value,
      ⟨(List.range (N - 1)).map (fun i => (sampleSolver p).x.getD (x_start + i) 0),
        (List.range (N - 1)).map (fun i => (sampleSolver p).x.getD (y_start N + i) 0),
        (sampleSolver p).x.getD (delta_start N + 1) 0,
        (sampleSolver p).x.getD (a_start N + 1) 0⟩⟩ → out.soln.x_points[0]? = some 1 := by
    intro out ho
    subst ho
    simp [N, List.range_succ_eq_map, x_start, sampleSolver, List.getD_eq_getElem?_getD, hx0]
  have e2 : ∀ out : Outcome ℚ, out = ⟨(zeroSolver p).obj_value,
      ⟨(List.range (N - 1)).map (fun i => (zeroSolver p).x.getD (x_start + i) 0),
        (List.range (N - 1)).map (fun i => (zeroSolver p).x.getD (y_start N + i) 0),
        (zeroSolver p).x.getD (delta_start N + 1) 0,
        (zeroSolver p).x.getD (a_start N + 1) 0⟩⟩ → out.soln.x_points[0]? = some 0 := by
    intro out ho
    subst ho
    simp [N, List.range_succ_eq_map, x_start, zeroSolver, List.getD_eq_getElem?_getD,
      List.getElem?_replicate, hlen]
  refine ⟨by decide, by decide, p, _, _, hp, hrun, hS, hS', e1 _ rfl, e2 _ rfl, ?_⟩
  intro h
  have h1 := e1 _ rfl
  rw [h, e2 _ rfl] at h1
  have h4 : (0 : ℚ) = 1 := Option.some.inj h1
  norm_num at h4

end MPC

/-! # Simulation of the model -/

namespace MPC

section Simulation
variable {α : Type} [Field α]

theorem poly_four (coeffs : List α) (hc : coeffs.length = 4) (x : α) :
    poly coeffs x = coeffs.getD 0 0 + coeffs.getD 1 0 * x + coeffs.getD 2 0 * x * x
      + coeffs.getD 3 0 * x * x * x := by
  simp only [poly, hc, List.range_succ, List.range_zero, List.nil_append, List.cons_append,
    List.map_cons, List.map_nil, List.sum_cons, List.sum_nil]
  ring

theorem poly_derivative_four (coeffs : List α) (hc : coeffs.length = 4) (x : α) :
    poly_derivative coeffs x = coeffs.getD 1 0 + 2 * coeffs.getD 2 0 * x
      + 3 * coeffs.getD 3 0 * x * x := by
  simp only [poly_derivative, hc, List.range_succ, List.range_zero, List.nil_append,
    List.cons_append, List.map_cons, List.map_nil, List.sum_cons, List.sum_nil]
  push_cast
  ring

/-- One step of the model from the state of a decision vector at `t - 1`, when the rows of
timestep `t` are zero, is the state of the decision vector at `t`. -/
theorem model_step_of_rows_zero (T : Trig α) (n : Nat) (coeffs vars : List α)
    (hc : coeffs.length = 4) (t : Nat)
    (hz : ∀ r ∈ rowsAt T n coeffs vars (t + 1), r.2 = 0) :
    model_step T coeffs (state_at n vars t) (delta_at n vars t) (a_at n vars t)
      = state_at n vars (t + 1) := by
  simp only [rowsAt, List.forall_mem_cons, List.not_mem_nil, IsEmpty.forall_iff,
    implies_true, and_true, Nat.add_sub_cancel, f0_at, psides0_at] at hz
  obtain ⟨h1, h2, h3, h4, h5, h6⟩ := hz
  simp only [model_step, state_at, StateAt.mk.injEq, poly_four coeffs hc,
    poly_derivative_four coeffs hc]
  refine ⟨?_, ?_, ?_, ?_, ?_, ?_⟩
  · exact (sub_eq_zero.1 h1).symm
  · exact (sub_eq_zero.1 h2).symm
  · rw [sub_eq_zero.1 h3]; ring
  · exact (sub_eq_zero.1 h4).symm
  · exact (sub_eq_zero.1 h5).symm
  · exact (sub_eq_zero.1 h6).symm

/-- When all rows of the timesteps 1..n-1 are zero, simulating the model from the
timestep-0 state with the controls of the decision vector gives back its states. -/
theorem simulate_of_rows_zero (T : Trig α) (n : Nat) (coeffs vars : List α)
    (hc : coeffs.length = 4)
    (hz : ∀ t, 1 ≤ t → t < n → ∀ r ∈ rowsAt T n coeffs vars t, r.2 = 0) :
    ∀ t, t < n → simulate T coeffs (state_at n vars 0) (delta_at n vars) (a_at n vars) t
      = state_at n vars t := by
  intro t
  induction t with
  | zero => intro _; rfl
  | succ t ih =>
    intro ht
    rw [simulate, ih (by omega)]
    exact model_step_of_rows_zero T n coeffs vars hc t (hz (t + 1) (by omega) ht)

/-- C15: for every coefficient vector and every decision vector whose dynamics residuals,
as the evaluator computes them, are all zero for t = 1..N-1, simulating the kinematic model
of section 4.1 from the timestep-0 state of the vector with its control sequences
delta[0..N-2], a[0..N-2] reproduces, for every timestep t in 0..N-1, the state entries
(x[t], y[t], psi[t], v[t], cte[t], epsi[t]) of the vector. -/
theorem resimulation_reproduces_states (T : Trig α) (coeffs fg vars fg' : List α)
    (hv : vars.length = 6 * N + 2 * (N - 1)) (hc : coeffs.length = 4)
    (hfg : fg.length = 6 * N + 1) (hrun : FG_eval T N coeffs fg vars = some fg')
    (hzero : ∀ t, 1 ≤ t → t < N →
      fg'[1 + x_start + t]? = some 0 ∧ fg'[1 + y_start N + t]? = some 0
      ∧ fg'[1 + psi_start N + t]? = some 0 ∧ fg'[1 + v_start N + t]? = some 0
      ∧ fg'[1 + cte_start N + t]? = some 0 ∧ fg'[1 + epsi_start N + t]? = some 0) :
    ∀ t, t < N →
      simulate T coeffs (state_at N vars 0) (delta_at N vars) (a_at N vars) t
        = ⟨x_at vars t, y_at N vars t, psi_at N vars t, v_at N vars t, cte_at N vars t,
            epsi_at N vars t⟩ := by
  have hN : 2 ≤ N := by decide
  have hv' : vars.length = n_vars N := by rw [hv]; rfl
  have hc' : 4 ≤ coeffs.length := by omega
  have hfg' : 6 * N < fg.length := by omega
  obtain ⟨g, h1, -, -, -, hr⟩ := FG_eval_rows T hN hv' hc' fg hfg'
  rw [hrun] at h1
  cases h1
  apply simulate_of_rows_zero T N coeffs vars hc
  intro t ht1 ht r hr'
  obtain ⟨r1, r2, r3, r4, r5, r6⟩ := hr t ht1 ht
  obtain ⟨z1, z2, z3, z4, z5, z6⟩ := hzero t ht1 ht
  rw [r1] at z1
  rw [r2] at z2
  rw [r3] at z3
  rw [r4] at z4
  rw [r5] at z5
  rw [r6] at z6
  simp only [rowsAt, List.mem_cons, List.mem_singleton, List.not_mem_nil, or_false] at hr'
  rcases hr' with h | h | h | h | h | h <;> subst h
  · exact Option.some.inj z1
  · exact Option.some.inj z2
  · exact Option.some.inj z3
  · exact Option.some.inj z4
  · exact Option.some.inj z5
  · exact Option.some.inj z6

end Simulation

/-- Every entry of the zero decision vector is 0. -/
theorem zeroVars_getD (j : Nat) : zeroVars.getD j 0 = 0 := by
  simp only [zeroVars, List.getD_eq_getElem?_getD, List.getElem?_replicate]
  by_cases hj : j < 78 <;> simp [hj]

/-- C15, on the zero decision vector with the flat reference path: its residuals are zero,
and the simulation from its timestep-0 state reproduces its states. -/
theorem resimulation_reproduces_states_witness :
    ∃ fg', (zeroVars.length = 6 * N + 2 * (N - 1) ∧ flatCoeffs.length = 4
        ∧ sampleFg.length = 6 * N + 1
        ∧ FG_eval sampleTrig N flatCoeffs sampleFg zeroVars = some fg'
        ∧ ∀ t, 1 ≤ t → t < N →
          fg'[1 + x_start + t]? = some 0 ∧ fg'[1 + y_start N + t]? = some 0
          ∧ fg'[1 + psi_start N + t]? = some 0 ∧ fg'[1 + v_start N + t]? = some 0
          ∧ fg'[1 + cte_start N + t]? = some 0 ∧ fg'[1 + epsi_start N + t]? = some 0)
      ∧ ∀ t, t < N →
        simulate sampleTrig flatCoeffs (state_at N zeroVars 0) (delta_at N zeroVars)
            (a_at N zeroVars) t
          = ⟨x_at zeroVars t, y_at N zeroVars t, psi_at N zeroVars t, v_at N zeroVars t,
              cte_at N zeroVars t, epsi_at N zeroVars t⟩ := by
  obtain ⟨fg', h1, -, -, -, hr⟩ := FG_eval_rows sampleTrig (by decide : 2 ≤ N)
    (by decide : zeroVars.length = n_vars N) (by decide : 4 ≤ flatCoeffs.length) sampleFg
    (by decide)
  have hz : ∀ t, 1 ≤ t → t < N →
      fg'[1 + x_start + t]? = some 0 ∧ fg'[1 + y_start N + t]? = some 0
      ∧ fg'[1 + psi_start N + t]? = some 0 ∧ fg'[1 + v_start N + t]? = some 0
      ∧ fg'[1 + cte_start N + t]? = some 0 ∧ fg'[1 + epsi_start N + t]? = some 0 := by
    intro t ht1 ht
    obtain ⟨r1, r2, r3, r4, r5, r6⟩ := hr t ht1 ht
    rw [r1, r2, r3, r4, r5, r6]
    simp only [x_at, y_at, psi_at, v_at, cte_at, epsi_at, delta_at, a_at, f0_at, psides0_at,
      zeroVars_getD, flatCoeffs, sampleTrig]
    simp
  exact ⟨fg', ⟨by decide, by decide, by decide, h1, hz⟩,
    resimulation_reproduces_states sampleTrig flatCoeffs sampleFg zeroVars fg' (by decide)
      (by decide) (by decide) h1 hz⟩

end MPC

/-! # Decision vectors made by simulation -/

namespace MPC

section Rollout
variable {α : Type} [Field α]

theorem length_rollout (T : Trig α) (n : Nat) (coeffs : List α) (s0 : StateAt α)
    (delta a : Nat → α) : (rollout T n coeffs s0 delta a).length = n_vars n := by
  simp [rollout]

theorem rollout_getD (T : Trig α) (n : Nat) (coeffs : List α) (s0 : StateAt α)
    (delta a : Nat → α) (j : Nat) (hj : j < n_vars n) :
    (rollout T n coeffs s0 delta a).getD j 0 = rolloutEntry T n coeffs s0 delta a j := by
  simp only [rollout, List.getD_eq_getElem?_getD, List.getElem?_map,
    List.getElem?_range hj, Option.map_some', Option.getD_some]

/-- The state segments of a rollout hold the simulated states. -/
theorem state_at_rollout (T : Trig α) {n : Nat} (hn : 1 ≤ n) (coeffs : List α)
    (s0 : StateAt α) (delta a : Nat → α) (t : Nat) (ht : t < n) :
    state_at n (rollout T n coeffs s0 delta a) t = simulate T coeffs s0 delta a t := by
  have hnv := n_vars_eq hn
  have e1 := y_start_eq n
  have e2 := psi_start_eq n
  have e3 := v_start_eq n
  have e4 := cte_start_eq n
  have e5 := epsi_start_eq n
  have e6 := delta_start_eq n
  have e7 := a_start_eq hn
  have hx : x_at (rollout T n coeffs s0 delta a) t = (simulate T coeffs s0 delta a t).x := by
    rw [x_at, rollout_getD _ _ _ _ _ _ _ (by simp only [x_start]; omega), rolloutEntry,
      if_pos (by simp only [x_start]; omega)]
    simp [x_start]
  have hy : y_at n (rollout T n coeffs s0 delta a) t = (simulate T coeffs s0 delta a t).y := by
    rw [y_at, rollout_getD _ _ _ _ _ _ _ (by omega), rolloutEntry, if_neg (by omega),
      if_pos (by omega), Nat.add_sub_cancel_left]
  have hpsi : psi_at n (rollout T n coeffs s0 delta a) t
      = (simulate T coeffs s0 delta a t).psi := by
    rw [psi_at, rollout_getD _ _ _ _ _ _ _ (by omega), rolloutEntry, if_neg (by omega),
      if_neg (by omega), if_pos (by omega), Nat.add_sub_cancel_left]
  have hv : v_at n (rollout T n coeffs s0 delta a) t = (simulate T coeffs s0 delta a t).v := by
    rw [v_at, rollout_getD _ _ _ _ _ _ _ (by omega), rolloutEntry, if_neg (by omega),
      if_neg (by omega), if_neg (by omega), if_pos (by omega), Nat.add_sub_cancel_left]
  have hcte : cte_at n (rollout T n coeffs s0 delta a) t
      = (simulate T coeffs s0 delta a t).cte := by
    rw [cte_at, rollout_getD _ _ _ _ _ _ _ (by omega), rolloutEntry, if_neg (by omega),
      if_neg (by omega), if_neg (by omega), if_neg (by omega), if_pos (by omega),
      Nat.add_sub_cancel_left]
  have hepsi : epsi_at n (rollout T n coeffs s0 delta a) t
      = (simulate T coeffs s0 delta a t).epsi := by
    rw [epsi_at, rollout_getD _ _ _ _ _ _ _ (by omega), rolloutEntry, if_neg (by omega),
      if_neg (by omega), if_neg (by omega), if_neg (by omega), if_neg (by omega),
      if_pos (by omega), Nat.add_sub_cancel_left]
  simp only [state_at, hx, hy, hpsi, hv, hcte, hepsi]

/-- The steering segment of a rollout holds the steering sequence. -/
theorem delta_at_rollout (T : Trig α) {n : Nat} (hn : 1 ≤ n) (coeffs : List α)
    (s0 : StateAt α) (delta a : Nat → α) (t : Nat) (ht : t < n - 1) :
    delta_at n (rollout T n coeffs s0 delta a) t = delta t := by
  have hnv := n_vars_eq hn
  have e1 := y_start_eq n
  have e2 := psi_start_eq n
  have e3 := v_start_eq n
  have e4 := cte_start_eq n
  have e5 := epsi_start_eq n
  have e6 := delta_start_eq n
  have e7 := a_start_eq hn
  rw [delta_at, rollout_getD _ _ _ _ _ _ _ (by omega), rolloutEntry, if_neg (by omega),
    if_neg (by omega), if_neg (by omega), if_neg (by omega), if_neg (by omega),
    if_neg (by omega), if_pos (by omega), Nat.add_sub_cancel_left]

/-- The acceleration segment of a rollout holds the acceleration sequence. -/
theorem a_at_rollout (T : Trig α) {n : Nat} (hn : 1 ≤ n) (coeffs : List α)
    (s0 : StateAt α) (delta a : Nat → α) (t : Nat) (ht : t < n - 1) :
    a_at n (rollout T n coeffs s0 delta a) t = a t := by
  have hnv := n_vars_eq hn
  have e1 := y_start_eq n
  have e2 := psi_start_eq n
  have e3 := v_start_eq n
  have e4 := cte_start_eq n
  have e5 := epsi_start_eq n
  have e6 := delta_start_eq n
  have e7 := a_start_eq hn
  rw [a_at, rollout_getD _ _ _ _ _ _ _ (by omega), rolloutEntry, if_neg (by omega),
    if_neg (by omega), if_neg (by omega), if_neg (by omega), if_neg (by omega),
    if_neg (by omega), if_neg (by omega), Nat.add_sub_cancel_left]

/-- The rows of timestep `t` are zero exactly when the state at `t` is one model step from
the state at `t - 1`. -/
theorem rows_zero_of_model_step (T : Trig α) (n : Nat) (coeffs vars : List α)
    (hc : coeffs.length = 4) (t : Nat)
    (h : model_step T coeffs (state_at n vars t) (delta_at n vars t) (a_at n vars t)
      = state_at n vars (t + 1)) :
    ∀ r ∈ rowsAt T n coeffs vars (t + 1), r.2 = 0 := by
  simp only [model_step, state_at, StateAt.mk.injEq, poly_four coeffs hc,
    poly_derivative_four coeffs hc] at h
  obtain ⟨h1, h2, h3, h4, h5, h6⟩ := h
  simp only [rowsAt, List.forall_mem_cons, List.not_mem_nil, IsEmpty.forall_iff,
    implies_true, and_true, Nat.add_sub_cancel, f0_at, psides0_at]
  refine ⟨?_, ?_, ?_, ?_, ?_, ?_⟩
  · rw [← h1]; ring
  · rw [← h2]; ring
  · rw [← h3]; ring
  · rw [← h4]; ring
  · rw [← h5]; ring
  · rw [← h6]; ring

/-- Every residual row of a rollout is zero. -/
theorem rollout_rows_zero (T : Trig α) {n : Nat} (hn : 1 ≤ n) (coeffs : List α)
    (hc : coeffs.length = 4) (s0 : StateAt α) (delta a : Nat → α) :
    ∀ t, 1 ≤ t → t < n → ∀ r ∈ rowsAt T n coeffs (rollout T n coeffs s0 delta a) t,
      r.2 = 0 := by
  intro t ht1 ht
  obtain ⟨k, rfl⟩ : ∃ k, t = k + 1 := ⟨t - 1, by omega⟩
  apply rows_zero_of_model_step T n coeffs _ hc k
  rw [state_at_rollout T hn coeffs s0 delta a k (by omega),
    state_at_rollout T hn coeffs s0 delta a (k + 1) ht,
    delta_at_rollout T hn coeffs s0 delta a k (by omega),
    a_at_rollout T hn coeffs s0 delta a k (by omega)]
  rfl

/-- The speed of a simulation does not depend on the steering. -/
theorem simulate_v_steering (T : Trig α) (coeffs : List α) (s0 : StateAt α)
    (delta delta2 a : Nat → α) (t : Nat) :
    (simulate T coeffs s0 delta a t).v = (simulate T coeffs s0 delta2 a t).v := by
  induction t with
  | zero => rfl
  | succ t ih => simp only [simulate, model_step, ih]

end Rollout

end MPC

/-! # Feasible vectors and their cost -/

namespace MPC

section FeasibleCost
variable {α : Type} [LinearOrderedField α]

/-- The feasible vectors and the objective of the problem that `MPC::Solve` builds, in terms
of the entries of the decision vector. -/
theorem feasible_iff (T : Trig α) (fill : Nat → Nat → α) {n : Nat} (hn : 2 ≤ n)
    (state coeffs fg : List α) (hs : 6 ≤ state.length) (hc : 4 ≤ coeffs.length)
    (hfg : fg.length = 6 * n + 1) :
    ∃ p, buildProblem T fill n state coeffs = some p ∧ p.vars.length = n_vars n
      ∧ (∀ j, j < delta_start n →
          p.vars_lowerbound[j]? = some (-1.0e19) ∧ p.vars_upperbound[j]? = some 1.0e19)
      ∧ (∀ j, delta_start n ≤ j → j < a_start n →
          p.vars_lowerbound[j]? = some (-0.436332) ∧ p.vars_upperbound[j]? = some 0.436332)
      ∧ (∀ j, a_start n ≤ j → j < n_vars n →
          p.vars_lowerbound[j]? = some (-1.0) ∧ p.vars_upperbound[j]? = some 1.0)
      ∧ ∀ vars, vars.length = n_vars n →
        (feasible p fg vars ↔
          (∀ j, j < n_vars n →
            p.vars_lowerbound.getD j 0 ≤ vars.getD j 0
            ∧ vars.getD j 0 ≤ p.vars_upperbound.getD j 0)
          ∧ (∀ q ∈ statePairs n state, ∀ r ∈ initPairs n vars, r.1 = 1 + q.1 → r.2 = q.2)
          ∧ ∀ t, 1 ≤ t → t < n → ∀ r ∈ rowsAt T n coeffs vars t, r.2 = 0)
        ∧ objective p fg vars = costValue n vars := by
  have hn1 : 1 ≤ n := by omega
  obtain ⟨p, hp, -, hfe, hvars, -, -, hst, hsteer, hacc, hcl, -⟩ :=
    buildProblem_spec T fill hn1 state coeffs hs
  have hl : p.vars.length = n_vars n := by rw [hvars, length_setAll]; simp
  have hcll : p.constraints_lowerbound.length = n_constraints n := by
    rw [hcl, length_setAll]; simp
  refine ⟨p, hp, hl, hst, hsteer, hacc, ?_⟩
  intro vars hv
  have hfg' : 6 * n < fg.length := by omega
  obtain ⟨p', g, hp', hg, hiff⟩ := within_bounds_iff T fill hn state coeffs fg vars hs hc hv hfg'
  rw [hp] at hp'
  cases hp'
  obtain ⟨g', hg', -, hcost, -⟩ := FG_eval_spec T hn hv hc fg hfg'
  rw [hg] at hg'
  cases hg'
  constructor
  · unfold feasible
    rw [hl, hfe, hg, hcll]
    constructor
    · rintro ⟨-, hb, g2, hg2, hcon⟩
      cases hg2
      exact ⟨hb, hiff.1 hcon⟩
    · rintro ⟨hb, hE⟩
      exact ⟨hv, hb, g, rfl, hiff.2 hE⟩
  · unfold objective
    rw [hfe, hg]
    exact getD_of_get hcost 0

/-- A feasible vector has the length of the initial guess. -/
theorem feasible_length {p : Problem α} {fg vars : List α} (h : feasible p fg vars) :
    vars.length = p.vars.length := h.1

theorem steer_tuner_nonneg : (0 : α) ≤ (STEER_TUNER : α) := Nat.cast_nonneg _

/-- The cost is at least the effort terms of any one control sample. -/
theorem effort_le_costValue (n : Nat) (vars : List α) (t : Nat) (ht : t < n - 1) :
    delta_at n vars t ^ 2 + a_at n vars t ^ 2 ≤ costValue n vars := by
  unfold costValue
  have h1 : (0 : α) ≤ ∑ t in Finset.range n, ((cte_at n vars t - ref_cte) ^ 2
        + (epsi_at n vars t - ref_epsi) ^ 2 + (v_at n vars t - ref_v) ^ 2) :=
    Finset.sum_nonneg (fun i _ => by positivity)
  have h3 : (0 : α) ≤ ∑ t in Finset.range (n - 2),
        ((STEER_TUNER : α) * (delta_at n vars (t + 1) - delta_at n vars t) ^ 2
          + (a_at n vars (t + 1) - a_at n vars t) ^ 2) :=
    Finset.sum_nonneg (fun i _ => by
      have := @steer_tuner_nonneg α _
      positivity)
  have h2 : delta_at n vars t ^ 2 + a_at n vars t ^ 2
      ≤ ∑ t in Finset.range (n - 1), (delta_at n vars t ^ 2 + a_at n vars t ^ 2) :=
    Finset.single_le_sum (f := fun t => delta_at n vars t ^ 2 + a_at n vars t ^ 2)
      (fun i _ => by positivity) (Finset.mem_range.2 ht)
  linarith

/-- A vector of cost at most 0 has no steering and no acceleration. -/
theorem controls_zero_of_cost_le_zero (n : Nat) (vars : List α)
    (h : costValue n vars ≤ 0) (t : Nat) (ht : t < n - 1) :
    delta_at n vars t = 0 ∧ a_at n vars t = 0 := by
  have h1 := effort_le_costValue n vars t ht
  have h2 : (0 : α) ≤ delta_at n vars t ^ 2 := by positivity
  have h3 : (0 : α) ≤ a_at n vars t ^ 2 := by positivity
  have h4 : delta_at n vars t ^ 2 = 0 := by linarith
  have h5 : a_at n vars t ^ 2 = 0 := by linarith
  exact ⟨pow_eq_zero_iff (by decide) |>.1 h4, pow_eq_zero_iff (by decide) |>.1 h5⟩

end FeasibleCost

end MPC

/-! # Bounds by segment -/

namespace MPC

section Segments
variable {α : Type} [LinearOrderedField α]

/-- Bounds on the six state trajectories are bounds on every entry of the state segments. -/
theorem state_segments_within {n : Nat} (vars : List α) (lo hi : α)
    (h : ∀ t, t < n → (lo ≤ x_at vars t ∧ x_at vars t ≤ hi)
      ∧ (lo ≤ y_at n vars t ∧ y_at n vars t ≤ hi)
      ∧ (lo ≤ psi_at n vars t ∧ psi_at n vars t ≤ hi)
      ∧ (lo ≤ v_at n vars t ∧ v_at n vars t ≤ hi)
      ∧ (lo ≤ cte_at n vars t ∧ cte_at n vars t ≤ hi)
      ∧ (lo ≤ epsi_at n vars t ∧ epsi_at n vars t ≤ hi)) :
    ∀ j, j < delta_start n → lo ≤ vars.getD j 0 ∧ vars.getD j 0 ≤ hi := by
  have e1 := y_start_eq n
  have e2 := psi_start_eq n
  have e3 := v_start_eq n
  have e4 := cte_start_eq n
  have e5 := epsi_start_eq n
  have e6 := delta_start_eq n
  intro j hj
  by_cases h1 : j < n
  · have := (h j h1).1
    simpa [x_at, x_start] using this
  by_cases h2 : j < 2 * n
  · have := (h (j - n) (by omega)).2.1
    rwa [y_at, e1, (by omega : n + (j - n) = j)] at this
  by_cases h3 : j < 3 * n
  · have := (h (j - 2 * n) (by omega)).2.2.1
    rwa [psi_at, e2, (by omega : 2 * n + (j - 2 * n) = j)] at this
  by_cases h4 : j < 4 * n
  · have := (h (j - 3 * n) (by omega)).2.2.2.1
    rwa [v_at, e3, (by omega : 3 * n + (j - 3 * n) = j)] at this
  by_cases h5 : j < 5 * n
  · have := (h (j - 4 * n) (by omega)).2.2.2.2.1
    rwa [cte_at, e4, (by omega : 4 * n + (j - 4 * n) = j)] at this
  · have := (h (j - 5 * n) (by omega)).2.2.2.2.2
    rwa [epsi_at, e5, (by omega : 5 * n + (j - 5 * n) = j)] at this

/-- Bounds on the steering trajectory are bounds on every entry of the steering segment. -/
theorem steering_segment_within {n : Nat} (hn : 1 ≤ n) (vars : List α) (lo hi : α)
    (h : ∀ t, t < n - 1 → lo ≤ delta_at n vars t ∧ delta_at n vars t ≤ hi) :
    ∀ j, delta_start n ≤ j → j < a_start n → lo ≤ vars.getD j 0 ∧ vars.getD j 0 ≤ hi := by
  have e6 := delta_start_eq n
  have e7 := a_start_eq hn
  intro j hj1 hj2
  have := h (j - 6 * n) (by omega)
  rwa [delta_at, e6, (by omega : 6 * n + (j - 6 * n) = j)] at this

/-- Bounds on the acceleration trajectory are bounds on every entry of its segment. -/
theorem acceleration_segment_within {n : Nat} (hn : 1 ≤ n) (vars : List α) (lo hi : α)
    (h : ∀ t, t < n - 1 → lo ≤ a_at n vars t ∧ a_at n vars t ≤ hi) :
    ∀ j, a_start n ≤ j → j < n_vars n → lo ≤ vars.getD j 0 ∧ vars.getD j 0 ≤ hi := by
  have e7 := a_start_eq hn
  have e8 := n_vars_eq hn
  intro j hj1 hj2
  have := h (j - (7 * n - 1)) (by omega)
  rwa [a_at, e7, (by omega : 7 * n - 1 + (j - (7 * n - 1)) = j)] at this

/-- The variable bounds of the problem, from bounds on the eight trajectories. -/
theorem variable_bounds_of_trajectories {n : Nat} (hn : 1 ≤ n) (p : Problem α)
    (hst : ∀ j, j < delta_start n →
      p.vars_lowerbound[j]? = some (-1.0e19) ∧ p.vars_upperbound[j]? = some 1.0e19)
    (hsteer : ∀ j, delta_start n ≤ j → j < a_start n →
      p.vars_lowerbound[j]? = some (-0.436332) ∧ p.vars_upperbound[j]? = some 0.436332)
    (hacc : ∀ j, a_start n ≤ j → j < n_vars n →
      p.vars_lowerbound[j]? = some (-1.0) ∧ p.vars_upperbound[j]? = some 1.0)
    (vars : List α)
    (h1 : ∀ t, t < n → (-1.0e19 ≤ x_at vars t ∧ x_at vars t ≤ 1.0e19)
      ∧ (-1.0e19 ≤ y_at n vars t ∧ y_at n vars t ≤ 1.0e19)
      ∧ (-1.0e19 ≤ psi_at n vars t ∧ psi_at n vars t ≤ 1.0e19)
      ∧ (-1.0e19 ≤ v_at n vars t ∧ v_at n vars t ≤ 1.0e19)
      ∧ (-1.0e19 ≤ cte_at n vars t ∧ cte_at n vars t ≤ 1.0e19)
      ∧ (-1.0e19 ≤ epsi_at n vars t ∧ epsi_at n vars t ≤ 1.0e19))
    (h2 : ∀ t, t < n - 1 → -0.436332 ≤ delta_at n vars t ∧ delta_at n vars t ≤ 0.436332)
    (h3 : ∀ t, t < n - 1 → -1.0 ≤ a_at n vars t ∧ a_at n vars t ≤ 1.0) :
    ∀ j, j < n_vars n →
      p.vars_lowerbound.getD j 0 ≤ vars.getD j 0
      ∧ vars.getD j 0 ≤ p.vars_upperbound.getD j 0 := by
  intro j hj
  by_cases c1 : j < delta_start n
  · rw [getD_of_get (hst j c1).1, getD_of_get (hst j c1).2]
    exact state_segments_within vars _ _ h1 j c1
  by_cases c2 : j < a_start n
  · rw [getD_of_get (hsteer j (by omega) c2).1, getD_of_get (hsteer j (by omega) c2).2]
    exact steering_segment_within hn vars _ _ h2 j (by omega) c2
  · rw [getD_of_get (hacc j (by omega) hj).1, getD_of_get (hacc j (by omega) hj).2]
    exact acceleration_segment_within hn vars _ _ h3 j (by omega) hj

end Segments

section Pinned
variable {α : Type} [Field α]

/-- The rows of the initial state match the supplied state exactly when the timestep-0 state
of the decision vector is the supplied state. -/
theorem init_pairs_iff (state vars : List α) :
    (∀ q ∈ statePairs N state, ∀ r ∈ initPairs N vars, r.1 = 1 + q.1 → r.2 = q.2)
      ↔ state_at N vars 0 = ⟨state.getD 0 0, state.getD 1 0, state.getD 2 0, state.getD 3 0,
          state.getD 4 0, state.getD 5 0⟩ := by
  simp [statePairs, initPairs, y_start_eq, psi_start_eq, v_start_eq, cte_start_eq,
    epsi_start_eq, x_start, N, state_at, x_at, y_at, psi_at, v_at, cte_at, epsi_at]

end Pinned

end MPC

/-! # The on-reference case -/

namespace MPC

section OnReference
variable {α : Type} [LinearOrderedField α]

theorem poly_flat (x : α) : poly ([0, 0, 0, 0] : List α) x = 0 := by
  rw [poly_four ([0, 0, 0, 0] : List α) rfl]
  simp

theorem poly_derivative_flat (x : α) : poly_derivative ([0, 0, 0, 0] : List α) x = 0 := by
  rw [poly_derivative_four ([0, 0, 0, 0] : List α) rfl]
  simp

/-- On the flat reference path at the reference speed, with no steering and no acceleration,
the model moves 3 along x every step and changes nothing else. -/
theorem simulate_on_reference (T : Trig α) (hsin : T.sin 0 = 0) (hatan : T.atan 0 = 0)
    (hcos : T.cos 0 = 1) (x0 : α) (t : Nat) :
    simulate T [0, 0, 0, 0] ⟨x0, 0, 0, 30, 0, 0⟩ (fun _ => 0) (fun _ => 0) t
      = ⟨x0 + 3 * t, 0, 0, 30, 0, 0⟩ := by
  induction t with
  | zero => simp [simulate]
  | succ t ih =>
    rw [simulate, ih]
    simp only [model_step, StateAt.mk.injEq, poly_flat, poly_derivative_flat, hsin, hatan,
      hcos, dt, Lf]
    push_cast
    refine ⟨?_, ?_, ?_, ?_, ?_, ?_⟩ <;> norm_num
    ring

/-- The cost of a decision vector whose errors and controls vanish and whose speed is the
reference speed is 0. -/
theorem costValue_eq_zero (n : Nat) (vars : List α)
    (h1 : ∀ t, t < n → cte_at n vars t = 0 ∧ epsi_at n vars t = 0 ∧ v_at n vars t = 30)
    (h2 : ∀ t, t < n - 1 → delta_at n vars t = 0 ∧ a_at n vars t = 0) :
    costValue n vars = 0 := by
  unfold costValue
  rw [Finset.sum_eq_zero, Finset.sum_eq_zero, Finset.sum_eq_zero]
  · simp
  · intro t ht
    have ht' : t < n - 2 := Finset.mem_range.1 ht
    rw [(h2 t (by omega)).1, (h2 t (by omega)).2, (h2 (t + 1) (by omega)).1,
      (h2 (t + 1) (by omega)).2]
    simp
  · intro t ht
    have ht' : t < n - 1 := Finset.mem_range.1 ht
    rw [(h2 t ht').1, (h2 t ht').2]
    simp
  · intro t ht
    have ht' : t < n := Finset.mem_range.1 ht
    rw [(h1 t ht').1, (h1 t ht').2.1, (h1 t ht').2.2]
    simp [ref_cte, ref_epsi, ref_v]

/-- C16 as amended: on the flat reference path (coefficients [0,0,0,0]) with the supplied
state (x0, 0, 0, 30, 0, 0), provided the positions x0 + 3t reached at the reference speed
for t = 0..N-1 lie within the state bounds [-1.0e19, 1.0e19], the decision vector made by
simulating the model with zero steering and zero acceleration satisfies every constraint and
every variable bound that `MPC::Solve` builds and has cost 0; and every decision vector that
minimises the cost among the vectors satisfying the constraints and bounds has delta[t] = 0
and a[t] = 0 for every t in 0..N-2. -/
theorem on_reference_optimum (T : Trig α) (fill : Nat → Nat → α) (x0 : α) (fg : List α)
    (hsin : T.sin 0 = 0) (hatan : T.atan 0 = 0) (hcos : T.cos 0 = 1)
    (hfg : fg.length = 6 * N + 1)
    (hx0 : ∀ t, t < N → -1.0e19 ≤ x0 + 3 * (t : α) ∧ x0 + 3 * (t : α) ≤ 1.0e19) :
    ∃ p, buildProblem T fill N [x0, 0, 0, 30, 0, 0] [0, 0, 0, 0] = some p
      ∧ feasible p fg
          (rollout T N [0, 0, 0, 0] ⟨x0, 0, 0, 30, 0, 0⟩ (fun _ => 0) (fun _ => 0))
      ∧ objective p fg
          (rollout T N [0, 0, 0, 0] ⟨x0, 0, 0, 30, 0, 0⟩ (fun _ => 0) (fun _ => 0)) = 0
      ∧ ∀ w, minimises p fg w →
          ∀ t, t < N - 1 → delta_at N w t = 0 ∧ a_at N w t = 0 := by
  have hN2 : 2 ≤ N := by decide
  have hN1 : 1 ≤ N := by decide
  obtain ⟨p, hp, hl, hst, hsteer, hacc, hchar⟩ := feasible_iff T fill hN2
    [x0, 0, 0, 30, 0, 0] [0, 0, 0, 0] fg (by simp) (by simp) hfg
  have hS : ∀ t, t < N →
      state_at N (rollout T N [0, 0, 0, 0] ⟨x0, 0, 0, 30, 0, 0⟩ (fun _ => 0) (fun _ => 0)) t
        = ⟨x0 + 3 * t, 0, 0, 30, 0, 0⟩ := by
    intro t ht
    rw [state_at_rollout T hN1 _ _ _ _ t ht, simulate_on_reference T hsin hatan hcos]
  have hD := fun t ht => delta_at_rollout T hN1 ([0, 0, 0, 0] : List α)
    ⟨x0, 0, 0, 30, 0, 0⟩ (fun _ => 0) (fun _ => 0) t ht
  have hA := fun t ht => a_at_rollout T hN1 ([0, 0, 0, 0] : List α)
    ⟨x0, 0, 0, 30, 0, 0⟩ (fun _ => 0) (fun _ => 0) t ht
  obtain ⟨hfeas, hobj⟩ := hchar _ (length_rollout T N _ _ _ _)
  have hcost : costValue N
      (rollout T N [0, 0, 0, 0] ⟨x0, 0, 0, 30, 0, 0⟩ (fun _ => 0) (fun _ => 0)) = 0 := by
    apply costValue_eq_zero
    · intro t ht
      have h := hS t ht
      exact ⟨congrArg StateAt.cte h, congrArg StateAt.epsi h, congrArg StateAt.v h⟩
    · intro t ht
      exact ⟨hD t ht, hA t ht⟩
  have hfeasible : feasible p fg
      (rollout T N [0, 0, 0, 0] ⟨x0, 0, 0, 30, 0, 0⟩ (fun _ => 0) (fun _ => 0)) := by
    rw [hfeas]
    refine ⟨?_, ?_, ?_⟩
    · apply variable_bounds_of_trajectories hN1 p hst hsteer hacc
      · intro t ht
        have h := hS t ht
        have hx : x_at (rollout T N [0, 0, 0, 0] ⟨x0, 0, 0, 30, 0, 0⟩ (fun _ => 0)
            (fun _ => 0)) t = x0 + 3 * t := congrArg StateAt.x h
        have hy : y_at N (rollout T N [0, 0, 0, 0] ⟨x0, 0, 0, 30, 0, 0⟩ (fun _ => 0)
            (fun _ => 0)) t = 0 := congrArg StateAt.y h
        have hpsi : psi_at N (rollout T N [0, 0, 0, 0] ⟨x0, 0, 0, 30, 0, 0⟩ (fun _ => 0)
            (fun _ => 0)) t = 0 := congrArg StateAt.psi h
        have hv : v_at N (rollout T N [0, 0, 0, 0] ⟨x0, 0, 0, 30, 0, 0⟩ (fun _ => 0)
            (fun _ => 0)) t = 30 := congrArg StateAt.v h
        have hcte : cte_at N (rollout T N [0, 0, 0, 0] ⟨x0, 0, 0, 30, 0, 0⟩ (fun _ => 0)
            (fun _ => 0)) t = 0 := congrArg StateAt.cte h
        have hepsi : epsi_at N (rollout T N [0, 0, 0, 0] ⟨x0, 0, 0, 30, 0, 0⟩ (fun _ => 0)
            (fun _ => 0)) t = 0 := congrArg StateAt.epsi h
        rw [hx, hy, hpsi, hv, hcte, hepsi]
        refine ⟨hx0 t ht, ?_, ?_, ?_, ?_, ?_⟩ <;> constructor <;> norm_num
      · intro t ht
        rw [hD t ht]
        constructor <;> norm_num
      · intro t ht
        rw [hA t ht]
        constructor <;> norm_num
    · rw [init_pairs_iff, hS 0 (by decide)]
      simp
    · exact rollout_rows_zero T hN1 ([0, 0, 0, 0] : List α) rfl _ _ _
  refine ⟨p, hp, hfeasible, by rw [hobj, hcost], ?_⟩
  intro w hw t ht
  have hwl : w.length = n_vars N := by rw [feasible_length hw.1, hl]
  have h1 := hw.2 _ hfeasible
  rw [(hchar w hwl).2, hobj, hcost] at h1
  exact controls_zero_of_cost_le_zero N w h1 t ht

end OnReference

/-- C16 as amended, over the reals with the real cosine, sine and arc tangent, from the
state (0, 0, 0, 30, 0, 0). -/
theorem on_reference_optimum_witness :
    (Real.sin 0 = 0 ∧ Real.arctan 0 = 0 ∧ Real.cos 0 = 1
      ∧ (List.replicate 61 (0 : ℝ)).length = 6 * N + 1
      ∧ ∀ t, t < N → -1.0e19 ≤ (0 : ℝ) + 3 * (t : ℝ) ∧ (0 : ℝ) + 3 * (t : ℝ) ≤ 1.0e19)
    ∧ ∃ p, buildProblem (⟨Real.cos, Real.sin, Real.arctan⟩ : Trig ℝ) (fun _ _ => 0) N
          [0, 0, 0, 30, 0, 0] [0, 0, 0, 0] = some p
      ∧ feasible p (List.replicate 61 (0 : ℝ))
          (rollout (⟨Real.cos, Real.sin, Real.arctan⟩ : Trig ℝ) N [0, 0, 0, 0]
            ⟨0, 0, 0, 30, 0, 0⟩ (fun _ => 0) (fun _ => 0))
      ∧ objective p (List.replicate 61 (0 : ℝ))
          (rollout (⟨Real.cos, Real.sin, Real.arctan⟩ : Trig ℝ) N [0, 0, 0, 0]
            ⟨0, 0, 0, 30, 0, 0⟩ (fun _ => 0) (fun _ => 0)) = 0
      ∧ ∀ w, minimises p (List.replicate 61 (0 : ℝ)) w →
          ∀ t, t < N - 1 → delta_at N w t = 0 ∧ a_at N w t = 0 :=
  have hx : ∀ t, t < N → -1.0e19 ≤ (0 : ℝ) + 3 * (t : ℝ) ∧ (0 : ℝ) + 3 * (t : ℝ) ≤ 1.0e19 := by
    intro t ht
    have h9 : (t : ℝ) ≤ 9 := by
      have : t ≤ 9 := by
        have hN : N = 10 := rfl
        omega
      exact_mod_cast this
    have h0 : (0 : ℝ) ≤ (t : ℝ) := Nat.cast_nonneg t
    constructor
    · norm_num
      linarith
    · norm_num
      linarith
  ⟨⟨Real.sin_zero, Real.arctan_zero, Real.cos_zero, by simp [N], hx⟩,
    on_reference_optimum (⟨Real.cos, Real.sin, Real.arctan⟩ : Trig ℝ) (fun _ _ => 0) 0
      (List.replicate 61 0) Real.sin_zero Real.arctan_zero Real.cos_zero (by simp [N]) hx⟩

/-- C16 as stated fails: for the supplied state (2.0e19, 0, 0, 30, 0, 0) the decision vector
made by simulating with zero steering and zero acceleration starts at x[0] = 2.0e19, above
the upper bound 1.0e19 that `MPC::Solve` puts on x[0]; it does not satisfy the bounds. -/
theorem on_reference_out_of_bounds_counterexample :
    ∃ p, buildProblem sampleTrig sampleFill N [20000000000000000000, 0, 0, 30, 0, 0]
          flatCoeffs = some p
      ∧ p.vars_upperbound[0]? = some (1.0e19 : ℚ)
      ∧ (rollout sampleTrig N flatCoeffs ⟨20000000000000000000, 0, 0, 30, 0, 0⟩ (fun _ => 0)
          (fun _ => 0)).getD 0 0 = 20000000000000000000
      ∧ ¬ feasible p sampleFg
          (rollout sampleTrig N flatCoeffs ⟨20000000000000000000, 0, 0, 30, 0, 0⟩
            (fun _ => 0) (fun _ => 0)) := by
  obtain ⟨p, hp, -, -, hvars, -, -, hst, -⟩ := buildProblem_spec sampleTrig sampleFill
    (by decide : 1 ≤ N) [20000000000000000000, 0, 0, 30, 0, 0] flatCoeffs (by decide)
  have hl : p.vars.length = n_vars N := by rw [hvars, length_setAll]; simp
  have hub := (hst 0 (by decide)).2
  have h0 : (rollout sampleTrig N flatCoeffs ⟨20000000000000000000, 0, 0, 30, 0, 0⟩
      (fun _ => 0) (fun _ => 0)).getD 0 0 = 20000000000000000000 :=
    congrArg StateAt.x (state_at_rollout sampleTrig (by decide : 1 ≤ N) flatCoeffs
      ⟨20000000000000000000, 0, 0, 30, 0, 0⟩ (fun _ => 0) (fun _ => 0) 0 (by decide))
  refine ⟨p, hp, hub, h0, ?_⟩
  intro hf
  have h1 := (hf.2.1 0 (by rw [hl]; decide)).2
  rw [h0, getD_of_get hub] at h1
  norm_num at h1

end MPC

/-! # Straight-line simulation -/

namespace MPC

section Straight
variable {α : Type} [LinearOrderedField α]

/-- On the flat reference path, from a state on the path with heading 0 and with no
steering, the model stays on the path: y, psi, cte and epsi remain 0. -/
theorem simulate_straight (T : Trig α) (hsin : T.sin 0 = 0) (hatan : T.atan 0 = 0)
    (x0 v0 : α) (a : Nat → α) (t : Nat) :
    (simulate T [0, 0, 0, 0] ⟨x0, 0, 0, v0, 0, 0⟩ (fun _ => 0) a t).y = 0
    ∧ (simulate T [0, 0, 0, 0] ⟨x0, 0, 0, v0, 0, 0⟩ (fun _ => 0) a t).psi = 0
    ∧ (simulate T [0, 0, 0, 0] ⟨x0, 0, 0, v0, 0, 0⟩ (fun _ => 0) a t).cte = 0
    ∧ (simulate T [0, 0, 0, 0] ⟨x0, 0, 0, v0, 0, 0⟩ (fun _ => 0) a t).epsi = 0 := by
  induction t with
  | zero => simp [simulate]
  | succ t ih =>
    obtain ⟨h1, h2, h3, h4⟩ := ih
    simp only [simulate, model_step, poly_flat, poly_derivative_flat, h1, h2, h3, h4, hsin,
      hatan]
    simp

/-- With no steering the position advances by the speed times `dt`. -/
theorem simulate_straight_x (T : Trig α) (hsin : T.sin 0 = 0) (hatan : T.atan 0 = 0)
    (hcos : T.cos 0 = 1) (x0 v0 : α) (a : Nat → α) (t : Nat) :
    (simulate T [0, 0, 0, 0] ⟨x0, 0, 0, v0, 0, 0⟩ (fun _ => 0) a (t + 1)).x
      = (simulate T [0, 0, 0, 0] ⟨x0, 0, 0, v0, 0, 0⟩ (fun _ => 0) a t).x
        + (simulate T [0, 0, 0, 0] ⟨x0, 0, 0, v0, 0, 0⟩ (fun _ => 0) a t).v * 0.1 := by
  have h := (simulate_straight T hsin hatan x0 v0 a t).2.1
  simp only [simulate, model_step] at h ⊢
  rw [h, hcos, dt]
  ring

/-- While the speed stays within the state bounds, the position after `t` steps from 0 is
at most `t * 1.0e18` in absolute value. -/
theorem simulate_straight_x_bound (T : Trig α) (hsin : T.sin 0 = 0) (hatan : T.atan 0 = 0)
    (hcos : T.cos 0 = 1) (v0 : α) (a : Nat → α) (t : Nat)
    (hv : ∀ k, k < t →
      -1.0e19 ≤ (simulate T [0, 0, 0, 0] ⟨0, 0, 0, v0, 0, 0⟩ (fun _ => 0) a k).v
      ∧ (simulate T [0, 0, 0, 0] ⟨0, 0, 0, v0, 0, 0⟩ (fun _ => 0) a k).v ≤ 1.0e19) :
    -((t : α) * 1.0e18) ≤ (simulate T [0, 0, 0, 0] ⟨0, 0, 0, v0, 0, 0⟩ (fun _ => 0) a t).x
    ∧ (simulate T [0, 0, 0, 0] ⟨0, 0, 0, v0, 0, 0⟩ (fun _ => 0) a t).x ≤ (t : α) * 1.0e18 := by
  induction t with
  | zero => simp [simulate]
  | succ t ih =>
    obtain ⟨i1, i2⟩ := ih (fun k hk => hv k (by omega))
    obtain ⟨v1, v2⟩ := hv t (by omega)
    rw [simulate_straight_x T hsin hatan hcos]
    push_cast
    norm_num at v1 v2 i1 i2 ⊢
    constructor <;> linarith

/-- Dropping the errors and the steering of a decision vector, and keeping its speeds and
accelerations, lowers the cost by at least the sum of the squared steering samples. -/
theorem costValue_drop (n : Nat) (u w : List α)
    (h1 : ∀ t, t < n → cte_at n u t = 0 ∧ epsi_at n u t = 0 ∧ v_at n u t = v_at n w t)
    (h2 : ∀ t, t < n - 1 → delta_at n u t = 0 ∧ a_at n u t = a_at n w t) :
    costValue n u + ∑ t in Finset.range (n - 1), delta_at n w t ^ 2 ≤ costValue n w := by
  unfold costValue
  have s1 : ∑ t in Finset.range n, ((cte_at n u t - ref_cte) ^ 2
        + (epsi_at n u t - ref_epsi) ^ 2 + (v_at n u t - ref_v) ^ 2)
      ≤ ∑ t in Finset.range n, ((cte_at n w t - ref_cte) ^ 2
        + (epsi_at n w t - ref_epsi) ^ 2 + (v_at n w t - ref_v) ^ 2) := by
    apply Finset.sum_le_sum
    intro t ht
    have ht' : t < n := Finset.mem_range.1 ht
    rw [(h1 t ht').1, (h1 t ht').2.1, (h1 t ht').2.2]
    simp only [ref_cte, ref_epsi, sub_zero]
    have e1 : (0 : α) ≤ cte_at n w t ^ 2 := by positivity
    have e2 : (0 : α) ≤ epsi_at n w t ^ 2 := by positivity
    have e3 : ((0 : α)) ^ 2 = 0 := by norm_num
    rw [e3]
    linarith
  have s2 : ∑ t in Finset.range (n - 1), (delta_at n u t ^ 2 + a_at n u t ^ 2)
        + ∑ t in Finset.range (n - 1), delta_at n w t ^ 2
      = ∑ t in Finset.range (n - 1), (delta_at n w t ^ 2 + a_at n w t ^ 2) := by
    rw [← Finset.sum_add_distrib]
    apply Finset.sum_congr rfl
    intro t ht
    have ht' : t < n - 1 := Finset.mem_range.1 ht
    rw [(h2 t ht').1, (h2 t ht').2]
    ring
  have s3 : ∑ t in Finset.range (n - 2),
        ((STEER_TUNER : α) * (delta_at n u (t + 1) - delta_at n u t) ^ 2
          + (a_at n u (t + 1) - a_at n u t) ^ 2)
      ≤ ∑ t in Finset.range (n - 2),
        ((STEER_TUNER : α) * (delta_at n w (t + 1) - delta_at n w t) ^ 2
          + (a_at n w (t + 1) - a_at n w t) ^ 2) := by
    apply Finset.sum_le_sum
    intro t ht
    have ht' : t < n - 2 := Finset.mem_range.1 ht
    rw [(h2 t (by omega)).1, (h2 t (by omega)).2, (h2 (t + 1) (by omega)).1,
      (h2 (t + 1) (by omega)).2]
    have e1 : (0 : α) ≤ (STEER_TUNER : α) * (delta_at n w (t + 1) - delta_at n w t) ^ 2 := by
      have := @steer_tuner_nonneg α _
      positivity
    simp only [sub_self]
    have e3 : ((0 : α)) ^ 2 = 0 := by norm_num
    rw [e3, mul_zero, zero_add]
    linarith
  linarith

end Straight

end MPC

/-! # Straight-line feasibility -/

namespace MPC

section StraightOptimum
variable {α : Type} [LinearOrderedField α]

/-- Without acceleration the speed of the simulation stays what it was. -/
theorem simulate_v_coast (T : Trig α) (coeffs : List α) (s0 : StateAt α) (delta : Nat → α)
    (t : Nat) : (simulate T coeffs s0 delta (fun _ => 0) t).v = s0.v := by
  induction t with
  | zero => rfl
  | succ t ih => simp only [simulate, model_step, ih, zero_mul, add_zero]

/-- On the flat reference path, from the state (0, 0, 0, v0, 0, 0), the decision vector made
by simulating with no steering and accelerations within [-1, 1] is feasible as long as its
speeds stay within the state bounds. -/
theorem straight_rollout_feasible (T : Trig α) (fill : Nat → Nat → α) (v0 : α) (fg : List α)
    (hsin : T.sin 0 = 0) (hatan : T.atan 0 = 0) (hcos : T.cos 0 = 1)
    (hfg : fg.length = 6 * N + 1) (a : Nat → α)
    (ha : ∀ t, t < N - 1 → -1.0 ≤ a t ∧ a t ≤ 1.0)
    (hv : ∀ t, t < N →
      -1.0e19 ≤ (simulate T [0, 0, 0, 0] ⟨0, 0, 0, v0, 0, 0⟩ (fun _ => 0) a t).v
      ∧ (simulate T [0, 0, 0, 0] ⟨0, 0, 0, v0, 0, 0⟩ (fun _ => 0) a t).v ≤ 1.0e19)
    (p : Problem α) (hp : buildProblem T fill N [0, 0, 0, v0, 0, 0] [0, 0, 0, 0] = some p) :
    feasible p fg (rollout T N [0, 0, 0, 0] ⟨0, 0, 0, v0, 0, 0⟩ (fun _ => 0) a) := by
  have hN2 : 2 ≤ N := by decide
  have hN1 : 1 ≤ N := by decide
  have hN : N = 10 := rfl
  obtain ⟨p', hp', -, hst, hsteer, hacc, hchar⟩ := feasible_iff T fill hN2
    [0, 0, 0, v0, 0, 0] [0, 0, 0, 0] fg (by simp) (by simp) hfg
  rw [hp] at hp'
  cases hp'
  rw [(hchar _ (length_rollout T N _ _ _ _)).1]
  have hS := fun t ht => state_at_rollout T hN1 ([0, 0, 0, 0] : List α)
    ⟨0, 0, 0, v0, 0, 0⟩ (fun _ => 0) a t ht
  refine ⟨?_, ?_, ?_⟩
  · apply variable_bounds_of_trajectories hN1 p hst hsteer hacc
    · intro t ht
      have h := hS t ht
      obtain ⟨s1, s2, s3, s4⟩ := simulate_straight T hsin hatan 0 v0 a t
      have hx : x_at (rollout T N [0, 0, 0, 0] ⟨0, 0, 0, v0, 0, 0⟩ (fun _ => 0) a) t
          = (simulate T [0, 0, 0, 0] ⟨0, 0, 0, v0, 0, 0⟩ (fun _ => 0) a t).x :=
        congrArg StateAt.x h
      have hy : y_at N (rollout T N [0, 0, 0, 0] ⟨0, 0, 0, v0, 0, 0⟩ (fun _ => 0) a) t = 0 :=
        (congrArg StateAt.y h).trans s1
      have hpsi : psi_at N (rollout T N [0, 0, 0, 0] ⟨0, 0, 0, v0, 0, 0⟩ (fun _ => 0) a) t
          = 0 := (congrArg StateAt.psi h).trans s2
      have hvv : v_at N (rollout T N [0, 0, 0, 0] ⟨0, 0, 0, v0, 0, 0⟩ (fun _ => 0) a) t
          = (simulate T [0, 0, 0, 0] ⟨0, 0, 0, v0, 0, 0⟩ (fun _ => 0) a t).v :=
        congrArg StateAt.v h
      have hcte : cte_at N (rollout T N [0, 0, 0, 0] ⟨0, 0, 0, v0, 0, 0⟩ (fun _ => 0) a) t
          = 0 := (congrArg StateAt.cte h).trans s3
      have hepsi : epsi_at N (rollout T N [0, 0, 0, 0] ⟨0, 0, 0, v0, 0, 0⟩ (fun _ => 0) a) t
          = 0 := (congrArg StateAt.epsi h).trans s4
      obtain ⟨b1, b2⟩ := simulate_straight_x_bound T hsin hatan hcos v0 a t
        (fun k hk => hv k (by omega))
      have h9 : (t : α) ≤ 9 := by
        have : t ≤ 9 := by omega
        exact_mod_cast this
      have h0 : (0 : α) ≤ (t : α) := Nat.cast_nonneg t
      rw [hx, hy, hpsi, hvv, hcte, hepsi]
      refine ⟨⟨?_, ?_⟩, ?_, ?_, hv t ht, ?_, ?_⟩
      · norm_num at b1 ⊢
        linarith
      · norm_num at b2 ⊢
        linarith
      · constructor <;> norm_num
      · constructor <;> norm_num
      · constructor <;> norm_num
      · constructor <;> norm_num
    · intro t ht
      rw [delta_at_rollout T hN1 _ _ _ _ t ht]
      constructor <;> norm_num
    · intro t ht
      rw [a_at_rollout T hN1 _ _ _ _ t ht]
      exact ha t ht
  · rw [init_pairs_iff, hS 0 (by decide)]
    simp [simulate]
  · exact rollout_rows_zero T hN1 ([0, 0, 0, 0] : List α) rfl _ _ _

end StraightOptimum

end MPC

/-! # The straight-line optimum -/

namespace MPC

section StraightLine
variable {α : Type} [LinearOrderedField α]

/-- The simulation up to timestep `t` uses only the control samples before `t`. -/
theorem simulate_congr (T : Trig α) (coeffs : List α) (s0 : StateAt α)
    (delta delta2 a a2 : Nat → α) (t : Nat)
    (h : ∀ k, k < t → delta k = delta2 k ∧ a k = a2 k) :
    simulate T coeffs s0 delta a t = simulate T coeffs s0 delta2 a2 t := by
  induction t with
  | zero => rfl
  | succ t ih =>
    rw [simulate, simulate, ih (fun k hk => h k (by omega)), (h t (by omega)).1,
      (h t (by omega)).2]

/-- A decision vector of the right length is determined by its eight trajectories. -/
theorem eq_of_trajectories {n : Nat} (hn : 1 ≤ n) (u w : List α)
    (hu : u.length = n_vars n) (hw : w.length = n_vars n)
    (hs : ∀ t, t < n → state_at n u t = state_at n w t)
    (hd : ∀ t, t < n - 1 → delta_at n u t = delta_at n w t)
    (ha : ∀ t, t < n - 1 → a_at n u t = a_at n w t) : u = w := by
  have e1 := y_start_eq n
  have e2 := psi_start_eq n
  have e3 := v_start_eq n
  have e4 := cte_start_eq n
  have e5 := epsi_start_eq n
  have e6 := delta_start_eq n
  have e7 := a_start_eq hn
  have e8 := n_vars_eq hn
  have key : ∀ j, j < n_vars n → u.getD j 0 = w.getD j 0 := by
    intro j hj
    by_cases h1 : j < n
    · have := congrArg StateAt.x (hs j h1)
      simpa [state_at, x_at, x_start] using this
    by_cases h2 : j < 2 * n
    · have := congrArg StateAt.y (hs (j - n) (by omega))
      simp only [state_at, y_at] at this
      rwa [e1, (by omega : n + (j - n) = j)] at this
    by_cases h3 : j < 3 * n
    · have := congrArg StateAt.psi (hs (j - 2 * n) (by omega))
      simp only [state_at, psi_at] at this
      rwa [e2, (by omega : 2 * n + (j - 2 * n) = j)] at this
    by_cases h4 : j < 4 * n
    · have := congrArg StateAt.v (hs (j - 3 * n) (by omega))
      simp only [state_at, v_at] at this
      rwa [e3, (by omega : 3 * n + (j - 3 * n) = j)] at this
    by_cases h5 : j < 5 * n
    · have := congrArg StateAt.cte (hs (j - 4 * n) (by omega))
      simp only [state_at, cte_at] at this
      rwa [e4, (by omega : 4 * n + (j - 4 * n) = j)] at this
    by_cases h6 : j < 6 * n
    · have := congrArg StateAt.epsi (hs (j - 5 * n) (by omega))
      simp only [state_at, epsi_at] at this
      rwa [e5, (by omega : 5 * n + (j - 5 * n) = j)] at this
    by_cases h7 : j < 7 * n - 1
    · have := hd (j - 6 * n) (by omega)
      simp only [delta_at] at this
      rwa [e6, (by omega : 6 * n + (j - 6 * n) = j)] at this
    · have := ha (j - (7 * n - 1)) (by omega)
      simp only [a_at] at this
      rwa [e7, (by omega : 7 * n - 1 + (j - (7 * n - 1)) = j)] at this
  apply List.ext_getElem (by rw [hu, hw])
  intro j h1 h2
  have hj : j < n_vars n := by rw [← hu]; exact h1
  have := key j hj
  rw [List.getD_eq_getElem?_getD, List.getD_eq_getElem?_getD, List.getElem?_eq_getElem h1,
    List.getElem?_eq_getElem h2] at this
  simpa using this

/-- On the flat reference path, from the state (0, 0, 0, v0, 0, 0): for a feasible decision
vector `w`, the vector made by simulating the model with no steering and the accelerations
of `w` is feasible, it costs at least the squared steering samples of `w` less than `w`,
and it is `w` itself when the steering of `w` is zero at every sample. -/
theorem straight_replacement (T : Trig α) (fill : Nat → Nat → α) (v0 : α) (fg : List α)
    (hsin : T.sin 0 = 0) (hatan : T.atan 0 = 0) (hcos : T.cos 0 = 1)
    (hfg : fg.length = 6 * N + 1) :
    ∃ p, buildProblem T fill N [0, 0, 0, v0, 0, 0] [0, 0, 0, 0] = some p
      ∧ ∀ w, feasible p fg w →
        feasible p fg (rollout T N [0, 0, 0, 0] ⟨0, 0, 0, v0, 0, 0⟩ (fun _ => 0) (a_at N w))
        ∧ objective p fg
              (rollout T N [0, 0, 0, 0] ⟨0, 0, 0, v0, 0, 0⟩ (fun _ => 0) (a_at N w))
            + ∑ t in Finset.range (N - 1), delta_at N w t ^ 2 ≤ objective p fg w
        ∧ ((∀ t, t < N - 1 → delta_at N w t = 0) →
            rollout T N [0, 0, 0, 0] ⟨0, 0, 0, v0, 0, 0⟩ (fun _ => 0) (a_at N w) = w) := by
  have hN2 : 2 ≤ N := by decide
  have hN1 : 1 ≤ N := by decide
  have hN : N = 10 := rfl
  have e3 := v_start_eq N
  have e6 := delta_start_eq N
  have e7 := a_start_eq hN1
  have e8 := n_vars_eq hN1
  obtain ⟨p, hp, hl, hst, hsteer, hacc, hchar⟩ := feasible_iff T fill hN2
    [0, 0, 0, v0, 0, 0] [0, 0, 0, 0] fg (by simp) (by simp) hfg
  refine ⟨p, hp, ?_⟩
  intro w hw
  have hwl : w.length = n_vars N := by rw [feasible_length hw, hl]
  obtain ⟨hb, hE1, hE2⟩ := (hchar w hwl).1.1 hw
  have h0 : state_at N w 0 = ⟨0, 0, 0, v0, 0, 0⟩ := by
    rw [(init_pairs_iff [0, 0, 0, v0, 0, 0] w).1 hE1]
    simp
  have hsim := simulate_of_rows_zero T N ([0, 0, 0, 0] : List α) w rfl hE2
  rw [h0] at hsim
  have hv : ∀ t, t < N →
      (simulate T [0, 0, 0, 0] ⟨0, 0, 0, v0, 0, 0⟩ (fun _ => 0) (a_at N w) t).v
        = v_at N w t := by
    intro t ht
    rw [simulate_v_steering T _ _ (fun _ => 0) (delta_at N w) (a_at N w) t, hsim t ht]
    rfl
  have hvb : ∀ t, t < N → -1.0e19 ≤ v_at N w t ∧ v_at N w t ≤ 1.0e19 := by
    intro t ht
    have hj : v_start N + t < delta_start N := by omega
    have h := hb (v_start N + t) (by omega)
    rwa [getD_of_get (hst _ hj).1, getD_of_get (hst _ hj).2] at h
  have hab : ∀ t, t < N - 1 → -1.0 ≤ a_at N w t ∧ a_at N w t ≤ 1.0 := by
    intro t ht
    have hj1 : a_start N ≤ a_start N + t := by omega
    have hj2 : a_start N + t < n_vars N := by omega
    have h := hb (a_start N + t) hj2
    rwa [getD_of_get (hacc _ hj1 hj2).1, getD_of_get (hacc _ hj1 hj2).2] at h
  have hfeas : feasible p fg
      (rollout T N [0, 0, 0, 0] ⟨0, 0, 0, v0, 0, 0⟩ (fun _ => 0) (a_at N w)) :=
    straight_rollout_feasible T fill v0 fg hsin hatan hcos hfg (a_at N w) hab
      (fun t ht => by rw [hv t ht]; exact hvb t ht) p hp
  have hS := fun t ht => state_at_rollout T hN1 ([0, 0, 0, 0] : List α)
    ⟨0, 0, 0, v0, 0, 0⟩ (fun _ => 0) (a_at N w) t ht
  have hD := fun t ht => delta_at_rollout T hN1 ([0, 0, 0, 0] : List α)
    ⟨0, 0, 0, v0, 0, 0⟩ (fun _ => 0) (a_at N w) t ht
  have hA := fun t ht => a_at_rollout T hN1 ([0, 0, 0, 0] : List α)
    ⟨0, 0, 0, v0, 0, 0⟩ (fun _ => 0) (a_at N w) t ht
  refine ⟨hfeas, ?_, ?_⟩
  · rw [(hchar _ (length_rollout T N _ _ _ _)).2, (hchar w hwl).2]
    apply costValue_drop
    · intro t ht
      have h := hS t ht
      obtain ⟨-, -, s3, s4⟩ := simulate_straight T hsin hatan 0 v0 (a_at N w) t
      exact ⟨(congrArg StateAt.cte h).trans s3, (congrArg StateAt.epsi h).trans s4,
        (congrArg StateAt.v h).trans (hv t ht)⟩
    · intro t ht
      exact ⟨hD t ht, hA t ht⟩
  · intro hz
    apply eq_of_trajectories hN1 _ _ (length_rollout T N _ _ _ _) hwl
    · intro t ht
      rw [hS t ht, ← hsim t ht]
      apply simulate_congr
      intro k hk
      exact ⟨(hz k (by omega)).symm, rfl⟩
    · intro t ht
      rw [hD t ht, hz t ht]
    · intro t ht
      exact hA t ht

/-- A sum of squares with a nonzero term is positive. -/
theorem sum_sq_pos (f : Nat → α) (m : Nat) (h : ∃ t, t < m ∧ f t ≠ 0) :
    0 < ∑ t in Finset.range m, f t ^ 2 := by
  obtain ⟨t, ht, hne⟩ := h
  have h1 : f t ^ 2 ≤ ∑ t in Finset.range m, f t ^ 2 :=
    Finset.single_le_sum (f := fun t => f t ^ 2) (fun i _ => by positivity)
      (Finset.mem_range.2 ht)
  have h2 : 0 < f t ^ 2 := by positivity
  linarith

/-- C17: with coefficients [0,0,0,0] and supplied state (0, 0, 0, v0, 0, 0), every decision
vector that minimises the cost of the evaluator among the vectors satisfying the constraints
and variable bounds built by `MPC::Solve` has steering delta[t] = 0 for every t in 0..N-2.
Replacing the steering of a feasible vector by zero, that is simulating the model from the
supplied state with no steering and the accelerations of the vector, keeps it feasible and
strictly lowers the cost unless the steering was already all zero, in which case it gives
the vector back. For v0 within the state bounds a feasible vector exists. -/
theorem straight_line_optimum (T : Trig α) (fill : Nat → Nat → α) (v0 : α) (fg : List α)
    (hsin : T.sin 0 = 0) (hatan : T.atan 0 = 0) (hcos : T.cos 0 = 1)
    (hfg : fg.length = 6 * N + 1) :
    ∃ p, buildProblem T fill N [0, 0, 0, v0, 0, 0] [0, 0, 0, 0] = some p
      ∧ (∀ w, minimises p fg w → ∀ t, t < N - 1 → delta_at N w t = 0)
      ∧ (∀ w, feasible p fg w →
          feasible p fg
            (rollout T N [0, 0, 0, 0] ⟨0, 0, 0, v0, 0, 0⟩ (fun _ => 0) (a_at N w))
          ∧ ((∃ t, t < N - 1 ∧ delta_at N w t ≠ 0) →
              objective p fg
                (rollout T N [0, 0, 0, 0] ⟨0, 0, 0, v0, 0, 0⟩ (fun _ => 0) (a_at N w))
              < objective p fg w)
          ∧ ((∀ t, t < N - 1 → delta_at N w t = 0) →
              rollout T N [0, 0, 0, 0] ⟨0, 0, 0, v0, 0, 0⟩ (fun _ => 0) (a_at N w) = w))
      ∧ (-1.0e19 ≤ v0 → v0 ≤ 1.0e19 →
          feasible p fg
            (rollout T N [0, 0, 0, 0] ⟨0, 0, 0, v0, 0, 0⟩ (fun _ => 0) (fun _ => 0))) := by
  obtain ⟨p, hp, hrep⟩ := straight_replacement T fill v0 fg hsin hatan hcos hfg
  refine ⟨p, hp, ?_, ?_, ?_⟩
  · intro w hw t ht
    obtain ⟨hf, hle, -⟩ := hrep w hw.1
    have hmin := hw.2 _ hf
    by_contra hne
    have hpos := sum_sq_pos (delta_at N w) (N - 1) ⟨t, ht, hne⟩
    linarith
  · intro w hw
    obtain ⟨hf, hle, heq⟩ := hrep w hw
    refine ⟨hf, ?_, heq⟩
    intro hex
    have hpos := sum_sq_pos (delta_at N w) (N - 1) hex
    linarith
  · intro h1 h2
    apply straight_rollout_feasible T fill v0 fg hsin hatan hcos hfg (fun _ => 0) _ _ p hp
    · intro t _
      constructor <;> norm_num
    · intro t _
      rw [simulate_v_coast]
      exact ⟨h1, h2⟩

/-- At the reference speed a minimiser exists: from the state (0, 0, 0, 30, 0, 0) the
decision vector made by simulating with no steering and no acceleration is feasible and no
feasible vector costs less. -/
theorem straight_line_minimiser_exists (T : Trig α) (fill : Nat → Nat → α) (fg : List α)
    (hsin : T.sin 0 = 0) (hatan : T.atan 0 = 0) (hcos : T.cos 0 = 1)
    (hfg : fg.length = 6 * N + 1) :
    ∃ p, buildProblem T fill N [0, 0, 0, 30, 0, 0] [0, 0, 0, 0] = some p
      ∧ minimises p fg
          (rollout T N [0, 0, 0, 0] ⟨0, 0, 0, 30, 0, 0⟩ (fun _ => 0) (fun _ => 0)) := by
  have hN2 : 2 ≤ N := by decide
  have hN1 : 1 ≤ N := by decide
  obtain ⟨p, hp, hl, -, -, -, hchar⟩ := feasible_iff T fill hN2
    [0, 0, 0, 30, 0, 0] [0, 0, 0, 0] fg (by simp) (by simp) hfg
  have hfeas : feasible p fg
      (rollout T N [0, 0, 0, 0] ⟨0, 0, 0, 30, 0, 0⟩ (fun _ => 0) (fun _ => 0)) := by
    apply straight_rollout_feasible T fill 30 fg hsin hatan hcos hfg (fun _ => 0) _ _ p hp
    · intro t _
      constructor <;> norm_num
    · intro t _
      rw [simulate_v_coast]
      constructor <;> norm_num
  have hcost : costValue N
      (rollout T N [0, 0, 0, 0] ⟨0, 0, 0, 30, 0, 0⟩ (fun _ => 0) (fun _ => 0)) = 0 := by
    apply costValue_eq_zero
    · intro t ht
      have h := state_at_rollout T hN1 ([0, 0, 0, 0] : List α) ⟨0, 0, 0, 30, 0, 0⟩
        (fun _ => 0) (fun _ => 0) t ht
      obtain ⟨-, -, s3, s4⟩ := simulate_straight T hsin hatan 0 30 (fun _ => 0) t
      exact ⟨(congrArg StateAt.cte h).trans s3, (congrArg StateAt.epsi h).trans s4,
        (congrArg StateAt.v h).trans (simulate_v_coast T _ _ _ t)⟩
    · intro t ht
      exact ⟨delta_at_rollout T hN1 _ _ _ _ t ht, a_at_rollout T hN1 _ _ _ _ t ht⟩
  refine ⟨p, hp, hfeas, ?_⟩
  intro w hw
  have hwl : w.length = n_vars N := by rw [feasible_length hw, hl]
  rw [(hchar _ (length_rollout T N _ _ _ _)).2, (hchar w hwl).2, hcost]
  have h1 := effort_le_costValue N w 0 (by decide)
  have h2 : (0 : α) ≤ delta_at N w 0 ^ 2 + a_at N w 0 ^ 2 := by positivity
  linarith

end StraightLine

/-- C17 over the reals with the real cosine, sine and arc tangent, at the speed v0 = 12. -/
theorem straight_line_optimum_witness :
    (Real.sin 0 = 0 ∧ Real.arctan 0 = 0 ∧ Real.cos 0 = 1
      ∧ (List.replicate 61 (0 : ℝ)).length = 6 * N + 1)
    ∧ ∃ p, buildProblem (⟨Real.cos, Real.sin, Real.arctan⟩ : Trig ℝ) (fun _ _ => 0) N
          [0, 0, 0, 12, 0, 0] [0, 0, 0, 0] = some p
      ∧ (∀ w, minimises p (List.replicate 61 (0 : ℝ)) w →
          ∀ t, t < N - 1 → delta_at N w t = 0)
      ∧ (∀ w, feasible p (List.replicate 61 (0 : ℝ)) w →
          feasible p (List.replicate 61 (0 : ℝ))
            (rollout (⟨Real.cos, Real.sin, Real.arctan⟩ : Trig ℝ) N [0, 0, 0, 0]
              ⟨0, 0, 0, 12, 0, 0⟩ (fun _ => 0) (a_at N w))
          ∧ ((∃ t, t < N - 1 ∧ delta_at N w t ≠ 0) →
              objective p (List.replicate 61 (0 : ℝ))
                (rollout (⟨Real.cos, Real.sin, Real.arctan⟩ : Trig ℝ) N [0, 0, 0, 0]
                  ⟨0, 0, 0, 12, 0, 0⟩ (fun _ => 0) (a_at N w))
              < objective p (List.replicate 61 (0 : ℝ)) w)
          ∧ ((∀ t, t < N - 1 → delta_at N w t = 0) →
              rollout (⟨Real.cos, Real.sin, Real.arctan⟩ : Trig ℝ) N [0, 0, 0, 0]
                ⟨0, 0, 0, 12, 0, 0⟩ (fun _ => 0) (a_at N w) = w))
      ∧ (-1.0e19 ≤ (12 : ℝ) → (12 : ℝ) ≤ 1.0e19 →
          feasible p (List.replicate 61 (0 : ℝ))
            (rollout (⟨Real.cos, Real.sin, Real.arctan⟩ : Trig ℝ) N [0, 0, 0, 0]
              ⟨0, 0, 0, 12, 0, 0⟩ (fun _ => 0) (fun _ => 0))) :=
  ⟨⟨Real.sin_zero, Real.arctan_zero, Real.cos_zero, by simp [N]⟩,
    straight_line_optimum (⟨Real.cos, Real.sin, Real.arctan⟩ : Trig ℝ) (fun _ _ => 0) 12
      (List.replicate 61 0) Real.sin_zero Real.arctan_zero Real.cos_zero (by simp [N])⟩

end MPC

/-! # The assignments of the evaluator in order -/

namespace MPC

section Assignments
variable {α : Type}

theorem setAll_append (ws vs : List (Nat × α)) (fg : List α) :
    setAll (ws ++ vs) fg = setAll vs (setAll ws fg) := by
  simp [setAll, List.foldl_append]

/-- Two vectors of the same length agree, after the same assignments, at every index that
is assigned or at which they agreed before. -/
theorem setAll_get_congr (ws : List (Nat × α)) :
    ∀ (fg1 fg2 : List α), fg1.length = fg2.length → ∀ j,
      (fg1[j]? = fg2[j]? ∨ ∃ p ∈ ws, p.1 = j) → (setAll ws fg1)[j]? = (setAll ws fg2)[j]? := by
  induction ws with
  | nil =>
    intro fg1 fg2 _ j h
    rcases h with h | ⟨p, hp, -⟩
    · exact h
    · simp at hp
  | cons q ws ih =>
    intro fg1 fg2 hl j h
    have hl' : (fg1.set q.1 q.2).length = (fg2.set q.1 q.2).length := by simp [hl]
    have step : setAll (q :: ws) fg1 = setAll ws (fg1.set q.1 q.2)
        ∧ setAll (q :: ws) fg2 = setAll ws (fg2.set q.1 q.2) := ⟨rfl, rfl⟩
    rw [step.1, step.2]
    apply ih _ _ hl' j
    by_cases hq : q.1 = j
    · left
      rw [List.getElem?_set, List.getElem?_set, if_pos hq, if_pos hq, hl]
    · rcases h with h | ⟨p, hp, hpj⟩
      · left
        rw [List.getElem?_set_ne hq, List.getElem?_set_ne hq]
        exact h
      · rcases List.mem_cons.1 hp with rfl | hp'
        · exact absurd hpj hq
        · exact Or.inr ⟨p, hp', hpj⟩

/-- Assignments that cover every index give the same vector whatever it held before. -/
theorem setAll_eq_of_cover (ws : List (Nat × α)) (fg1 fg2 : List α)
    (hl : fg1.length = fg2.length) (hcov : ∀ j, j < fg1.length → ∃ p ∈ ws, p.1 = j) :
    setAll ws fg1 = setAll ws fg2 := by
  apply List.ext_getElem?
  intro j
  by_cases hj : j < fg1.length
  · exact setAll_get_congr ws fg1 fg2 hl j (Or.inr (hcov j hj))
  · rw [List.getElem?_eq_none (by rw [length_setAll]; omega),
      List.getElem?_eq_none (by rw [length_setAll]; omega)]

end Assignments

section Frame
variable {α : Type} [Field α]

/-- The loop of lines 105-148, started at timestep `lo` for `k` iterations, performs the
assignments of `rowsAt` for `lo, lo + 1, ..`, in this order. -/
theorem modelLoop_eq (T : Trig α) {n : Nat} {coeffs vars : List α} (hn : 1 ≤ n)
    (hv : vars.length = n_vars n) (hc : 4 ≤ coeffs.length) :
    ∀ (k lo : Nat) (fg : List α), 1 ≤ lo → lo + k ≤ n → 6 * n < fg.length →
      loopFrom (modelBody T n coeffs vars) lo k fg
        = some (setAll ((List.range' lo k).flatMap (rowsAt T n coeffs vars)) fg) := by
  intro k
  induction k with
  | zero =>
    intro lo fg _ _ _
    simp [loopFrom, setAll]
  | succ k ih =>
    intro lo fg hlo hk hfg
    have hb := modelBody_spec T hn hv hc fg lo hlo (by omega)
      (by rw [epsi_start_eq]; omega)
    rw [loopFrom, hb, Option.some_bind,
      ih (lo + 1) _ (by omega) (by omega) (by rw [length_setAll]; exact hfg)]
    rw [List.range'_succ, List.flatMap_cons, setAll_append]

/-- Lines 95-148 perform the assignments listed in `fgWrites`, in this order. -/
theorem constraintPart_eq (T : Trig α) {n : Nat} {coeffs vars : List α} (hn : 1 ≤ n)
    (hv : vars.length = n_vars n) (hc : 4 ≤ coeffs.length) (fg : List α)
    (hfg : 6 * n < fg.length) :
    constraintPart T n coeffs vars fg = some (setAll (fgWrites T n coeffs vars) fg) := by
  have hinit : initRows n vars fg = some (setAll (initPairs n vars) fg) :=
    initRows_spec hn hv fg (by rw [epsi_start_eq]; omega)
  have hloop := modelLoop_eq T hn hv hc (n - 1) 1 (setAll (initPairs n vars) fg)
    (Nat.le_refl 1) (by omega) (by rw [length_setAll]; exact hfg)
  simp only [constraintPart, hinit, Option.bind_eq_bind, Option.some_bind, forLoop, hloop,
    fgWrites, setAll_append]

/-- The evaluator performs the assignment of the cost to entry 0 and then the assignments
listed in `fgWrites`. -/
theorem FG_eval_eq (T : Trig α) {n : Nat} {coeffs vars : List α} (hn : 2 ≤ n)
    (hv : vars.length = n_vars n) (hc : 4 ≤ coeffs.length) (fg : List α)
    (hfg : 6 * n < fg.length) :
    FG_eval T n coeffs fg vars
      = some (setAll ((0, costValue n vars) :: fgWrites T n coeffs vars) fg) := by
  have h0 : 0 < fg.length := by omega
  have h1 := constraintPart_eq T (by omega : 1 ≤ n) hv hc (fg.set 0 (costValue n vars))
    (by simpa using hfg)
  simp only [FG_eval, costPart_eq hn hv fg h0, Option.bind_eq_bind, Option.some_bind, h1]
  rfl

/-- The indices that the evaluator assigns at horizon length 10, in the order of the
assignments. -/
theorem fgWrites_fst (T : Trig α) (coeffs vars : List α) :
    ((0, costValue N vars) :: fgWrites T N coeffs vars).map Prod.fst
      = [0, 1, 11, 21, 31, 41, 51,
         2, 12, 22, 32, 42, 52, 3, 13, 23, 33, 43, 53, 4, 14, 24, 34, 44, 54,
         5, 15, 25, 35, 45, 55, 6, 16, 26, 36, 46, 56, 7, 17, 27, 37, 47, 57,
         8, 18, 28, 38, 48, 58, 9, 19, 29, 39, 49, 59, 10, 20, 30, 40, 50, 60] := by
  simp only [fgWrites, List.map_cons, List.map_append, List.map_flatMap, rowsAt_fst,
    initPairs_fst, N]
  rfl

/-- At horizon length 10 the evaluator assigns each index 0..60 of `fg` exactly once. -/
theorem fgWrites_perm (T : Trig α) (coeffs vars : List α) :
    List.Perm (((0, costValue N vars) :: fgWrites T N coeffs vars).map Prod.fst)
      (List.range (6 * N + 1)) := by
  rw [fgWrites_fst]
  apply (List.perm_ext_iff_of_nodup _ (List.nodup_range _)).2
  · intro a
    simp only [N, List.mem_range, List.mem_cons, List.mem_singleton, List.not_mem_nil,
      or_false]
    constructor
    · intro h
      omega
    · intro h
      interval_cases a <;> simp
  · simp

end Frame

end MPC

/-! # Index safety and the frame of the evaluator -/

namespace MPC

section Safety
variable {α : Type} [Field α]

/-- C18: for every N ≥ 3, so also for the configured N = 10, every index that the evaluator
uses into `vars` (length 6N + 2(N-1)) and into `fg` (length 6N + 1), and every index that
`MPC::Solve` uses into the initial guess, the variable-bound vectors, the constraint-bound
vectors (length 6N) and the solution vector of the solver, is within range: no checked access
fails, so the evaluator, the construction of the problem, the reading of the solution and
`MPC::Solve` as a whole return a result, and the two reads of the solution are at
delta_start + 1, inside the steering segment, and at a_start + 1, inside the acceleration
segment. For N = 2 the read solution.x[a_start + 1] is out of range, so reading the solution
and `MPC::Solve` return nothing, and solution.x[delta_start + 1] is the entry at a_start, in
the acceleration segment instead of the steering segment. -/
theorem index_safety (T : Trig α) (fill : Nat → Nat → α) (solver : Problem α → solve_result α)
    (n : Nat) (state coeffs fg vars : List α) (solution : solve_result α)
    (hn : 3 ≤ n) (hs : 6 ≤ state.length) (hc : 4 ≤ coeffs.length)
    (hv : vars.length = 6 * n + 2 * (n - 1)) (hfg : fg.length = 6 * n + 1)
    (hx : solution.x.length = 6 * n + 2 * (n - 1))
    (hsolver : ∀ q, (solver q).x.length = q.vars.length) :
    ((FG_eval T n coeffs fg vars).isSome
      ∧ (∃ p, buildProblem T fill n state coeffs = some p
          ∧ p.vars.length = 6 * n + 2 * (n - 1)
          ∧ p.vars_lowerbound.length = 6 * n + 2 * (n - 1)
          ∧ p.vars_upperbound.length = 6 * n + 2 * (n - 1)
          ∧ p.constraints_lowerbound.length = 6 * n
          ∧ p.constraints_upperbound.length = 6 * n)
      ∧ (readSolution n solution).isSome
      ∧ (Solve T solver fill n state coeffs).isSome
      ∧ (delta_start n ≤ delta_start n + 1 ∧ delta_start n + 1 < a_start n)
      ∧ (a_start n ≤ a_start n + 1 ∧ a_start n + 1 < solution.x.length))
    ∧ (∀ s2 : solve_result α, s2.x.length = 6 * 2 + 2 * (2 - 1) →
        rd s2.x (a_start 2 + 1) = none
        ∧ readSolution 2 s2 = none
        ∧ delta_start 2 + 1 = a_start 2
        ∧ (a_start 2 ≤ delta_start 2 + 1 ∧ delta_start 2 + 1 < s2.x.length))
    ∧ (Solve T solver fill 2 state coeffs = none) := by
  have hn1 : 1 ≤ n := by omega
  have hnv : n_vars n = 6 * n + 2 * (n - 1) := by rw [n_vars_eq hn1]; omega
  have hnc := n_constraints_eq n
  have e6 := delta_start_eq n
  have e7 := a_start_eq hn1
  have hd2 : delta_start 2 = 12 := by rw [delta_start_eq]
  have ha2 : a_start 2 = 13 := by rw [a_start_eq (by decide)]
  have hread2 : ∀ s2 : solve_result α, s2.x.length = 6 * 2 + 2 * (2 - 1) →
      readSolution 2 s2 = none := by
    intro s2 h2
    have r1 : rd s2.x (delta_start 2 + 1) = some (s2.x.getD (delta_start 2 + 1) 0) :=
      rd_of_lt (by omega)
    have r2 : rd s2.x (a_start 2 + 1) = none := rd_eq_none (by omega)
    simp only [readSolution, r1, r2, Option.bind_eq_bind, Option.some_bind,
      Option.none_bind]
  refine ⟨⟨?_, ?_, ?_, ?_, ⟨by omega, by omega⟩, ⟨by omega, by omega⟩⟩, ?_, ?_⟩
  · obtain ⟨fg', h1, -⟩ := FG_eval_spec T (by omega : 2 ≤ n) (hv.trans hnv.symm) hc fg
      (by omega)
    rw [h1]
    rfl
  · obtain ⟨p, hp, -, -, hvars, hl, hu, -, -, -, hcl, hcu⟩ :=
      buildProblem_spec T fill hn1 state coeffs hs
    refine ⟨p, hp, ?_, by omega, by omega, ?_, ?_⟩
    · rw [hvars, length_setAll]; simp [hnv]
    · rw [hcl, length_setAll]; simp [hnc]
    · rw [hcu, length_setAll]; simp [hnc]
  · rw [readSolution_spec hn1 solution (by omega)]
    rfl
  · obtain ⟨p, -, -, h⟩ := Solve_spec T solver fill hn state coeffs hs hsolver
    rw [h]
    rfl
  · intro s2 h2
    exact ⟨rd_eq_none (by omega), hread2 s2 h2, by omega, by omega, by omega⟩
  · obtain ⟨p, hp, -, -, hvars, -⟩ := buildProblem_spec T fill (by decide : 1 ≤ 2) state
      coeffs hs
    have hl : (solver p).x.length = 6 * 2 + 2 * (2 - 1) := by
      rw [hsolver p, hvars, length_setAll]
      simp [n_vars_eq (by decide : 1 ≤ 2)]
    simp only [Solve, hp, Option.bind_eq_bind, Option.some_bind]
    exact hread2 _ hl

/-- C19: the evaluator overwrites every entry of `fg`. For N = 10, on a decision vector of
6N + 2(N-1) entries, coefficients with the four entries it reads and an `fg` of 6N + 1
entries, the call performs the assignment of the cost to entry 0 and then the assignments of
the constraint rows; the indices assigned are each of 0..6N exactly once; so the resulting
`fg` is the same whatever `fg` held before the call. -/
theorem evaluator_overwrites_fg (T : Trig α) (coeffs vars fg1 fg2 : List α)
    (hv : vars.length = 6 * N + 2 * (N - 1)) (hc : 4 ≤ coeffs.length)
    (h1 : fg1.length = 6 * N + 1) (h2 : fg2.length = 6 * N + 1) :
    ∃ g, FG_eval T N coeffs fg1 vars = some g ∧ FG_eval T N coeffs fg2 vars = some g
      ∧ g = setAll ((0, costValue N vars) :: fgWrites T N coeffs vars) fg1
      ∧ g.length = 6 * N + 1
      ∧ g[0]? = some (costValue N vars)
      ∧ List.Perm (((0, costValue N vars) :: fgWrites T N coeffs vars).map Prod.fst)
          (List.range (6 * N + 1)) := by
  have hN : 2 ≤ N := by decide
  have hv' : vars.length = n_vars N := by rw [hv]; rfl
  have e1 := FG_eval_eq T hN hv' hc fg1 (by omega)
  have e2 := FG_eval_eq T hN hv' hc fg2 (by omega)
  have hperm : List.Perm (((0, costValue N vars) :: fgWrites T N coeffs vars).map Prod.fst)
      (List.range (6 * N + 1)) := fgWrites_perm T coeffs vars
  have hcov : ∀ j, j < fg1.length →
      ∃ p ∈ ((0, costValue N vars) :: fgWrites T N coeffs vars), p.1 = j := by
    intro j hj
    have hm : j ∈ List.range (6 * N + 1) := List.mem_range.2 (by omega)
    obtain ⟨p, hp, hpj⟩ := List.mem_map.1 ((hperm.mem_iff).2 hm)
    exact ⟨p, hp, hpj⟩
  have heq := setAll_eq_of_cover ((0, costValue N vars) :: fgWrites T N coeffs vars) fg1 fg2
    (by omega) hcov
  obtain ⟨g', hg', -, hcost, -⟩ := FG_eval_spec T hN hv' hc fg1 (by omega)
  have hg : g' = setAll ((0, costValue N vars) :: fgWrites T N coeffs vars) fg1 :=
    Option.some.inj (hg'.symm.trans e1)
  refine ⟨g', hg', ?_, hg, ?_, hcost, hperm⟩
  · rw [e2, hg, heq]
  · rw [hg, length_setAll]
    exact h1

end Safety

/-- C18 at the configured horizon length N = 10. -/
theorem index_safety_witness :
    ((3 ≤ N) ∧ 6 ≤ sampleState.length ∧ 4 ≤ sampleCoeffs.length
      ∧ sampleVars.length = 6 * N + 2 * (N - 1) ∧ sampleFg.length = 6 * N + 1
      ∧ (⟨status_type.success, sampleVars, 0⟩ : solve_result ℚ).x.length
          = 6 * N + 2 * (N - 1)
      ∧ ∀ q, (sampleSolver q).x.length = q.vars.length)
    ∧ ((FG_eval sampleTrig N sampleCoeffs sampleFg sampleVars).isSome
      ∧ (∃ p, buildProblem sampleTrig sampleFill N sampleState sampleCoeffs = some p
          ∧ p.vars.length = 6 * N + 2 * (N - 1)
          ∧ p.vars_lowerbound.length = 6 * N + 2 * (N - 1)
          ∧ p.vars_upperbound.length = 6 * N + 2 * (N - 1)
          ∧ p.constraints_lowerbound.length = 6 * N
          ∧ p.constraints_upperbound.length = 6 * N)
      ∧ (readSolution N (⟨status_type.success, sampleVars, 0⟩ : solve_result ℚ)).isSome
      ∧ (Solve sampleTrig sampleSolver sampleFill N sampleState sampleCoeffs).isSome
      ∧ (delta_start N ≤ delta_start N + 1 ∧ delta_start N + 1 < a_start N)
      ∧ (a_start N ≤ a_start N + 1
          ∧ a_start N + 1 < (⟨status_type.success, sampleVars, 0⟩ : solve_result ℚ).x.length))
    ∧ (∀ s2 : solve_result ℚ, s2.x.length = 6 * 2 + 2 * (2 - 1) →
        rd s2.x (a_start 2 + 1) = none
        ∧ readSolution 2 s2 = none
        ∧ delta_start 2 + 1 = a_start 2
        ∧ (a_start 2 ≤ delta_start 2 + 1 ∧ delta_start 2 + 1 < s2.x.length))
    ∧ (Solve sampleTrig sampleSolver sampleFill 2 sampleState sampleCoeffs = none) :=
  ⟨⟨by decide, by decide, by decide, by decide, by decide, by decide, fun _ => rfl⟩,
    index_safety sampleTrig sampleFill sampleSolver N sampleState sampleCoeffs sampleFg
      sampleVars ⟨status_type.success, sampleVars, 0⟩ (by decide) (by decide) (by decide)
      (by decide) (by decide) (by decide) (fun _ => rfl)⟩

/-- C19 on the sample decision vector, from an `fg` filled with 7 and one filled with 0. -/
theorem evaluator_overwrites_fg_witness :
    (sampleVars.length = 6 * N + 2 * (N - 1) ∧ 4 ≤ sampleCoeffs.length
      ∧ sampleFg.length = 6 * N + 1 ∧ (List.replicate 61 (0 : ℚ)).length = 6 * N + 1)
    ∧ ∃ g, FG_eval sampleTrig N sampleCoeffs sampleFg sampleVars = some g
      ∧ FG_eval sampleTrig N sampleCoeffs (List.replicate 61 0) sampleVars = some g
      ∧ g = setAll ((0, costValue N sampleVars) :: fgWrites sampleTrig N sampleCoeffs sampleVars)
          sampleFg
      ∧ g.length = 6 * N + 1
      ∧ g[0]? = some (costValue N sampleVars)
      ∧ List.Perm
          (((0, costValue N sampleVars) :: fgWrites sampleTrig N sampleCoeffs sampleVars).map
            Prod.fst)
          (List.range (6 * N + 1)) :=
  ⟨⟨by decide, by decide, by decide, by decide⟩,
    evaluator_overwrites_fg sampleTrig sampleCoeffs sampleVars sampleFg (List.replicate 61 0)
      (by decide) (by decide) (by decide) (by decide)⟩

end MPC
